import Mathlib

/-!
# SafePointer_C: the handle table of `safemem.h`

A shallow embedding of the library part of `src/safemem.h` (the code under
`C_SAFEMEM_IMPL`, built without `C_SAFEMEM_DEBUG`).

Conventions of the embedding

* `size_t` is a natural number below `2^64`; every `size_t` addition of the source that
  can wrap is written with an explicit `% SIZE_MOD` (a loop variable stays below the
  bound of its loop).
* A `void*` is a natural number, `0` being `NULL`.
* The three global arrays are lists; the `NULL` array pointer is the empty list.
  Reading or writing an array outside its extent is undefined behaviour in C; here
  the access yields `none`, and so does the operation that performed it.  An operation
  therefore returns `Option _`: `none` means "no defined behaviour", `some r` is the
  value returned together with the new global state.
* `calloc` is answered by the caller-supplied list `heap`: each request consumes the
  head of the list, `0` (or an exhausted list) is a refused request.  `free` of a
  storage block has no effect on the globals and is not represented.
* `SAFEPTR_RESOURCE_LOCK` / `UNLOCK` expand to nothing (the default of the header).
-/

namespace SafeMem

/-! ## Data model -/

/-- The modulus of `size_t` arithmetic, `2^64`. -/
def SIZE_MOD : Nat := 18446744073709551616

/-- Largest `size_t`, `SIZE_MAX` of `stdint.h`. -/
def SIZE_MAX : Nat := 18446744073709551615

/-- Number of slots added by one growth, `C_SAFEMEM_BLOCK_SIZE`. -/
def C_SAFEMEM_BLOCK_SIZE : Nat := 512

/-- The null pointer. -/
def NULL : Nat := 0

/-- The `safeptrhash` struct: two `size_t` words, in declaration order. -/
structure safeptrhash where
  part2 : Nat
  part1 : Nat
deriving DecidableEq

/-- The `safepointer` struct: slot index, requested size, generation stamp. -/
structure safepointer where
  indy : Nat
  size : Nat
  hash : safeptrhash
deriving DecidableEq

/-- The macro `SAFEPTR_INIT`. -/
def SAFEPTR_INIT : safepointer := ⟨0, 0, ⟨0, 0⟩⟩

/-- The macro `SAFEPTRHASH_MAX`. -/
def SAFEPTRHASH_MAX : safeptrhash := ⟨SIZE_MAX, SIZE_MAX⟩

/-- The macro `SAFEPTRHASH_ZERO`. -/
def SAFEPTRHASH_ZERO : safeptrhash := ⟨0, 0⟩

/-- The enum `c_safemem_error_state`. -/
inductive c_safemem_error_state where
  | C_SAFEMEM_NO_ERR
  | C_SAFEMEM_BAD_PTR
  | C_SAFEMEM_BAD_INDEX
  | C_SAFEMEM_INVALID_STATE
  | C_SAFEMEM_FAILED_MALLOC
deriving DecidableEq

open c_safemem_error_state

/-- The global variables of `safemem.h`, under their source names. -/
structure State where
  c_safemem_ptrs : List Nat
  c_safemem_hashes : List safeptrhash
  c_safemem_scheduled_deaths : List Nat
  c_safemem_nptrs : Nat
  c_safemem_failed_malloc : Nat
  quick : Nat
  c_safemem_hash_counter : safeptrhash
  c_safemem_update_calls : Nat
deriving DecidableEq

/-- The static initialisers of the globals (lines 79-86). -/
def initial_state : State where
  c_safemem_ptrs := []
  c_safemem_hashes := []
  c_safemem_scheduled_deaths := []
  c_safemem_nptrs := 0
  c_safemem_failed_malloc := 0
  quick := 0
  c_safemem_hash_counter := ⟨0, 1⟩
  c_safemem_update_calls := 1

/-! ## Memory primitives -/

/-- Array read `a[i]`; `none` outside the extent of the array. -/
def rd {α : Type} (a : List α) (i : Nat) : Option α := a[i]?

/-- Array write `a[i] = v`; `none` outside the extent of the array. -/
def wr {α : Type} (a : List α) (i : Nat) (v : α) : Option (List α) :=
  if i < a.length then some (a.set i v) else none

/-- The pointer returned by the next `calloc` request. -/
def calloc_ret (heap : List Nat) : Nat := heap.headD NULL

/-- The replies left after one `calloc` request. -/
def calloc_rest (heap : List Nat) : List Nat := heap.tail

/-- One array of `safepointer_expand_storage`: a zero-filled array of `n_new` entries
into which, when the old array pointer is not `NULL`, `memcpy` copies the first `n_old`
entries of the old array.  A copy that leaves either array is undefined. -/
def expand_array {α : Type} (zero : α) (old : List α) (n_old n_new : Nat) :
    Option (List α) :=
  if old.isEmpty then some (List.replicate n_new zero)
  else if n_old ≤ old.length ∧ n_old ≤ n_new then
    some (old.take n_old ++ List.replicate (n_new - n_old) zero)
  else none

/-! ## Operations -/

/-- The function `safepointer_increment_hash_counter`: `part1++`, and `part2++` when
`part1` wrapped to zero. -/
def safepointer_increment_hash_counter (st : State) : State :=
  let p1 := (st.c_safemem_hash_counter.part1 + 1) % SIZE_MOD
  let p2 := if p1 = 0 then (st.c_safemem_hash_counter.part2 + 1) % SIZE_MOD
            else st.c_safemem_hash_counter.part2
  { st with c_safemem_hash_counter := ⟨p2, p1⟩ }

/-- The function `safepointer_increment_calls`. -/
def safepointer_increment_calls (st : State) : State :=
  { st with c_safemem_update_calls := (st.c_safemem_update_calls + 1) % SIZE_MOD }

/-- The function `safepointer_expand_storage`: returns the C return value (`0` success,
`1` failure), the new globals and the heap replies left. -/
def safepointer_expand_storage (st : State) (heap : List Nat) :
    Option (Nat × State × List Nat) :=
  if st.c_safemem_failed_malloc ≠ 0 then
    some (1, { st with c_safemem_failed_malloc := 1 }, heap)
  else
    let ptrs_old := st.c_safemem_ptrs
    let hashes_old := st.c_safemem_hashes
    let deaths_old := st.c_safemem_scheduled_deaths
    let nptrs_old := st.c_safemem_nptrs
    let st1 := { st with c_safemem_nptrs := (st.c_safemem_nptrs + C_SAFEMEM_BLOCK_SIZE) % SIZE_MOD }
    if calloc_ret heap = NULL then
      some (1, { st1 with c_safemem_ptrs := [], c_safemem_failed_malloc := 1 }, calloc_rest heap)
    else
      match expand_array NULL ptrs_old nptrs_old st1.c_safemem_nptrs with
      | none => none
      | some ptrs =>
        let st2 := { st1 with c_safemem_ptrs := ptrs }
        let heap2 := calloc_rest heap
        if calloc_ret heap2 = NULL then
          some (1, { st2 with c_safemem_hashes := [], c_safemem_failed_malloc := 1 },
            calloc_rest heap2)
        else
          match expand_array SAFEPTRHASH_ZERO hashes_old nptrs_old st2.c_safemem_nptrs with
          | none => none
          | some hashes =>
            let st3 := { st2 with c_safemem_hashes := hashes }
            let heap3 := calloc_rest heap2
            if calloc_ret heap3 = NULL then
              some (1, { st3 with c_safemem_scheduled_deaths := [],
                                  c_safemem_failed_malloc := 1 }, calloc_rest heap3)
            else
              match expand_array 0 deaths_old nptrs_old st3.c_safemem_nptrs with
              | none => none
              | some deaths =>
                some (0, { st3 with c_safemem_scheduled_deaths := deaths }, calloc_rest heap3)

/-- The `for` loop of `safepointer_malloc` (lines 162-172) as far as it searches:
`i` is the loop variable and the last argument the number of iterations left before
`i` reaches `end`.  Returns the first `i` with `c_safemem_ptrs[i] == NULL`, if any. -/
def malloc_scan (ptrs : List Nat) (i : Nat) : Nat → Option (Option Nat)
  | 0 => some none
  | k + 1 =>
    match rd ptrs i with
    | none => none
    | some p => if p = NULL then some (some i) else malloc_scan ptrs (i + 1) k

/-- How the `while` loop of `safepointer_malloc` is left: by the `return s` after a
failed growth, or by its condition becoming false. -/
inductive MallocExit where
  | ret (s : safepointer) (st : State)
  | done (s : safepointer) (st : State) (heap : List Nat)
deriving DecidableEq

/-- The `while(s.indy == SIZE_MAX)` loop of `safepointer_malloc` (lines 161-189).
The first argument bounds the number of evaluations of the loop condition; `s` and
`end_` are the locals `s` and `end`. -/
def malloc_while : Nat → safepointer → Nat → State → List Nat → Option MallocExit
  | 0, _, _, _, _ => none
  | fuel + 1, s, end_, st, heap =>
    if s.indy ≠ SIZE_MAX then some (MallocExit.done s st heap)
    else
      match malloc_scan st.c_safemem_ptrs st.quick (end_ - st.quick) with
      | none => none
      | some found =>
        let s1 : safepointer :=
          match found with
          | some i => { s with hash := (safepointer_increment_hash_counter st).c_safemem_hash_counter,
                               indy := i }
          | none => s
        let st1 : State :=
          match found with
          | some i => { safepointer_increment_hash_counter st with quick := (i + 1) % SIZE_MOD }
          | none => st
        if s1.indy = SIZE_MAX ∧ st1.quick ≠ 0 then
          malloc_while fuel s1 st1.quick { st1 with quick := 0 } heap
        else if s1.indy = SIZE_MAX then
          match safepointer_expand_storage st1 heap with
          | none => none
          | some (r, st2, heap2) =>
            if r ≠ 0 then some (MallocExit.ret s1 st2)
            else malloc_while fuel s1 st2.c_safemem_nptrs { st2 with quick := 0 } heap2
        else malloc_while fuel s1 end_ st1 heap

/-- A bound on the evaluations of the loop condition that `safepointer_malloc` can
need: one for the switch to the second pass, one for each growth (a growth that does
not end the call consumes three heap replies), one for the pass that finds a slot and
one to leave the loop. -/
def malloc_fuel (heap : List Nat) : Nat := heap.length + 4

/-- The function `safepointer_malloc`. -/
def safepointer_malloc (st : State) (sz lifetime : Nat) (heap : List Nat) :
    Option (safepointer × State) :=
  let s : safepointer := { indy := SIZE_MAX, size := 0, hash := SAFEPTRHASH_MAX }
  let end_ := st.c_safemem_nptrs
  if st.c_safemem_failed_malloc ≠ 0 then some (s, st)
  else
    match malloc_while (malloc_fuel heap) s end_ st heap with
    | none => none
    | some (MallocExit.ret s1 st1) => some (s1, st1)
    | some (MallocExit.done s1 st1 heap1) =>
      if s1.indy ≠ SIZE_MAX then
        match wr st1.c_safemem_ptrs s1.indy (calloc_ret heap1) with
        | none => none
        | some ptrs =>
          let st2 := { st1 with c_safemem_ptrs := ptrs }
          if calloc_ret heap1 = NULL then
            some (s1, { st2 with c_safemem_failed_malloc := 1 })
          else
            let s2 := { s1 with size := sz }
            match wr st2.c_safemem_hashes s2.indy s2.hash with
            | none => none
            | some hashes =>
              match wr st2.c_safemem_scheduled_deaths s2.indy
                  ((st2.c_safemem_update_calls + lifetime) % SIZE_MOD) with
              | none => none
              | some deaths =>
                some (s2, { st2 with c_safemem_hashes := hashes,
                                     c_safemem_scheduled_deaths := deaths })
      else some (s1, st1)

/-- The four statements that empty slot `i`, as they occur in `safepointer_free`,
`safepointer_collect_garbage` and `safepointer_collect_all`:
`c_safemem_ptrs[i] = NULL; c_safemem_scheduled_deaths[i] = 0;`
`c_safemem_hashes[i].part1 = 0; c_safemem_hashes[i].part2 = 0;`. -/
def release_slot (st : State) (i : Nat) : Option State :=
  match wr st.c_safemem_ptrs i NULL with
  | none => none
  | some ptrs =>
    match wr st.c_safemem_scheduled_deaths i 0 with
    | none => none
    | some deaths =>
      match wr st.c_safemem_hashes i SAFEPTRHASH_ZERO with
      | none => none
      | some hashes =>
        some { st with c_safemem_ptrs := ptrs, c_safemem_scheduled_deaths := deaths,
                       c_safemem_hashes := hashes }

/-- The `for` loop of `safepointer_collect_garbage` (lines 217-229): `i` is the loop
variable, the last argument the number of iterations left. -/
def collect_garbage_loop (st : State) (i : Nat) : Nat → Option State
  | 0 => some st
  | k + 1 =>
    match rd st.c_safemem_ptrs i with
    | none => none
    | some p =>
      if p ≠ NULL then
        match rd st.c_safemem_scheduled_deaths i with
        | none => none
        | some d =>
          if d = st.c_safemem_update_calls then
            match release_slot st i with
            | none => none
            | some st1 => collect_garbage_loop st1 (i + 1) k
          else collect_garbage_loop st (i + 1) k
      else collect_garbage_loop st (i + 1) k

/-- The function `safepointer_collect_garbage`. -/
def safepointer_collect_garbage (st : State) : Option (c_safemem_error_state × State) :=
  if st.c_safemem_failed_malloc ≠ 0 then some (C_SAFEMEM_FAILED_MALLOC, st)
  else
    match collect_garbage_loop st 0 st.c_safemem_nptrs with
    | none => none
    | some st1 => some (C_SAFEMEM_NO_ERR, safepointer_increment_calls st1)

/-- The `for` loop of `safepointer_collect_all` (lines 244-255). -/
def collect_all_loop (st : State) (i : Nat) : Nat → Option State
  | 0 => some st
  | k + 1 =>
    match rd st.c_safemem_ptrs i with
    | none => none
    | some p =>
      if p ≠ NULL then
        match release_slot st i with
        | none => none
        | some st1 => collect_all_loop st1 (i + 1) k
      else collect_all_loop st (i + 1) k

/-- The function `safepointer_collect_all`.  The source resets neither
`c_safemem_nptrs` nor `quick`. -/
def safepointer_collect_all (st : State) : Option (c_safemem_error_state × State) :=
  if st.c_safemem_failed_malloc ≠ 0 then some (C_SAFEMEM_FAILED_MALLOC, st)
  else
    match collect_all_loop st 0 st.c_safemem_nptrs with
    | none => none
    | some st1 =>
      some (C_SAFEMEM_NO_ERR,
        { st1 with c_safemem_ptrs := [], c_safemem_scheduled_deaths := [],
                   c_safemem_hashes := [], c_safemem_failed_malloc := 0,
                   c_safemem_hash_counter := ⟨0, 1⟩, c_safemem_update_calls := 1 })

/-- The function `safepointer_deref`; the result is the pointer returned. -/
def safepointer_deref (st : State) (f : safepointer) : Option Nat :=
  if st.c_safemem_failed_malloc ≠ 0 then some NULL
  else if f.indy ≥ st.c_safemem_nptrs then some NULL
  else
    match rd st.c_safemem_hashes f.indy with
    | none => none
    | some h =>
      if h.part1 = f.hash.part1 ∧ h.part2 = f.hash.part2 then rd st.c_safemem_ptrs f.indy
      else some NULL

/-- The function `safepointer_keepalive`; the result is the new global state. -/
def safepointer_keepalive (st : State) (f : safepointer) (lifetime : Nat) : Option State :=
  if st.c_safemem_failed_malloc ≠ 0 then some st
  else if f.indy ≥ st.c_safemem_nptrs then some st
  else
    match rd st.c_safemem_hashes f.indy with
    | none => none
    | some h =>
      if h.part1 = f.hash.part1 ∧ h.part2 = f.hash.part2 then
        match wr st.c_safemem_scheduled_deaths f.indy
            ((st.c_safemem_update_calls + lifetime) % SIZE_MOD) with
        | none => none
        | some deaths => some { st with c_safemem_scheduled_deaths := deaths }
      else some st

/-- The function `safepointer_free`. -/
def safepointer_free (st : State) (f : safepointer) : Option (c_safemem_error_state × State) :=
  if st.c_safemem_failed_malloc ≠ 0 then some (C_SAFEMEM_FAILED_MALLOC, st)
  else if f.indy ≥ st.c_safemem_nptrs then some (C_SAFEMEM_BAD_PTR, st)
  else
    match rd st.c_safemem_ptrs f.indy with
    | none => none
    | some p =>
      if p ≠ NULL then
        match rd st.c_safemem_hashes f.indy with
        | none => none
        | some h =>
          if h.part1 = f.hash.part1 ∧ h.part2 = f.hash.part2 then
            match release_slot st f.indy with
            | none => none
            | some st1 => some (C_SAFEMEM_NO_ERR, st1)
          else some (C_SAFEMEM_INVALID_STATE, st)
      else some (C_SAFEMEM_INVALID_STATE, st)

/-- The call `safepointer_collect_garbage()` made `n` times in a row, the status
returned being ignored as in `main`. -/
def collect_garbage_times : Nat → State → Option State
  | 0, st => some st
  | n + 1, st =>
    match safepointer_collect_garbage st with
    | none => none
    | some (_, st1) => collect_garbage_times n st1

/-- The scenario "allocate, sweep `n` times, dereference": the pointer that
`safepointer_deref` returns for the handle of `safepointer_malloc(sz, lifetime)` after
`n` calls of `safepointer_collect_garbage`. -/
def deref_after_sweeps (st : State) (sz lifetime : Nat) (heap : List Nat) (n : Nat) :
    Option Nat :=
  match safepointer_malloc st sz lifetime heap with
  | none => none
  | some (h, st1) =>
    match collect_garbage_times n st1 with
    | none => none
    | some stn => safepointer_deref stn h

/-- The scenario "allocate, sweep `n` times, free": the status that `safepointer_free`
returns for the handle of `safepointer_malloc(sz, lifetime)` after `n` calls of
`safepointer_collect_garbage`. -/
def free_after_sweeps (st : State) (sz lifetime : Nat) (heap : List Nat) (n : Nat) :
    Option c_safemem_error_state :=
  match safepointer_malloc st sz lifetime heap with
  | none => none
  | some (h, st1) =>
    match collect_garbage_times n st1 with
    | none => none
    | some stn =>
      match safepointer_free stn h with
      | none => none
      | some (r, _) => some r

/-! ## Vocabulary of the specification -/

/-- The instance is healthy: the poison flag `c_safemem_failed_malloc` is clear. -/
def healthy (st : State) : Prop := st.c_safemem_failed_malloc = 0

instance (st : State) : Decidable (healthy st) := by unfold healthy; infer_instance

/-- The three arrays hold exactly `c_safemem_nptrs` entries. -/
def Lens (st : State) : Prop :=
  st.c_safemem_ptrs.length = st.c_safemem_nptrs ∧
  st.c_safemem_hashes.length = st.c_safemem_nptrs ∧
  st.c_safemem_scheduled_deaths.length = st.c_safemem_nptrs

instance (st : State) : Decidable (Lens st) := by unfold Lens; infer_instance

/-- The table invariant: the arrays have the table length, the cursor `quick` is at
most the table length, and the `size_t` globals `c_safemem_nptrs`,
`c_safemem_update_calls` and the two words of `c_safemem_hash_counter` are
representable. -/
def WF (st : State) : Prop :=
  Lens st ∧ st.quick ≤ st.c_safemem_nptrs ∧ st.c_safemem_nptrs ≤ SIZE_MAX ∧
  st.c_safemem_update_calls ≤ SIZE_MAX ∧
  st.c_safemem_hash_counter.part1 ≤ SIZE_MAX ∧ st.c_safemem_hash_counter.part2 ≤ SIZE_MAX

instance (st : State) : Decidable (WF st) := by unfold WF; infer_instance

/-- Entry `i` of `c_safemem_ptrs` (`NULL` outside the array). -/
def ptr_at (st : State) (i : Nat) : Nat := st.c_safemem_ptrs.getD i NULL

/-- Entry `i` of `c_safemem_hashes` (zero outside the array). -/
def hash_at (st : State) (i : Nat) : safeptrhash := st.c_safemem_hashes.getD i SAFEPTRHASH_ZERO

/-- Entry `i` of `c_safemem_scheduled_deaths` (zero outside the array). -/
def death_at (st : State) (i : Nat) : Nat := st.c_safemem_scheduled_deaths.getD i 0

/-- A handle is valid: its index is below the table length, the generation stored in
the slot equals the handle's in both words, and the slot is occupied. -/
def valid (st : State) (f : safepointer) : Prop :=
  f.indy < st.c_safemem_nptrs ∧
  ((hash_at st f.indy).part1 = f.hash.part1 ∧ (hash_at st f.indy).part2 = f.hash.part2) ∧
  ptr_at st f.indy ≠ NULL

instance (st : State) (f : safepointer) : Decidable (valid st f) := by unfold valid; infer_instance

/-- Slot `i` is due in the current sweep: occupied, with scheduled death equal to the
current value of `c_safemem_update_calls`. -/
def expired (st : State) (i : Nat) : Prop :=
  ptr_at st i ≠ NULL ∧ death_at st i = st.c_safemem_update_calls

instance (st : State) (i : Nat) : Decidable (expired st i) := by unfold expired; infer_instance

/-- The globals after slot `i` has been emptied. -/
def released (st : State) (i : Nat) : State :=
  { st with c_safemem_ptrs := st.c_safemem_ptrs.set i NULL,
            c_safemem_scheduled_deaths := st.c_safemem_scheduled_deaths.set i 0,
            c_safemem_hashes := st.c_safemem_hashes.set i SAFEPTRHASH_ZERO }

/-- The globals after a successful growth by one block: every array gains
`C_SAFEMEM_BLOCK_SIZE` zero entries behind the entries it had. -/
def grown (st : State) : State :=
  { st with
    c_safemem_nptrs := st.c_safemem_nptrs + C_SAFEMEM_BLOCK_SIZE,
    c_safemem_ptrs := st.c_safemem_ptrs ++ List.replicate C_SAFEMEM_BLOCK_SIZE NULL,
    c_safemem_hashes := st.c_safemem_hashes ++ List.replicate C_SAFEMEM_BLOCK_SIZE SAFEPTRHASH_ZERO,
    c_safemem_scheduled_deaths :=
      st.c_safemem_scheduled_deaths ++ List.replicate C_SAFEMEM_BLOCK_SIZE 0 }

/-- The generation that the next allocation stamps: the counter after one
`safepointer_increment_hash_counter`. -/
def next_hash (st : State) : safeptrhash :=
  (safepointer_increment_hash_counter st).c_safemem_hash_counter

/-- The globals after an allocation has taken slot `i` of the table `base` with storage
pointer `p` and the given lifetime. -/
def stamped (base : State) (i lifetime p : Nat) : State :=
  { base with
    c_safemem_ptrs := base.c_safemem_ptrs.set i p,
    c_safemem_hashes := base.c_safemem_hashes.set i (next_hash base),
    c_safemem_scheduled_deaths :=
      base.c_safemem_scheduled_deaths.set i ((base.c_safemem_update_calls + lifetime) % SIZE_MOD),
    quick := (i + 1) % SIZE_MOD,
    c_safemem_hash_counter := next_hash base }

/-- The first three `calloc` requests (the three arrays of a growth) are granted. -/
def grants3 (heap : List Nat) : Prop :=
  calloc_ret heap ≠ NULL ∧ calloc_ret (calloc_rest heap) ≠ NULL ∧
  calloc_ret (calloc_rest (calloc_rest heap)) ≠ NULL

instance (heap : List Nat) : Decidable (grants3 heap) := by unfold grants3; infer_instance

/-- Index `i` is the first empty slot at or after `lo`. -/
def first_empty (st : State) (lo i : Nat) : Prop :=
  lo ≤ i ∧ ptr_at st i = NULL ∧ ∀ t, lo ≤ t → t < i → ptr_at st t ≠ NULL

/-- The state in which the `while` loop of `safepointer_malloc` ends after the scan
found slot `i`. -/
def found_exit (s : safepointer) (st : State) (i : Nat) (heap : List Nat) : MallocExit :=
  MallocExit.done { s with hash := next_hash st, indy := i }
    { safepointer_increment_hash_counter st with quick := (i + 1) % SIZE_MOD } heap

/-- The handle with which `safepointer_malloc` starts: `indy = SIZE_MAX`,
`hash = SAFEPTRHASH_MAX`, `size = 0`. -/
def sentinel : safepointer := { indy := SIZE_MAX, size := 0, hash := SAFEPTRHASH_MAX }

/-- The globals after the storage request for slot `i` of the table `base` was refused:
the counter has been incremented, the cursor moved, and the instance is poisoned. -/
def refused (base : State) (i : Nat) : State :=
  { base with
    c_safemem_ptrs := base.c_safemem_ptrs.set i NULL,
    quick := (i + 1) % SIZE_MOD,
    c_safemem_hash_counter := next_hash base,
    c_safemem_failed_malloc := 1 }

/-- The three heap replies of a growth have been consumed. -/
def after_growth (heap : List Nat) : List Nat := calloc_rest (calloc_rest (calloc_rest heap))

/-- Every `calloc` request of one `safepointer_malloc` call is granted: the heap has
replies for the at most four requests (three arrays of a growth, one storage block), and
none of them is `NULL`. -/
def grants_all (heap : List Nat) : Prop := 4 ≤ heap.length ∧ ∀ a ∈ heap, a ≠ NULL

instance (heap : List Nat) : Decidable (grants_all heap) := by unfold grants_all; infer_instance

/-- The table length can grow by one block without wrapping `size_t`. -/
def room (st : State) : Prop := st.c_safemem_nptrs + C_SAFEMEM_BLOCK_SIZE < SIZE_MOD

instance (st : State) : Decidable (room st) := by unfold room; infer_instance

/-- The effect of a successful `safepointer_malloc sz lifetime` that returned handle `h`
and placed the storage pointer `p`, from globals `st` to globals `st'`. -/
structure Allocated (st : State) (sz lifetime : Nat) (h : safepointer) (st' : State)
    (p : Nat) : Prop where
  storage_ne : p ≠ NULL
  size_eq : h.size = sz
  hash_eq : h.hash = next_hash st
  index_lt : h.indy < st'.c_safemem_nptrs
  was_empty : ptr_at st h.indy = NULL
  length_cases : st'.c_safemem_nptrs = st.c_safemem_nptrs ∨
    (st'.c_safemem_nptrs = st.c_safemem_nptrs + C_SAFEMEM_BLOCK_SIZE ∧
      h.indy = st.c_safemem_nptrs ∧ ∀ t, t < st.c_safemem_nptrs → ptr_at st t ≠ NULL)
  wf : WF st'
  is_healthy : healthy st'
  cursor : st'.quick = h.indy + 1
  counter : st'.c_safemem_hash_counter = next_hash st
  epoch : st'.c_safemem_update_calls = st.c_safemem_update_calls
  ptrs : ∀ j, ptr_at st' j = if j = h.indy then p else ptr_at st j
  hashes : ∀ j, hash_at st' j = if j = h.indy then next_hash st else hash_at st j
  deaths : ∀ j, death_at st' j =
    if j = h.indy then (st.c_safemem_update_calls + lifetime) % SIZE_MOD else death_at st j

/-- Heap replies used in the worked examples: the three arrays of the first growth are
granted, and the storage block is at address `7`. -/
def demo_heap : List Nat := [1, 1, 1, 7]

/-- The handle that `safepointer_malloc(40, 3)` returns on the initial state. -/
def demo_handle : safepointer := ⟨0, 40, ⟨0, 2⟩⟩

/-- The globals after `safepointer_malloc(40, 3)` on the initial state with the replies
`demo_heap`: one block of 512 slots, slot 0 taken. -/
def demo_state : State := stamped (grown initial_state) 0 3 7

/-! ## Sequences of calls -/

/-- A call of one of the six public functions, with its arguments and, for
`safepointer_malloc`, the replies of the heap during the call. -/
inductive Op where
  | malloc (sz lifetime : Nat) (heap : List Nat)
  | free (f : safepointer)
  | deref (f : safepointer)
  | keepalive (f : safepointer) (lifetime : Nat)
  | collect_garbage
  | collect_all
deriving DecidableEq

/-- One call: the globals afterwards and, when the call is a `safepointer_malloc` that
succeeded (it returned with the instance not poisoned), the handle it returned.
`none` when the call has no defined behaviour. -/
def step (st : State) : Op → Option (State × Option safepointer)
  | Op.malloc sz lifetime heap =>
    match safepointer_malloc st sz lifetime heap with
    | none => none
    | some (h, st1) => some (st1, if st1.c_safemem_failed_malloc = 0 then some h else none)
  | Op.free f =>
    match safepointer_free st f with
    | none => none
    | some (_, st1) => some (st1, none)
  | Op.deref f =>
    match safepointer_deref st f with
    | none => none
    | some _ => some (st, none)
  | Op.keepalive f lifetime =>
    match safepointer_keepalive st f lifetime with
    | none => none
    | some st1 => some (st1, none)
  | Op.collect_garbage =>
    match safepointer_collect_garbage st with
    | none => none
    | some (_, st1) => some (st1, none)
  | Op.collect_all =>
    match safepointer_collect_all st with
    | none => none
    | some (_, st1) => some (st1, none)

/-- The globals after a sequence of calls; `none` when a call has no defined
behaviour. -/
def exec : State → List Op → Option State
  | st, [] => some st
  | st, op :: ops =>
    match step st op with
    | none => none
    | some (st1, _) => exec st1 ops

/-- The handles returned by the successful `safepointer_malloc` calls of a sequence, in
order of issue, up to the end of the sequence or to the first call without defined
behaviour. -/
def issued : State → List Op → List safepointer
  | _, [] => []
  | st, op :: ops =>
    match step st op with
    | none => []
    | some (st1, none) => issued st1 ops
    | some (st1, some h) => h :: issued st1 ops

/-- Number of `safepointer_malloc` calls in a sequence. -/
def malloc_count : List Op → Nat
  | [] => 0
  | Op.malloc _ _ _ :: ops => malloc_count ops + 1
  | _ :: ops => malloc_count ops

/-- The value `v` of the two-word generation counter as a `safeptrhash`: `part1` is the
word that `safepointer_increment_hash_counter` increments first, `part2` the word that
receives its carry. -/
def hash_of_val (v : Nat) : safeptrhash := ⟨(v / SIZE_MOD) % SIZE_MOD, v % SIZE_MOD⟩

/-- Number of values of the two-word generation counter, `2^128`. -/
def HASH_MOD : Nat := 340282366920938463463374607431768211456

/-- The handles `hs` carry the consecutive generations `v + 1`, `v + 2`, ... -/
def stamps_from (v : Nat) : List safepointer → Prop
  | [] => True
  | h :: hs => h.hash = hash_of_val (v + 1) ∧ stamps_from (v + 1) hs

/-- The state of a healthy table whose generation counter holds the value `v`; as long
as the table has never grown, the counter is still at its initial value. -/
def Good (st : State) (v : Nat) : Prop :=
  healthy st ∧ WF st ∧ st.c_safemem_hash_counter = hash_of_val v ∧
  (st.c_safemem_nptrs = 0 → hash_of_val v = ⟨0, 1⟩)

/-- The state that `safepointer_collect_all` leaves behind a table that had grown: the
arrays are `NULL` while `c_safemem_nptrs` still holds the old length. -/
def Torn (st : State) : Prop :=
  healthy st ∧ st.c_safemem_ptrs = [] ∧ st.c_safemem_hashes = [] ∧ 0 < st.c_safemem_nptrs

/-- The globals after `safepointer_collect_all` returned `C_SAFEMEM_NO_ERR`. -/
def torn_down (st : State) : State :=
  { st with c_safemem_ptrs := [], c_safemem_scheduled_deaths := [], c_safemem_hashes := [],
            c_safemem_failed_malloc := 0, c_safemem_hash_counter := ⟨0, 1⟩,
            c_safemem_update_calls := 1 }

/-- The sequence `safepointer_malloc(1, 0); safepointer_collect_garbage();` repeated
`n` times. -/
def churn : Nat → List Op
  | 0 => []
  | n + 1 => Op.malloc 1 0 demo_heap :: Op.collect_garbage :: churn n

/-- A healthy table without any occupied slot and of at most one block, the states
between the rounds of `churn`. -/
def Churnable (st : State) : Prop :=
  (∀ t, ptr_at st t = NULL) ∧ st.c_safemem_nptrs ≤ C_SAFEMEM_BLOCK_SIZE

/-- The slot that `safepointer_malloc` takes in a table without occupied slots: the one
at the cursor, or slot 0 when the cursor is at the end of the table. -/
def churn_index (st : State) : Nat :=
  if st.quick < st.c_safemem_nptrs then st.quick else 0

/-- The scenario of the stale handle on the initial state: allocate `h`, free it, make
the calls `ops`, allocate `h2`; when both allocations succeeded, the free returned
`C_SAFEMEM_NO_ERR` and `h2` has the index of `h`, the result is what
`safepointer_deref` returns for the old handle `h`. -/
def stale_deref (ops : List Op) : Option Nat :=
  match safepointer_malloc initial_state 1 0 demo_heap with
  | none => none
  | some (h, st1) =>
    match safepointer_free st1 h with
    | none => none
    | some (r, st2) =>
      match exec st2 ops with
      | none => none
      | some st3 =>
        match safepointer_malloc st3 1 0 demo_heap with
        | none => none
        | some (h2, st4) =>
          if healthy st1 ∧ r = C_SAFEMEM_NO_ERR ∧ healthy st4 ∧ h2.indy = h.indy then
            safepointer_deref st4 h
          else none

/-- A short sequence of calls for the worked example: allocate, free, allocate. -/
def demo_ops : List Op :=
  [Op.malloc 40 3 demo_heap, Op.free demo_handle, Op.malloc 8 0 demo_heap]

/-- The globals after `safepointer_malloc` on the initial state when the heap refuses
the first array of the growth: `c_safemem_nptrs` has been raised, the arrays are
`NULL`, and the instance is poisoned. -/
def demo_poisoned : State :=
  { initial_state with c_safemem_nptrs := C_SAFEMEM_BLOCK_SIZE, c_safemem_failed_malloc := 1 }

/-- The value of the generation counter read as a two-word number: `part1` is the word
incremented first, `part2` the word that receives its carry. -/
def hash_val (c : safeptrhash) : Nat := c.part2 * SIZE_MOD + c.part1

/-- Every slot of the table is either empty in both arrays or occupied in both: the
storage pointer is `NULL` exactly when the stored generation is `SAFEPTRHASH_ZERO`. -/
def slots_tagged (st : State) : Prop :=
  ∀ i, i < st.c_safemem_nptrs → (ptr_at st i ≠ NULL ↔ hash_at st i ≠ SAFEPTRHASH_ZERO)

/-! ## Basic facts -/

theorem rd_ptrs {st : State} {i : Nat} (hl : Lens st)
    (h : i < st.c_safemem_nptrs) : rd st.c_safemem_ptrs i = some (ptr_at st i) := by
  have h1 : i < st.c_safemem_ptrs.length := hl.1 ▸ h
  simp [rd, ptr_at, List.getElem?_eq_getElem h1]

theorem rd_hashes {st : State} {i : Nat} (hl : Lens st)
    (h : i < st.c_safemem_nptrs) : rd st.c_safemem_hashes i = some (hash_at st i) := by
  have h1 : i < st.c_safemem_hashes.length := hl.2.1 ▸ h
  simp [rd, hash_at, List.getElem?_eq_getElem h1]

theorem rd_deaths {st : State} {i : Nat} (hl : Lens st)
    (h : i < st.c_safemem_nptrs) : rd st.c_safemem_scheduled_deaths i = some (death_at st i) := by
  have h1 : i < st.c_safemem_scheduled_deaths.length := hl.2.2 ▸ h
  simp [rd, death_at, List.getElem?_eq_getElem h1]

theorem wr_eq_some {α : Type} {a : List α} {i : Nat} (v : α) (h : i < a.length) :
    wr a i v = some (a.set i v) := by
  simp [wr, h]

theorem hash_eq_iff (a b : safeptrhash) :
    a = b ↔ a.part1 = b.part1 ∧ a.part2 = b.part2 := by
  cases a; cases b; simp; tauto

theorem release_slot_eq {st : State} {i : Nat} (hl : Lens st) (h : i < st.c_safemem_nptrs) :
    release_slot st i = some (released st i) := by
  obtain ⟨h1, h2, h3⟩ := hl
  simp [release_slot, released, wr, h1, h2, h3, h]

theorem released_Lens {st : State} {i : Nat} (hl : Lens st) : Lens (released st i) := by
  obtain ⟨h1, h2, h3⟩ := hl
  simp [Lens, released, h1, h2, h3]

theorem ptr_at_released {st : State} {i : Nat} (j : Nat) :
    ptr_at (released st i) j = if j = i then NULL else ptr_at st j := by
  by_cases hj : j = i
  · subst hj
    by_cases hlt : j < st.c_safemem_ptrs.length
    · simp [ptr_at, released, List.getElem?_set, hlt]
    · simp [ptr_at, released, List.getElem?_set, hlt, NULL]
  · have : ¬ i = j := fun h => hj h.symm
    simp [ptr_at, released, List.getElem?_set, hj, this]

theorem hash_at_released {st : State} {i : Nat} (j : Nat) :
    hash_at (released st i) j = if j = i then SAFEPTRHASH_ZERO else hash_at st j := by
  by_cases hj : j = i
  · subst hj
    by_cases hlt : j < st.c_safemem_hashes.length
    · simp [hash_at, released, List.getElem?_set, hlt]
    · simp [hash_at, released, List.getElem?_set, hlt]
  · have : ¬ i = j := fun h => hj h.symm
    simp [hash_at, released, List.getElem?_set, hj, this]

theorem death_at_released {st : State} {i : Nat} (j : Nat) :
    death_at (released st i) j = if j = i then 0 else death_at st j := by
  by_cases hj : j = i
  · subst hj
    by_cases hlt : j < st.c_safemem_scheduled_deaths.length
    · simp [death_at, released, List.getElem?_set, hlt]
    · simp [death_at, released, List.getElem?_set, hlt]
  · have : ¬ i = j := fun h => hj h.symm
    simp [death_at, released, List.getElem?_set, hj, this]

/-! ## Dereference and free -/

theorem free_cases {st : State} (f : safepointer) (hh : healthy st) (hl : Lens st) :
    safepointer_free st f =
      if ¬ f.indy < st.c_safemem_nptrs then some (C_SAFEMEM_BAD_PTR, st)
      else if valid st f then some (C_SAFEMEM_NO_ERR, released st f.indy)
      else some (C_SAFEMEM_INVALID_STATE, st) := by
  unfold healthy at hh
  by_cases hi : f.indy < st.c_safemem_nptrs
  · have h1 := rd_hashes hl hi
    have h2 := rd_ptrs hl hi
    have h3 := release_slot_eq hl hi
    by_cases hp : ptr_at st f.indy = NULL
    · simp [safepointer_free, hh, hi, h2, hp, valid]
    · by_cases hm : (hash_at st f.indy).part1 = f.hash.part1 ∧
          (hash_at st f.indy).part2 = f.hash.part2
      · simp [safepointer_free, hh, hi, h1, h2, h3, hp, hm, valid]
      · simp only [safepointer_free, hh, h1, h2, if_neg hm, valid]
        simp [hi, hp, hm]
  · simp [safepointer_free, hh, hi, Nat.le_of_not_lt hi]

/-- C1: on a healthy instance `safepointer_deref f` returns a non-`NULL` pointer exactly
when `f` is valid (index below the table length, stored generation equal to `f.hash` in
both words, slot occupied), and a non-`NULL` result is the pointer held in slot
`f.indy`; on a poisoned instance it returns `NULL` for every handle. -/
theorem C1_deref (st : State) (f : safepointer) :
    (healthy st → WF st →
      ∃ p, safepointer_deref st f = some p ∧ (p ≠ NULL ↔ valid st f) ∧
        (p ≠ NULL → p = ptr_at st f.indy)) ∧
    (¬ healthy st → safepointer_deref st f = some NULL) := by
  constructor
  · intro hh hwf
    obtain ⟨hl, -, -, -⟩ := hwf
    unfold healthy at hh
    by_cases hi : f.indy < st.c_safemem_nptrs
    · have h1 := rd_hashes hl hi
      have h2 := rd_ptrs hl hi
      by_cases hm : (hash_at st f.indy).part1 = f.hash.part1 ∧
          (hash_at st f.indy).part2 = f.hash.part2
      · refine ⟨ptr_at st f.indy, ?_, ?_, ?_⟩
        · simp [safepointer_deref, hh, hi, h1, h2, hm]
        · simp [valid, hi, hm]
        · intro _; rfl
      · refine ⟨NULL, ?_, ?_, ?_⟩
        · simp only [safepointer_deref, hh, h1, if_neg hm]
          simp [hi]
        · simp only [valid, ne_eq, not_true_eq_false, false_iff]
          tauto
        · simp
    · refine ⟨NULL, ?_, ?_, ?_⟩
      · simp [safepointer_deref, hh, Nat.le_of_not_lt hi]
      · simp [valid, hi]
      · simp
  · intro hh
    unfold healthy at hh
    simp [safepointer_deref, hh]

/-- C4: on a healthy instance `safepointer_free f` returns `C_SAFEMEM_BAD_PTR` exactly
when `f.indy` is not below the table length, `C_SAFEMEM_INVALID_STATE` exactly when
the index is in range and the slot is unoccupied or its generation differs from
`f.hash`, and otherwise `C_SAFEMEM_NO_ERR`; on `C_SAFEMEM_NO_ERR` slot `f.indy` is
empty afterwards (no storage, zero generation, death epoch 0) and every other slot, the
generation counter, the epoch, the table length, the cursor and the poison flag are
unchanged; on every failing return the state is unchanged. -/
theorem C4_free_classification (st : State) (f : safepointer) (hh : healthy st) (hwf : WF st) :
    ∃ r st', safepointer_free st f = some (r, st') ∧
      (r = C_SAFEMEM_BAD_PTR ↔ ¬ f.indy < st.c_safemem_nptrs) ∧
      (r = C_SAFEMEM_INVALID_STATE ↔
        f.indy < st.c_safemem_nptrs ∧
          (ptr_at st f.indy = NULL ∨ hash_at st f.indy ≠ f.hash)) ∧
      (r = C_SAFEMEM_NO_ERR ↔
        f.indy < st.c_safemem_nptrs ∧ ptr_at st f.indy ≠ NULL ∧ hash_at st f.indy = f.hash) ∧
      (r = C_SAFEMEM_NO_ERR →
        ptr_at st' f.indy = NULL ∧ hash_at st' f.indy = SAFEPTRHASH_ZERO ∧
        death_at st' f.indy = 0 ∧
        (∀ j, j ≠ f.indy →
          ptr_at st' j = ptr_at st j ∧ hash_at st' j = hash_at st j ∧
          death_at st' j = death_at st j) ∧
        st'.c_safemem_hash_counter = st.c_safemem_hash_counter ∧
        st'.c_safemem_update_calls = st.c_safemem_update_calls ∧
        st'.c_safemem_nptrs = st.c_safemem_nptrs ∧ st'.quick = st.quick ∧
        st'.c_safemem_failed_malloc = st.c_safemem_failed_malloc) ∧
      (r ≠ C_SAFEMEM_NO_ERR → st' = st) := by
  have hc := free_cases f hh hwf.1
  by_cases hi : f.indy < st.c_safemem_nptrs
  · by_cases hv : valid st f
    · rw [if_neg (not_not.mpr hi), if_pos hv] at hc
      obtain ⟨-, hm, hp⟩ := hv
      have hm' := (hash_eq_iff _ _).mpr hm
      refine ⟨_, _, hc, ?_, ?_, ?_, ?_, ?_⟩
      · simp [hi]
      · simp [hi, hp, hm']
      · simp [hi, hp, hm']
      · intro _
        refine ⟨?_, ?_, ?_, ?_, rfl, rfl, rfl, rfl, rfl⟩
        · simp [ptr_at_released]
        · simp [hash_at_released]
        · simp [death_at_released]
        · intro j hj
          simp [ptr_at_released, hash_at_released, death_at_released, hj]
      · simp
    · rw [if_neg (not_not.mpr hi), if_neg hv] at hc
      have hv' : ptr_at st f.indy = NULL ∨ hash_at st f.indy ≠ f.hash := by
        by_contra hcon
        push_neg at hcon
        exact hv ⟨hi, (hash_eq_iff _ _).mp hcon.2, hcon.1⟩
      refine ⟨_, _, hc, ?_, ?_, ?_, ?_, ?_⟩
      · simp [hi]
      · simp [hi, hv']
      · simp only [false_iff, reduceCtorEq]
        rintro ⟨-, h1, h2⟩
        rcases hv' with h | h
        · exact h1 h
        · exact h h2
      · intro h; cases h
      · intro _; rfl
  · rw [if_pos hi] at hc
    refine ⟨_, _, hc, ?_, ?_, ?_, ?_, ?_⟩
    · simp [hi]
    · simp [hi]
    · simp [hi]
    · intro h; cases h
    · intro _; rfl

/-- C5: for a handle valid on a healthy instance, the first `safepointer_free` returns
`C_SAFEMEM_NO_ERR`, and a second one issued directly afterwards returns
`C_SAFEMEM_INVALID_STATE` and leaves the state as the first call left it. -/
theorem C5_double_free (st : State) (h : safepointer) (hh : healthy st) (hwf : WF st)
    (hv : valid st h) :
    ∃ st1, safepointer_free st h = some (C_SAFEMEM_NO_ERR, st1) ∧
      safepointer_free st1 h = some (C_SAFEMEM_INVALID_STATE, st1) := by
  have hi := hv.1
  refine ⟨released st h.indy, ?_, ?_⟩
  · rw [free_cases h hh hwf.1, if_neg (not_not.mpr hi), if_pos hv]
  · have hl1 : Lens (released st h.indy) := released_Lens hwf.1
    have hh1 : healthy (released st h.indy) := hh
    have hnv : ¬ valid (released st h.indy) h := by
      intro hv1
      exact hv1.2.2 (by simp [ptr_at_released])
    have hi1 : h.indy < (released st h.indy).c_safemem_nptrs := hi
    rw [free_cases h hh1 hl1, if_neg (not_not.mpr hi1), if_neg hnv]

/-! ## The sweep -/

theorem collect_garbage_loop_spec (k : Nat) :
    ∀ (i : Nat) (st : State), Lens st → i + k ≤ st.c_safemem_nptrs →
      ∃ st', collect_garbage_loop st i k = some st' ∧ Lens st' ∧
        st'.c_safemem_nptrs = st.c_safemem_nptrs ∧
        st'.c_safemem_failed_malloc = st.c_safemem_failed_malloc ∧
        st'.quick = st.quick ∧
        st'.c_safemem_hash_counter = st.c_safemem_hash_counter ∧
        st'.c_safemem_update_calls = st.c_safemem_update_calls ∧
        ∀ j, (i ≤ j ∧ j < i + k ∧ expired st j →
                ptr_at st' j = NULL ∧ hash_at st' j = SAFEPTRHASH_ZERO ∧ death_at st' j = 0) ∧
             (¬ (i ≤ j ∧ j < i + k ∧ expired st j) →
                ptr_at st' j = ptr_at st j ∧ hash_at st' j = hash_at st j ∧
                death_at st' j = death_at st j) := by
  induction k with
  | zero =>
    intro i st hl _
    refine ⟨st, rfl, hl, rfl, rfl, rfl, rfl, rfl, ?_⟩
    intro j
    constructor
    · rintro ⟨h1, h2, -⟩; omega
    · intro _; exact ⟨rfl, rfl, rfl⟩
  | succ k ih =>
    intro i st hl hik
    have hi : i < st.c_safemem_nptrs := by omega
    have h1 := rd_ptrs hl hi
    have h2 := rd_deaths hl hi
    have h3 := release_slot_eq hl hi
    by_cases hex : expired st i
    · -- slot `i` is released, the loop goes on from the released state
      have hl1 : Lens (released st i) := released_Lens hl
      obtain ⟨st', hrun, hl', e1, e2, e3, e4, e5, hj⟩ :=
        ih (i + 1) (released st i) hl1 (by show i + 1 + k ≤ st.c_safemem_nptrs; omega)
      refine ⟨st', ?_, hl', e1, e2, e3, e4, e5, ?_⟩
      · simp only [collect_garbage_loop, h1, h2, h3]
        rw [if_pos hex.1, if_pos hex.2]
        exact hrun
      · intro j
        have hexj : j ≠ i → (expired (released st i) j ↔ expired st j) := by
          intro hne
          unfold expired
          rw [ptr_at_released, death_at_released, if_neg hne, if_neg hne]
          exact Iff.rfl
        by_cases hji : j = i
        · subst hji
          have hn : ¬ (j + 1 ≤ j ∧ j < j + 1 + k ∧ expired (released st j) j) := by omega
          have := (hj j).2 hn
          simp only [ptr_at_released, hash_at_released, death_at_released, if_true] at this
          constructor
          · intro _; exact this
          · intro hcon; exact absurd ⟨Nat.le_refl j, by omega, hex⟩ hcon
        · constructor
          · rintro ⟨a, b, c⟩
            exact (hj j).1 ⟨by omega, by omega, (hexj hji).mpr c⟩
          · intro hcon
            have hn : ¬ (i + 1 ≤ j ∧ j < i + 1 + k ∧ expired (released st i) j) := by
              rintro ⟨a, b, c⟩
              exact hcon ⟨by omega, by omega, (hexj hji).mp c⟩
            have := (hj j).2 hn
            simpa [ptr_at_released, hash_at_released, death_at_released, hji] using this
    · -- slot `i` is kept
      obtain ⟨st', hrun, hl', e1, e2, e3, e4, e5, hj⟩ := ih (i + 1) st hl (by omega)
      refine ⟨st', ?_, hl', e1, e2, e3, e4, e5, ?_⟩
      · simp only [collect_garbage_loop, h1, h2]
        by_cases hp : ptr_at st i ≠ NULL
        · have hd : ¬ death_at st i = st.c_safemem_update_calls := fun h => hex ⟨hp, h⟩
          rw [if_pos hp, if_neg hd]; exact hrun
        · rw [if_neg hp]; exact hrun
      · intro j
        constructor
        · rintro ⟨a, b, c⟩
          have hji : j ≠ i := by rintro rfl; exact hex c
          exact (hj j).1 ⟨by omega, by omega, c⟩
        · intro hcon
          exact (hj j).2 (by rintro ⟨a, b, c⟩; exact hcon ⟨by omega, by omega, c⟩)

/-- The effect of `safepointer_collect_garbage` on a healthy table. -/
theorem collect_garbage_spec {st : State} (hh : healthy st) (hl : Lens st) :
    ∃ st', safepointer_collect_garbage st = some (C_SAFEMEM_NO_ERR, st') ∧ Lens st' ∧
      st'.c_safemem_nptrs = st.c_safemem_nptrs ∧
      st'.c_safemem_failed_malloc = st.c_safemem_failed_malloc ∧
      st'.quick = st.quick ∧
      st'.c_safemem_hash_counter = st.c_safemem_hash_counter ∧
      st'.c_safemem_update_calls = (st.c_safemem_update_calls + 1) % SIZE_MOD ∧
      ∀ j, (expired st j →
              ptr_at st' j = NULL ∧ hash_at st' j = SAFEPTRHASH_ZERO ∧ death_at st' j = 0) ∧
           (¬ expired st j →
              ptr_at st' j = ptr_at st j ∧ hash_at st' j = hash_at st j ∧
              death_at st' j = death_at st j) := by
  obtain ⟨st1, hrun, hl1, e1, e2, e3, e4, e5, hj⟩ :=
    collect_garbage_loop_spec st.c_safemem_nptrs 0 st hl (by omega)
  unfold healthy at hh
  refine ⟨safepointer_increment_calls st1, ?_, ?_, e1, e2, e3, e4, ?_, ?_⟩
  · simp [safepointer_collect_garbage, hh, hrun]
  · exact hl1
  · simp [safepointer_increment_calls, e5]
  · intro j
    have hin : expired st j → j < st.c_safemem_nptrs := by
      intro hex
      by_contra hge
      apply hex.1
      have : st.c_safemem_ptrs.length ≤ j := by rw [hl.1]; omega
      simp [ptr_at, List.getElem?_eq_none this, NULL]
    constructor
    · intro hex
      exact (hj j).1 ⟨Nat.zero_le _, by have := hin hex; omega, hex⟩
    · intro hex
      exact (hj j).2 (fun h => hex h.2.2)

/-- C8: on a healthy instance with current epoch `E`, `safepointer_collect_garbage`
returns `C_SAFEMEM_NO_ERR`, empties exactly the occupied slots whose scheduled death
equals `E` (pointer `NULL`, zero generation, death epoch 0), leaves every other slot,
the table length and the generation counter unchanged, and leaves the epoch at `E + 1`
(computed in `size_t`: `E + 1` itself whenever `E < SIZE_MAX`). -/
theorem C8_sweep (st : State) (hh : healthy st) (hwf : WF st) :
    ∃ st', safepointer_collect_garbage st = some (C_SAFEMEM_NO_ERR, st') ∧
      (∀ j, ptr_at st j ≠ NULL ∧ death_at st j = st.c_safemem_update_calls →
          ptr_at st' j = NULL ∧ hash_at st' j = SAFEPTRHASH_ZERO ∧ death_at st' j = 0) ∧
      (∀ j, ¬ (ptr_at st j ≠ NULL ∧ death_at st j = st.c_safemem_update_calls) →
          ptr_at st' j = ptr_at st j ∧ hash_at st' j = hash_at st j ∧
          death_at st' j = death_at st j) ∧
      st'.c_safemem_nptrs = st.c_safemem_nptrs ∧
      st'.c_safemem_ptrs.length = st.c_safemem_ptrs.length ∧
      st'.c_safemem_hash_counter = st.c_safemem_hash_counter ∧
      st'.c_safemem_update_calls = (st.c_safemem_update_calls + 1) % SIZE_MOD ∧
      (st.c_safemem_update_calls < SIZE_MAX →
        st'.c_safemem_update_calls = st.c_safemem_update_calls + 1) := by
  obtain ⟨st', hrun, hl', e1, -, -, e4, e5, hj⟩ := collect_garbage_spec hh hwf.1
  refine ⟨st', hrun, fun j h => (hj j).1 h, fun j h => (hj j).2 h, e1, ?_, e4, e5, ?_⟩
  · rw [hl'.1, hwf.1.1, e1]
  · intro hlt
    rw [e5]
    unfold SIZE_MAX at hlt
    unfold SIZE_MOD
    omega

/-! ## Growth and the slot search -/

theorem expand_array_eq {α : Type} (zero : α) (old : List α) (n : Nat)
    (hroom : n + C_SAFEMEM_BLOCK_SIZE < SIZE_MOD) (hlen : old.length = n) :
    expand_array zero old n ((n + C_SAFEMEM_BLOCK_SIZE) % SIZE_MOD) =
      some (old ++ List.replicate C_SAFEMEM_BLOCK_SIZE zero) := by
  rw [Nat.mod_eq_of_lt hroom]
  unfold expand_array
  by_cases he : old.isEmpty
  · have : old = [] := List.isEmpty_iff.mp he
    subst this
    simp at hlen
    subst hlen
    simp
  · rw [if_neg he, if_pos ⟨by omega, by omega⟩]
    have : n + C_SAFEMEM_BLOCK_SIZE - n = C_SAFEMEM_BLOCK_SIZE := by omega
    rw [this, ← hlen, List.take_length]

theorem expand_array_wrap {α : Type} (zero : α) (old : List α) (n : Nat)
    (hn : n ≤ SIZE_MAX) (hwrap : ¬ n + C_SAFEMEM_BLOCK_SIZE < SIZE_MOD) (hlen : old.length = n) :
    expand_array zero old n ((n + C_SAFEMEM_BLOCK_SIZE) % SIZE_MOD) = none := by
  unfold expand_array
  have hpos : 0 < n := by unfold C_SAFEMEM_BLOCK_SIZE SIZE_MOD at hwrap; omega
  have he : ¬ old.isEmpty := by
    intro he
    have : old = [] := List.isEmpty_iff.mp he
    subst this
    simp at hlen
    omega
  have hlt : ¬ (n ≤ old.length ∧ n ≤ (n + C_SAFEMEM_BLOCK_SIZE) % SIZE_MOD) := by
    rintro ⟨-, h⟩
    unfold C_SAFEMEM_BLOCK_SIZE SIZE_MOD at *
    unfold SIZE_MAX at hn
    omega
  rw [if_neg he, if_neg hlt]

/-- The three outcomes of `safepointer_expand_storage` on a healthy table. -/
theorem expand_storage_spec {st : State} (hh : healthy st) (hwf : WF st) (heap : List Nat) :
    (safepointer_expand_storage st heap = none ∧
      ¬ st.c_safemem_nptrs + C_SAFEMEM_BLOCK_SIZE < SIZE_MOD) ∨
    (∃ st2 heap2, safepointer_expand_storage st heap = some (1, st2, heap2) ∧
      st2.c_safemem_failed_malloc = 1 ∧ ¬ grants3 heap) ∨
    (safepointer_expand_storage st heap =
        some (0, grown st, calloc_rest (calloc_rest (calloc_rest heap))) ∧
      st.c_safemem_nptrs + C_SAFEMEM_BLOCK_SIZE < SIZE_MOD ∧ grants3 heap) := by
  unfold healthy at hh
  obtain ⟨⟨l1, l2, l3⟩, -, hn, -⟩ := hwf
  by_cases g1 : calloc_ret heap = NULL
  · right; left
    simp [safepointer_expand_storage, hh, g1, grants3]
  · by_cases hroom : st.c_safemem_nptrs + C_SAFEMEM_BLOCK_SIZE < SIZE_MOD
    · have a1 := expand_array_eq NULL st.c_safemem_ptrs _ hroom l1
      have a2 := expand_array_eq SAFEPTRHASH_ZERO st.c_safemem_hashes _ hroom l2
      have a3 := expand_array_eq 0 st.c_safemem_scheduled_deaths _ hroom l3
      by_cases g2 : calloc_ret (calloc_rest heap) = NULL
      · right; left
        simp [safepointer_expand_storage, hh, g1, g2, a1, grants3]
      · by_cases g3 : calloc_ret (calloc_rest (calloc_rest heap)) = NULL
        · right; left
          simp [safepointer_expand_storage, hh, g1, g2, g3, a1, a2, grants3]
        · right; right
          refine ⟨?_, hroom, g1, g2, g3⟩
          simp only [safepointer_expand_storage, hh, g1, g2, g3, a1, a2, a3]
          simp [grown, Nat.mod_eq_of_lt hroom, hh]
    · left
      refine ⟨?_, hroom⟩
      have a1 := expand_array_wrap NULL st.c_safemem_ptrs _ hn hroom l1
      simp only [safepointer_expand_storage, hh, g1, a1]
      simp

theorem malloc_scan_spec (st : State) (k : Nat) :
    ∀ i, i + k ≤ st.c_safemem_ptrs.length →
      (∃ j, malloc_scan st.c_safemem_ptrs i k = some (some j) ∧ j < i + k ∧ first_empty st i j) ∨
      (malloc_scan st.c_safemem_ptrs i k = some none ∧
        ∀ t, i ≤ t → t < i + k → ptr_at st t ≠ NULL) := by
  induction k with
  | zero =>
    intro i _
    right
    exact ⟨rfl, fun t h1 h2 => by omega⟩
  | succ k ih =>
    intro i hik
    have hi : i < st.c_safemem_ptrs.length := by omega
    have hr : rd st.c_safemem_ptrs i = some (ptr_at st i) := by
      simp [rd, ptr_at, List.getElem?_eq_getElem hi]
    by_cases hp : ptr_at st i = NULL
    · left
      refine ⟨i, ?_, by omega, Nat.le_refl i, hp, fun t h1 h2 => by omega⟩
      simp [malloc_scan, hr, hp]
    · rcases ih (i + 1) (by omega) with ⟨j, hj, hlt, hle, hnull, hbefore⟩ | ⟨hnone, hall⟩
      · left
        refine ⟨j, ?_, by omega, by omega, hnull, ?_⟩
        · simp only [malloc_scan, hr, if_neg hp]; exact hj
        · intro t h1 h2
          by_cases hti : t = i
          · subst hti; exact hp
          · exact hbefore t (by omega) h2
      · right
        refine ⟨?_, ?_⟩
        · simp only [malloc_scan, hr, if_neg hp]; exact hnone
        · intro t h1 h2
          by_cases hti : t = i
          · subst hti; exact hp
          · exact hall t (by omega) (by omega)

theorem malloc_while_found {s : safepointer} {st : State} {e i : Nat} (heap : List Nat)
    (f : Nat) (hs : s.indy = SIZE_MAX)
    (hscan : malloc_scan st.c_safemem_ptrs st.quick (e - st.quick) = some (some i))
    (hi : i ≠ SIZE_MAX) :
    malloc_while (f + 2) s e st heap = some (found_exit s st i heap) := by
  simp [malloc_while, hs, hscan, hi, found_exit, next_hash]

theorem malloc_while_second_pass {s : safepointer} {st : State} {e : Nat} (heap : List Nat)
    (f : Nat) (hs : s.indy = SIZE_MAX)
    (hscan : malloc_scan st.c_safemem_ptrs st.quick (e - st.quick) = some none)
    (hq : st.quick ≠ 0) :
    malloc_while (f + 1) s e st heap =
      malloc_while f s st.quick { st with quick := 0 } heap := by
  simp [malloc_while, hs, hscan, hq]

theorem malloc_while_grow {s : safepointer} {st : State} {e : Nat} (heap : List Nat)
    (f : Nat) (hs : s.indy = SIZE_MAX)
    (hscan : malloc_scan st.c_safemem_ptrs st.quick (e - st.quick) = some none)
    (hq : st.quick = 0) :
    malloc_while (f + 1) s e st heap =
      match safepointer_expand_storage st heap with
      | none => none
      | some (r, st2, heap2) =>
        if r ≠ 0 then some (MallocExit.ret s st2)
        else malloc_while f s st2.c_safemem_nptrs { st2 with quick := 0 } heap2 := by
  simp only [hq, Nat.sub_zero] at hscan
  simp [malloc_while, hs, hscan, hq]

theorem ptr_at_beyond {st : State} {t : Nat} (h : st.c_safemem_ptrs.length ≤ t) :
    ptr_at st t = NULL := by
  simp [ptr_at, List.getElem?_eq_none h]

theorem ptr_at_grown (st : State) (t : Nat) : ptr_at (grown st) t = ptr_at st t := by
  by_cases h : t < st.c_safemem_ptrs.length
  · simp [ptr_at, grown, List.getElem?_append_left h]
  · have h' : st.c_safemem_ptrs.length ≤ t := Nat.le_of_not_lt h
    rw [ptr_at_beyond h']
    simp only [ptr_at, grown, List.getD_eq_getElem?_getD, List.getElem?_append_right h',
      List.getElem?_replicate]
    split <;> rfl

theorem hash_at_grown (st : State) (t : Nat) : hash_at (grown st) t = hash_at st t := by
  by_cases h : t < st.c_safemem_hashes.length
  · simp [hash_at, grown, List.getElem?_append_left h]
  · have h' : st.c_safemem_hashes.length ≤ t := Nat.le_of_not_lt h
    have h0 : hash_at st t = SAFEPTRHASH_ZERO := by simp [hash_at, List.getElem?_eq_none h']
    rw [h0]
    simp only [hash_at, grown, List.getD_eq_getElem?_getD, List.getElem?_append_right h',
      List.getElem?_replicate]
    split <;> rfl

theorem death_at_grown (st : State) (t : Nat) : death_at (grown st) t = death_at st t := by
  by_cases h : t < st.c_safemem_scheduled_deaths.length
  · simp [death_at, grown, List.getElem?_append_left h]
  · have h' : st.c_safemem_scheduled_deaths.length ≤ t := Nat.le_of_not_lt h
    have h0 : death_at st t = 0 := by simp [death_at, List.getElem?_eq_none h']
    rw [h0]
    simp only [death_at, grown, List.getD_eq_getElem?_getD, List.getElem?_append_right h',
      List.getElem?_replicate]
    split <;> rfl

theorem grown_Lens {st : State} (hl : Lens st) : Lens (grown st) := by
  obtain ⟨h1, h2, h3⟩ := hl
  simp [Lens, grown, h1, h2, h3]

/-- The growth branch of the loop of `safepointer_malloc`: the table is full and the
cursor is at 0. -/
theorem malloc_while_grow_spec {st : State} (hh : healthy st) (hwf : WF st)
    (hq : st.quick = 0) (hall : ∀ t, t < st.c_safemem_nptrs → ptr_at st t ≠ NULL)
    (s : safepointer) (hs : s.indy = SIZE_MAX) (f e : Nat) (heap : List Nat)
    (hscan : malloc_scan st.c_safemem_ptrs st.quick (e - st.quick) = some none) :
    (malloc_while (f + 3) s e st heap = none ∧
      ¬ st.c_safemem_nptrs + C_SAFEMEM_BLOCK_SIZE < SIZE_MOD) ∨
    (∃ st2, malloc_while (f + 3) s e st heap = some (MallocExit.ret s st2) ∧
      st2.c_safemem_failed_malloc = 1 ∧ ¬ grants3 heap) ∨
    (malloc_while (f + 3) s e st heap =
        some (found_exit s (grown st) st.c_safemem_nptrs
          (calloc_rest (calloc_rest (calloc_rest heap)))) ∧
      st.c_safemem_nptrs + C_SAFEMEM_BLOCK_SIZE < SIZE_MOD ∧ grants3 heap) := by
  rw [malloc_while_grow heap (f + 2) hs hscan hq]
  rcases expand_storage_spec hh hwf heap with ⟨e1, hw⟩ | ⟨st2, heap2, e1, hf, hg⟩ | ⟨e1, hroom, hg⟩
  · left; rw [e1]; exact ⟨rfl, hw⟩
  · right; left; rw [e1]; exact ⟨st2, by simp, hf, hg⟩
  · right; right
    rw [e1]
    refine ⟨?_, hroom, hg⟩
    have hl := hwf.1
    have hscan2 : malloc_scan (grown st).c_safemem_ptrs 0 (st.c_safemem_nptrs + C_SAFEMEM_BLOCK_SIZE)
        = some (some st.c_safemem_nptrs) := by
      have hlen : 0 + (st.c_safemem_nptrs + C_SAFEMEM_BLOCK_SIZE) ≤ (grown st).c_safemem_ptrs.length := by
        rw [(grown_Lens hl).1]; simp [grown]
      have hnull : ptr_at (grown st) st.c_safemem_nptrs = NULL := by
        rw [ptr_at_grown]; exact ptr_at_beyond (by rw [hl.1])
      rcases malloc_scan_spec (grown st) _ 0 hlen with ⟨j, hj, -, -, hjn, hbefore⟩ | ⟨-, hocc⟩
      · have h1 : ¬ j < st.c_safemem_nptrs := by
          intro hlt
          rw [ptr_at_grown] at hjn
          exact hall j hlt hjn
        have h2 : ¬ st.c_safemem_nptrs < j := by
          intro hlt
          exact hbefore _ (Nat.zero_le _) hlt hnull
        have : j = st.c_safemem_nptrs := by omega
        rw [this] at hj; exact hj
      · exact absurd hnull (hocc _ (Nat.zero_le _) (by unfold C_SAFEMEM_BLOCK_SIZE; omega))
    have hne : st.c_safemem_nptrs ≠ SIZE_MAX := by
      unfold C_SAFEMEM_BLOCK_SIZE SIZE_MOD at hroom; unfold SIZE_MAX; omega
    have := @malloc_while_found s { grown st with quick := 0 } (grown st).c_safemem_nptrs
      st.c_safemem_nptrs (calloc_rest (calloc_rest (calloc_rest heap))) f hs
      (by simpa [grown] using hscan2) hne
    simpa using this

/-- The loop of `safepointer_malloc` on a healthy table: either an empty slot of the
table is found (in the first pass from the cursor, or in the second pass below it), or
the table is full and the loop grows it. -/
theorem malloc_while_spec {st : State} (hh : healthy st) (hwf : WF st)
    (s : safepointer) (hs : s.indy = SIZE_MAX) (f : Nat) (heap : List Nat) :
    (∃ i, i < st.c_safemem_nptrs ∧
      (first_empty st st.quick i ∨
        ((∀ t, st.quick ≤ t → t < st.c_safemem_nptrs → ptr_at st t ≠ NULL) ∧
          i < st.quick ∧ first_empty st 0 i)) ∧
      malloc_while (f + 4) s st.c_safemem_nptrs st heap = some (found_exit s st i heap)) ∨
    ((∀ t, t < st.c_safemem_nptrs → ptr_at st t ≠ NULL) ∧
      ((malloc_while (f + 4) s st.c_safemem_nptrs st heap = none ∧
          ¬ st.c_safemem_nptrs + C_SAFEMEM_BLOCK_SIZE < SIZE_MOD) ∨
        (∃ st2, malloc_while (f + 4) s st.c_safemem_nptrs st heap = some (MallocExit.ret s st2) ∧
          st2.c_safemem_failed_malloc = 1 ∧ ¬ grants3 heap) ∨
        (malloc_while (f + 4) s st.c_safemem_nptrs st heap =
            some (found_exit s (grown st) st.c_safemem_nptrs (after_growth heap)) ∧
          st.c_safemem_nptrs + C_SAFEMEM_BLOCK_SIZE < SIZE_MOD ∧ grants3 heap))) := by
  obtain ⟨hl, hq, hn, he⟩ := hwf
  have hmax : ∀ i, i < st.c_safemem_nptrs → i ≠ SIZE_MAX := fun i hi => by omega
  rcases malloc_scan_spec st (st.c_safemem_nptrs - st.quick) st.quick (by rw [hl.1]; omega) with
    ⟨i, hsc, hlt, hfe⟩ | ⟨hsc, hall⟩
  · left
    have hi : i < st.c_safemem_nptrs := by omega
    exact ⟨i, hi, Or.inl hfe, malloc_while_found heap (f + 2) hs hsc (hmax i hi)⟩
  · by_cases hq0 : st.quick = 0
    · right
      have hall' : ∀ t, t < st.c_safemem_nptrs → ptr_at st t ≠ NULL :=
        fun t ht => hall t (by omega) (by omega)
      exact ⟨hall', malloc_while_grow_spec hh ⟨hl, hq, hn, he⟩ hq0 hall' s hs (f + 1) _ heap hsc⟩
    · rw [malloc_while_second_pass heap (f + 3) hs hsc hq0]
      have hwf0 : WF { st with quick := 0 } := ⟨hl, Nat.zero_le _, hn, he⟩
      have hh0 : healthy { st with quick := 0 } := hh
      rcases malloc_scan_spec { st with quick := 0 } (st.quick - 0) 0
          (by show 0 + (st.quick - 0) ≤ st.c_safemem_ptrs.length; rw [hl.1]; omega) with
        ⟨i, hsc2, hlt2, hfe2⟩ | ⟨hsc2, hall2⟩
      · left
        have hi : i < st.c_safemem_nptrs := by omega
        refine ⟨i, hi, Or.inr ⟨fun t h1 h2 => hall t h1 (by omega), by omega, hfe2⟩, ?_⟩
        exact @malloc_while_found s { st with quick := 0 } st.quick i heap (f + 1) hs hsc2 (hmax i hi)
      · right
        have hall' : ∀ t, t < st.c_safemem_nptrs → ptr_at st t ≠ NULL := by
          intro t ht
          by_cases htq : t < st.quick
          · exact hall2 t (Nat.zero_le _) (by omega)
          · exact hall t (by omega) (by omega)
        exact ⟨hall', malloc_while_grow_spec hh0 hwf0 rfl hall' s hs f _ heap hsc2⟩

/-- The part of `safepointer_malloc` behind the loop, after slot `i` was found in the
table `base`. -/
theorem malloc_after_found {st base : State} (hh : healthy st) {i : Nat} (sz lifetime : Nat)
    (heap heap1 : List Nat)
    (hloop : malloc_while (malloc_fuel heap) sentinel st.c_safemem_nptrs st heap =
      some (found_exit sentinel base i heap1))
    (hl : Lens base) (hi : i < base.c_safemem_nptrs) (hne : i ≠ SIZE_MAX) :
    safepointer_malloc st sz lifetime heap =
      if calloc_ret heap1 = NULL then some (⟨i, 0, next_hash base⟩, refused base i)
      else some (⟨i, sz, next_hash base⟩, stamped base i lifetime (calloc_ret heap1)) := by
  unfold healthy at hh
  obtain ⟨h1, h2, h3⟩ := hl
  have e : safepointer_malloc st sz lifetime heap =
      match malloc_while (malloc_fuel heap) sentinel st.c_safemem_nptrs st heap with
      | none => none
      | some (MallocExit.ret s1 st1) => some (s1, st1)
      | some (MallocExit.done s1 st1 heap1) =>
        if s1.indy ≠ SIZE_MAX then
          match wr st1.c_safemem_ptrs s1.indy (calloc_ret heap1) with
          | none => none
          | some ptrs =>
            let st2 := { st1 with c_safemem_ptrs := ptrs }
            if calloc_ret heap1 = NULL then
              some (s1, { st2 with c_safemem_failed_malloc := 1 })
            else
              let s2 := { s1 with size := sz }
              match wr st2.c_safemem_hashes s2.indy s2.hash with
              | none => none
              | some hashes =>
                match wr st2.c_safemem_scheduled_deaths s2.indy
                    ((st2.c_safemem_update_calls + lifetime) % SIZE_MOD) with
                | none => none
                | some deaths =>
                  some (s2, { st2 with c_safemem_hashes := hashes,
                                       c_safemem_scheduled_deaths := deaths })
        else some (s1, st1) := by
    simp [safepointer_malloc, hh, sentinel]
  rw [e, hloop]
  by_cases hp : calloc_ret heap1 = NULL
  · simp [found_exit, sentinel, hne, wr, safepointer_increment_hash_counter, h1, hi, hp,
      refused, next_hash]
  · simp [found_exit, sentinel, hne, wr, safepointer_increment_hash_counter, h1, h2, h3, hi, hp,
      stamped, next_hash]

/-! ## Allocation -/

theorem malloc_unfold {st : State} (hh : healthy st) (sz lifetime : Nat) (heap : List Nat) :
    safepointer_malloc st sz lifetime heap =
      match malloc_while (malloc_fuel heap) sentinel st.c_safemem_nptrs st heap with
      | none => none
      | some (MallocExit.ret s1 st1) => some (s1, st1)
      | some (MallocExit.done s1 st1 heap1) =>
        if s1.indy ≠ SIZE_MAX then
          match wr st1.c_safemem_ptrs s1.indy (calloc_ret heap1) with
          | none => none
          | some ptrs =>
            let st2 := { st1 with c_safemem_ptrs := ptrs }
            if calloc_ret heap1 = NULL then
              some (s1, { st2 with c_safemem_failed_malloc := 1 })
            else
              let s2 := { s1 with size := sz }
              match wr st2.c_safemem_hashes s2.indy s2.hash with
              | none => none
              | some hashes =>
                match wr st2.c_safemem_scheduled_deaths s2.indy
                    ((st2.c_safemem_update_calls + lifetime) % SIZE_MOD) with
                | none => none
                | some deaths =>
                  some (s2, { st2 with c_safemem_hashes := hashes,
                                       c_safemem_scheduled_deaths := deaths })
        else some (s1, st1) := by
  unfold healthy at hh
  simp [safepointer_malloc, hh, sentinel]

/-- Every outcome of `safepointer_malloc` on a healthy table. -/
theorem malloc_spec {st : State} (hh : healthy st) (hwf : WF st) (sz lifetime : Nat)
    (heap : List Nat) :
    (∃ i, i < st.c_safemem_nptrs ∧
      (first_empty st st.quick i ∨
        ((∀ t, st.quick ≤ t → t < st.c_safemem_nptrs → ptr_at st t ≠ NULL) ∧
          i < st.quick ∧ first_empty st 0 i)) ∧
      safepointer_malloc st sz lifetime heap =
        if calloc_ret heap = NULL then some (⟨i, 0, next_hash st⟩, refused st i)
        else some (⟨i, sz, next_hash st⟩, stamped st i lifetime (calloc_ret heap))) ∨
    ((∀ t, t < st.c_safemem_nptrs → ptr_at st t ≠ NULL) ∧
      ((safepointer_malloc st sz lifetime heap = none ∧ ¬ room st) ∨
        (∃ st2, safepointer_malloc st sz lifetime heap = some (sentinel, st2) ∧
          st2.c_safemem_failed_malloc = 1 ∧ ¬ grants3 heap) ∨
        (room st ∧ grants3 heap ∧
          safepointer_malloc st sz lifetime heap =
            if calloc_ret (after_growth heap) = NULL then
              some (⟨st.c_safemem_nptrs, 0, next_hash st⟩, refused (grown st) st.c_safemem_nptrs)
            else
              some (⟨st.c_safemem_nptrs, sz, next_hash st⟩,
                stamped (grown st) st.c_safemem_nptrs lifetime
                  (calloc_ret (after_growth heap)))))) := by
  have hmax : ∀ i, i < st.c_safemem_nptrs → i ≠ SIZE_MAX := fun i hi => by
    have := hwf.2.2.1; omega
  rcases malloc_while_spec hh hwf sentinel rfl heap.length heap with
    ⟨i, hi, hfe, hloop⟩ | ⟨hall, ⟨hnone, hw⟩ | ⟨st2, hret, hf, hg⟩ | ⟨hloop, hroom, hg⟩⟩
  · left
    exact ⟨i, hi, hfe, malloc_after_found hh sz lifetime heap heap hloop hwf.1 hi (hmax i hi)⟩
  · right
    refine ⟨hall, Or.inl ⟨?_, hw⟩⟩
    rw [malloc_unfold hh]
    show (match malloc_while (heap.length + 4) sentinel st.c_safemem_nptrs st heap with
      | none => none
      | some (MallocExit.ret s1 st1) => some (s1, st1)
      | some (MallocExit.done s1 st1 heap1) => _) = none
    rw [hnone]
  · right
    refine ⟨hall, Or.inr (Or.inl ⟨st2, ?_, hf, hg⟩)⟩
    rw [malloc_unfold hh]
    show (match malloc_while (heap.length + 4) sentinel st.c_safemem_nptrs st heap with
      | none => none
      | some (MallocExit.ret s1 st1) => some (s1, st1)
      | some (MallocExit.done s1 st1 heap1) => _) = _
    rw [hret]
  · right
    refine ⟨hall, Or.inr (Or.inr ⟨hroom, hg, ?_⟩)⟩
    have hne : st.c_safemem_nptrs ≠ SIZE_MAX := by
      have := hroom; unfold room C_SAFEMEM_BLOCK_SIZE SIZE_MOD at this; unfold SIZE_MAX; omega
    exact malloc_after_found hh sz lifetime heap (after_growth heap) hloop (grown_Lens hwf.1)
      (by show st.c_safemem_nptrs < st.c_safemem_nptrs + C_SAFEMEM_BLOCK_SIZE
          unfold C_SAFEMEM_BLOCK_SIZE; omega) hne

theorem ptr_at_stamped {base : State} {i : Nat} (hi : i < base.c_safemem_ptrs.length)
    (lifetime p j : Nat) :
    ptr_at (stamped base i lifetime p) j = if j = i then p else ptr_at base j := by
  by_cases hj : j = i
  · subst hj; simp [ptr_at, stamped, List.getElem?_set, hi]
  · have : ¬ i = j := fun h => hj h.symm
    simp [ptr_at, stamped, List.getElem?_set, hj, this]

theorem hash_at_stamped {base : State} {i : Nat} (hi : i < base.c_safemem_hashes.length)
    (lifetime p j : Nat) :
    hash_at (stamped base i lifetime p) j = if j = i then next_hash base else hash_at base j := by
  by_cases hj : j = i
  · subst hj; simp [hash_at, stamped, List.getElem?_set, hi]
  · have : ¬ i = j := fun h => hj h.symm
    simp [hash_at, stamped, List.getElem?_set, hj, this]

theorem death_at_stamped {base : State} {i : Nat}
    (hi : i < base.c_safemem_scheduled_deaths.length) (lifetime p j : Nat) :
    death_at (stamped base i lifetime p) j =
      if j = i then (base.c_safemem_update_calls + lifetime) % SIZE_MOD else death_at base j := by
  by_cases hj : j = i
  · subst hj; simp [death_at, stamped, List.getElem?_set, hi]
  · have : ¬ i = j := fun h => hj h.symm
    simp [death_at, stamped, List.getElem?_set, hj, this]

theorem next_hash_bounds {st : State} (h2 : st.c_safemem_hash_counter.part2 ≤ SIZE_MAX) :
    (next_hash st).part1 ≤ SIZE_MAX ∧ (next_hash st).part2 ≤ SIZE_MAX := by
  have hm : (st.c_safemem_hash_counter.part1 + 1) % SIZE_MOD < SIZE_MOD :=
    Nat.mod_lt _ (by unfold SIZE_MOD; omega)
  have hm2 : (st.c_safemem_hash_counter.part2 + 1) % SIZE_MOD < SIZE_MOD :=
    Nat.mod_lt _ (by unfold SIZE_MOD; omega)
  constructor
  · show (st.c_safemem_hash_counter.part1 + 1) % SIZE_MOD ≤ SIZE_MAX
    unfold SIZE_MOD at hm ⊢; unfold SIZE_MAX; omega
  · show (if (st.c_safemem_hash_counter.part1 + 1) % SIZE_MOD = 0
        then (st.c_safemem_hash_counter.part2 + 1) % SIZE_MOD
        else st.c_safemem_hash_counter.part2) ≤ SIZE_MAX
    split
    · unfold SIZE_MOD at hm2 ⊢; unfold SIZE_MAX; omega
    · exact h2

/-- Taking an empty slot of the table as it is. -/
theorem allocated_same {st : State} (hh : healthy st) (hwf : WF st) {i : Nat}
    (hi : i < st.c_safemem_nptrs) (hempty : ptr_at st i = NULL) (sz lifetime : Nat) {p : Nat}
    (hp : p ≠ NULL) :
    Allocated st sz lifetime ⟨i, sz, next_hash st⟩ (stamped st i lifetime p) p := by
  obtain ⟨⟨l1, l2, l3⟩, hq, hn, he⟩ := hwf
  have hmod : (i + 1) % SIZE_MOD = i + 1 := by
    apply Nat.mod_eq_of_lt; unfold SIZE_MAX at hn; unfold SIZE_MOD; omega
  exact {
    storage_ne := hp
    size_eq := rfl
    hash_eq := rfl
    index_lt := hi
    was_empty := hempty
    length_cases := Or.inl rfl
    wf := by
      refine ⟨⟨?_, ?_, ?_⟩, ?_, hn, he.1, next_hash_bounds he.2.2⟩
      · simp [stamped, l1]
      · simp [stamped, l2]
      · simp [stamped, l3]
      · show (i + 1) % SIZE_MOD ≤ st.c_safemem_nptrs
        rw [hmod]; omega
    is_healthy := hh
    cursor := hmod
    counter := rfl
    epoch := rfl
    ptrs := fun j => ptr_at_stamped (by rw [l1]; exact hi) lifetime p j
    hashes := fun j => hash_at_stamped (by rw [l2]; exact hi) lifetime p j
    deaths := fun j => death_at_stamped (by rw [l3]; exact hi) lifetime p j }

/-- Taking the first slot of the block added by a growth. -/
theorem allocated_grown {st : State} (hh : healthy st) (hwf : WF st) (hroom : room st)
    (hall : ∀ t, t < st.c_safemem_nptrs → ptr_at st t ≠ NULL) (sz lifetime : Nat) {p : Nat}
    (hp : p ≠ NULL) :
    Allocated st sz lifetime ⟨st.c_safemem_nptrs, sz, next_hash st⟩
      (stamped (grown st) st.c_safemem_nptrs lifetime p) p := by
  obtain ⟨⟨l1, l2, l3⟩, hq, hn, he⟩ := hwf
  have hroom' := hroom
  unfold room C_SAFEMEM_BLOCK_SIZE SIZE_MOD at hroom'
  have hmod : (st.c_safemem_nptrs + 1) % SIZE_MOD = st.c_safemem_nptrs + 1 := by
    apply Nat.mod_eq_of_lt; unfold SIZE_MOD; omega
  have hg : Lens (grown st) := grown_Lens ⟨l1, l2, l3⟩
  have hlt : st.c_safemem_nptrs < (grown st).c_safemem_nptrs := by
    show st.c_safemem_nptrs < st.c_safemem_nptrs + C_SAFEMEM_BLOCK_SIZE
    unfold C_SAFEMEM_BLOCK_SIZE; omega
  have g1 : st.c_safemem_nptrs < (grown st).c_safemem_ptrs.length := by rw [hg.1]; exact hlt
  have g2 : st.c_safemem_nptrs < (grown st).c_safemem_hashes.length := by rw [hg.2.1]; exact hlt
  have g3 : st.c_safemem_nptrs < (grown st).c_safemem_scheduled_deaths.length := by
    rw [hg.2.2]; exact hlt
  exact {
    storage_ne := hp
    size_eq := rfl
    hash_eq := rfl
    index_lt := by
      show st.c_safemem_nptrs < st.c_safemem_nptrs + C_SAFEMEM_BLOCK_SIZE
      unfold C_SAFEMEM_BLOCK_SIZE; omega
    was_empty := ptr_at_beyond (by rw [l1])
    length_cases := Or.inr ⟨rfl, rfl, hall⟩
    wf := by
      refine ⟨⟨?_, ?_, ?_⟩, ?_, ?_, he.1, @next_hash_bounds (grown st) he.2.2⟩
      · simp [stamped, grown, l1]
      · simp [stamped, grown, l2]
      · simp [stamped, grown, l3]
      · show (st.c_safemem_nptrs + 1) % SIZE_MOD ≤ st.c_safemem_nptrs + C_SAFEMEM_BLOCK_SIZE
        rw [hmod]; unfold C_SAFEMEM_BLOCK_SIZE; omega
      · show st.c_safemem_nptrs + C_SAFEMEM_BLOCK_SIZE ≤ SIZE_MAX
        unfold C_SAFEMEM_BLOCK_SIZE SIZE_MAX; omega
    is_healthy := hh
    cursor := hmod
    counter := rfl
    epoch := rfl
    ptrs := fun j => by
      rw [ptr_at_stamped g1, ptr_at_grown]
    hashes := fun j => by
      rw [hash_at_stamped g2, hash_at_grown]; rfl
    deaths := fun j => by
      rw [death_at_stamped g3, death_at_grown]; rfl }

theorem refused_poisoned (base : State) (i : Nat) : ¬ healthy (refused base i) := by
  simp [healthy, refused]

/-- A call of `safepointer_malloc` on a healthy table that returns and leaves the
instance healthy had the effect `Allocated`. -/
theorem malloc_success_cases {st : State} (hh : healthy st) (hwf : WF st) {sz lifetime : Nat}
    {heap : List Nat} {h : safepointer} {st' : State}
    (hm : safepointer_malloc st sz lifetime heap = some (h, st')) (hok : healthy st') :
    ∃ p, Allocated st sz lifetime h st' p := by
  rcases malloc_spec hh hwf sz lifetime heap with
    ⟨i, hi, hfe, hres⟩ | ⟨hall, ⟨hnone, -⟩ | ⟨st2, hret, hf, -⟩ | ⟨hroom, hg, hres⟩⟩
  · have hempty : ptr_at st i = NULL := by
      rcases hfe with h1 | h1
      · exact h1.2.1
      · exact h1.2.2.2.1
    rw [hm] at hres
    by_cases hp : calloc_ret heap = NULL
    · rw [if_pos hp] at hres
      injection hres with hres
      injection hres with _ h2
      exact absurd (h2 ▸ hok) (refused_poisoned st i)
    · rw [if_neg hp] at hres
      injection hres with hres
      injection hres with h1 h2
      subst h1 h2
      exact ⟨_, allocated_same hh hwf hi hempty sz lifetime hp⟩
  · rw [hm] at hnone; cases hnone
  · rw [hm] at hret
    injection hret with hret
    injection hret with _ h2
    subst h2
    unfold healthy at hok
    omega
  · rw [hm] at hres
    by_cases hp : calloc_ret (after_growth heap) = NULL
    · rw [if_pos hp] at hres
      injection hres with hres
      injection hres with _ h2
      exact absurd (h2 ▸ hok) (refused_poisoned _ _)
    · rw [if_neg hp] at hres
      injection hres with hres
      injection hres with h1 h2
      subst h1 h2
      exact ⟨_, allocated_grown hh hwf hroom hall sz lifetime hp⟩

theorem grants_all_facts {heap : List Nat} (hg : grants_all heap) :
    calloc_ret heap ≠ NULL ∧ grants3 heap ∧ calloc_ret (after_growth heap) ≠ NULL := by
  obtain ⟨hlen, hall⟩ := hg
  match heap, hlen, hall with
  | a :: b :: c :: d :: rest, _, hall =>
    have ha := hall a (by simp)
    have hb := hall b (by simp)
    have hc := hall c (by simp)
    have hd := hall d (by simp)
    simp [calloc_ret, calloc_rest, grants3, after_growth, ha, hb, hc, hd]

/-- When the table can grow and the heap grants every request, `safepointer_malloc`
on a healthy table returns with the effect `Allocated`. -/
theorem malloc_succeeds {st : State} (hh : healthy st) (hwf : WF st) (hroom : room st)
    (sz lifetime : Nat) {heap : List Nat} (hg : grants_all heap) :
    ∃ h st' p, safepointer_malloc st sz lifetime heap = some (h, st') ∧
      Allocated st sz lifetime h st' p ∧
      (p = calloc_ret heap ∨ p = calloc_ret (after_growth heap)) := by
  obtain ⟨g1, g3, g4⟩ := grants_all_facts hg
  rcases malloc_spec hh hwf sz lifetime heap with
    ⟨i, hi, hfe, hres⟩ | ⟨hall, ⟨-, hw⟩ | ⟨st2, -, -, hng⟩ | ⟨-, -, hres⟩⟩
  · have hempty : ptr_at st i = NULL := by
      rcases hfe with h1 | h1
      · exact h1.2.1
      · exact h1.2.2.2.1
    rw [if_neg g1] at hres
    exact ⟨_, _, _, hres, allocated_same hh hwf hi hempty sz lifetime g1, Or.inl rfl⟩
  · exact absurd hroom hw
  · exact absurd g3 hng
  · rw [if_neg g4] at hres
    exact ⟨_, _, _, hres, allocated_grown hh hwf hroom hall sz lifetime g4, Or.inr rfl⟩

theorem deref_eq {st : State} (hh : healthy st) (hwf : WF st) (f : safepointer) :
    safepointer_deref st f =
      if f.indy < st.c_safemem_nptrs ∧ hash_at st f.indy = f.hash then some (ptr_at st f.indy)
      else some NULL := by
  unfold healthy at hh
  by_cases hi : f.indy < st.c_safemem_nptrs
  · have h1 := rd_hashes hwf.1 hi
    have h2 := rd_ptrs hwf.1 hi
    by_cases hm : hash_at st f.indy = f.hash
    · have hm' := (hash_eq_iff _ _).mp hm
      simp [safepointer_deref, hh, hi, h1, h2, hm, hm']
    · have hm' : ¬ ((hash_at st f.indy).part1 = f.hash.part1 ∧
          (hash_at st f.indy).part2 = f.hash.part2) := fun h => hm ((hash_eq_iff _ _).mpr h)
      simp only [safepointer_deref, hh, h1, if_neg hm']
      simp [hi, hm]
  · simp [safepointer_deref, hh, hi, Nat.le_of_not_lt hi]

theorem valid_iff {st : State} (f : safepointer) :
    valid st f ↔ f.indy < st.c_safemem_nptrs ∧ hash_at st f.indy = f.hash ∧
      ptr_at st f.indy ≠ NULL := by
  unfold valid
  rw [hash_eq_iff]

/-- The handle just returned is valid and dereferences to the storage placed. -/
theorem allocated_valid {st st' : State} {sz lifetime p : Nat} {h : safepointer}
    (ha : Allocated st sz lifetime h st' p) :
    valid st' h ∧ safepointer_deref st' h = some p ∧ ptr_at st' h.indy = p := by
  have hp : ptr_at st' h.indy = p := by rw [ha.ptrs]; simp
  have hhs : hash_at st' h.indy = h.hash := by rw [ha.hashes, ha.hash_eq]; simp
  refine ⟨(valid_iff h).mpr ⟨ha.index_lt, hhs, by rw [hp]; exact ha.storage_ne⟩, ?_, hp⟩
  rw [deref_eq ha.is_healthy ha.wf, if_pos ⟨ha.index_lt, hhs⟩, hp]

/-- C2: on a healthy instance whose heap requests are all granted (and whose table
length can grow by a block within `size_t`), `safepointer_malloc s l` returns a handle
`h` with `h.size = s`; `safepointer_deref h` taken immediately afterwards is non-`NULL`
and is the storage pointer just placed in slot `h.indy`, the one `calloc` returned.
This holds for every size, in particular every `s > 0`. -/
theorem C2_validity_round_trip (st : State) (sz lifetime : Nat) (heap : List Nat)
    (hh : healthy st) (hwf : WF st) (hroom : room st) (hg : grants_all heap) :
    ∃ h st' p, safepointer_malloc st sz lifetime heap = some (h, st') ∧
      h.size = sz ∧ p ≠ NULL ∧ safepointer_deref st' h = some p ∧
      ptr_at st' h.indy = p ∧ valid st' h ∧ healthy st' ∧
      (p = calloc_ret heap ∨ p = calloc_ret (after_growth heap)) := by
  obtain ⟨h, st', p, hm, ha, hp⟩ := malloc_succeeds hh hwf hroom sz lifetime hg
  obtain ⟨hv, hd, hpa⟩ := allocated_valid ha
  exact ⟨h, st', p, hm, ha.size_eq, ha.storage_ne, hd, hpa, hv, ha.is_healthy, hp⟩

/-- C3: on a healthy instance every handle `h` that is valid stays valid across any
successful `safepointer_malloc` (one that returns and leaves the instance healthy),
whether or not the call grew the table: it dereferences to the same storage and slot
`h.indy` keeps its generation and scheduled death; and a successful
`safepointer_expand_storage` leaves every slot below the old length unchanged, makes
every new slot empty and increases the table length by exactly
`C_SAFEMEM_BLOCK_SIZE = 512`. -/
theorem C3_growth_preserves_data (st : State) (hh : healthy st) (hwf : WF st) :
    (∀ (h : safepointer), valid st h →
      ∀ (sz lifetime : Nat) (heap : List Nat) (h2 : safepointer) (st' : State),
        safepointer_malloc st sz lifetime heap = some (h2, st') → healthy st' →
          valid st' h ∧
          safepointer_deref st' h = some (ptr_at st h.indy) ∧
          safepointer_deref st h = some (ptr_at st h.indy) ∧
          ptr_at st' h.indy = ptr_at st h.indy ∧
          hash_at st' h.indy = hash_at st h.indy ∧
          death_at st' h.indy = death_at st h.indy ∧
          (st'.c_safemem_nptrs = st.c_safemem_nptrs ∨
            st'.c_safemem_nptrs = st.c_safemem_nptrs + C_SAFEMEM_BLOCK_SIZE)) ∧
    (∀ (heap heap2 : List Nat) (st2 : State),
      safepointer_expand_storage st heap = some (0, st2, heap2) →
        st2.c_safemem_nptrs = st.c_safemem_nptrs + C_SAFEMEM_BLOCK_SIZE ∧
        st2.c_safemem_ptrs.length = st2.c_safemem_nptrs ∧
        st2.c_safemem_hashes.length = st2.c_safemem_nptrs ∧
        st2.c_safemem_scheduled_deaths.length = st2.c_safemem_nptrs ∧
        (∀ j, j < st.c_safemem_nptrs →
          ptr_at st2 j = ptr_at st j ∧ hash_at st2 j = hash_at st j ∧
          death_at st2 j = death_at st j) ∧
        (∀ j, st.c_safemem_nptrs ≤ j → j < st2.c_safemem_nptrs →
          ptr_at st2 j = NULL ∧ hash_at st2 j = SAFEPTRHASH_ZERO ∧ death_at st2 j = 0)) := by
  constructor
  · intro h hv sz lifetime heap h2 st' hm hok
    obtain ⟨p, ha⟩ := malloc_success_cases hh hwf hm hok
    obtain ⟨hi, hhs, hp⟩ := (valid_iff h).mp hv
    have hne : h.indy ≠ h2.indy := by
      intro he
      rw [he] at hp
      exact hp ha.was_empty
    have e1 : ptr_at st' h.indy = ptr_at st h.indy := by rw [ha.ptrs, if_neg hne]
    have e2 : hash_at st' h.indy = hash_at st h.indy := by rw [ha.hashes, if_neg hne]
    have e3 : death_at st' h.indy = death_at st h.indy := by rw [ha.deaths, if_neg hne]
    have hlen : st'.c_safemem_nptrs = st.c_safemem_nptrs ∨
        st'.c_safemem_nptrs = st.c_safemem_nptrs + C_SAFEMEM_BLOCK_SIZE := by
      rcases ha.length_cases with h1 | h1
      · exact Or.inl h1
      · exact Or.inr h1.1
    have hi' : h.indy < st'.c_safemem_nptrs := by
      rcases hlen with h1 | h1 <;> rw [h1] <;> omega
    refine ⟨(valid_iff h).mpr ⟨hi', by rw [e2]; exact hhs, by rw [e1]; exact hp⟩, ?_, ?_,
      e1, e2, e3, hlen⟩
    · rw [deref_eq ha.is_healthy ha.wf, if_pos ⟨hi', by rw [e2]; exact hhs⟩, e1]
    · rw [deref_eq hh hwf, if_pos ⟨hi, hhs⟩]
  · intro heap heap2 st2 he
    rcases expand_storage_spec hh hwf heap with ⟨e1, -⟩ | ⟨st3, heap3, e1, -, -⟩ | ⟨e1, hroom, -⟩
    · rw [he] at e1; cases e1
    · rw [he] at e1
      injection e1 with e1
      injection e1 with e1 _
      cases e1
    · rw [he] at e1
      injection e1 with e1
      injection e1 with _ e1
      injection e1 with e1 _
      subst e1
      have hg := grown_Lens hwf.1
      refine ⟨rfl, hg.1, hg.2.1, hg.2.2, ?_, ?_⟩
      · intro j _
        exact ⟨ptr_at_grown st j, hash_at_grown st j, death_at_grown st j⟩
      · intro j hj _
        have b1 : st.c_safemem_ptrs.length ≤ j := by rw [hwf.1.1]; exact hj
        have b2 : st.c_safemem_hashes.length ≤ j := by rw [hwf.1.2.1]; exact hj
        have b3 : st.c_safemem_scheduled_deaths.length ≤ j := by rw [hwf.1.2.2]; exact hj
        refine ⟨by rw [ptr_at_grown]; exact ptr_at_beyond b1, ?_, ?_⟩
        · rw [hash_at_grown]; simp [hash_at, List.getElem?_eq_none b2]
        · rw [death_at_grown]; simp [death_at, List.getElem?_eq_none b3]

/-! ## Lifetimes -/

/-- One sweep of a healthy table, with the invariant carried along. -/
theorem sweep_step {st : State} (hh : healthy st) (hwf : WF st) :
    ∃ st', safepointer_collect_garbage st = some (C_SAFEMEM_NO_ERR, st') ∧
      healthy st' ∧ WF st' ∧
      st'.c_safemem_nptrs = st.c_safemem_nptrs ∧
      st'.c_safemem_hash_counter = st.c_safemem_hash_counter ∧
      st'.c_safemem_update_calls = (st.c_safemem_update_calls + 1) % SIZE_MOD ∧
      ∀ j, (expired st j →
              ptr_at st' j = NULL ∧ hash_at st' j = SAFEPTRHASH_ZERO ∧ death_at st' j = 0) ∧
           (¬ expired st j →
              ptr_at st' j = ptr_at st j ∧ hash_at st' j = hash_at st j ∧
              death_at st' j = death_at st j) := by
  obtain ⟨st', hrun, hl', e1, e2, e3, e4, e5, hj⟩ := collect_garbage_spec hh hwf.1
  refine ⟨st', hrun, ?_, ?_, e1, e4, e5, hj⟩
  · unfold healthy at *; rw [e2]; exact hh
  · obtain ⟨-, hq, hn, -, hc⟩ := hwf
    refine ⟨hl', by rw [e3, e1]; exact hq, by rw [e1]; exact hn, ?_, by rw [e4]; exact hc⟩
    rw [e5]
    have : (st.c_safemem_update_calls + 1) % SIZE_MOD < SIZE_MOD :=
      Nat.mod_lt _ (by unfold SIZE_MOD; omega)
    unfold SIZE_MOD at this ⊢; unfold SIZE_MAX; omega

/-- An occupied slot survives `n` sweeps during which the epoch never equals its
scheduled death. -/
theorem sweeps_keep (n : Nat) :
    ∀ (st : State) (i : Nat), healthy st → WF st → ptr_at st i ≠ NULL →
      (∀ k, k < n → (st.c_safemem_update_calls + k) % SIZE_MOD ≠ death_at st i) →
      ∃ stn, collect_garbage_times n st = some stn ∧ healthy stn ∧ WF stn ∧
        stn.c_safemem_nptrs = st.c_safemem_nptrs ∧
        stn.c_safemem_hash_counter = st.c_safemem_hash_counter ∧
        stn.c_safemem_update_calls = (st.c_safemem_update_calls + n) % SIZE_MOD ∧
        ptr_at stn i = ptr_at st i ∧ hash_at stn i = hash_at st i ∧
        death_at stn i = death_at st i := by
  induction n with
  | zero =>
    intro st i hh hwf _ _
    refine ⟨st, rfl, hh, hwf, rfl, rfl, ?_, rfl, rfl, rfl⟩
    have := hwf.2.2.2.1
    rw [Nat.add_zero, Nat.mod_eq_of_lt]
    unfold SIZE_MAX at this; unfold SIZE_MOD; omega
  | succ n ih =>
    intro st i hh hwf hp hk
    have hE := hwf.2.2.2.1
    obtain ⟨st1, hrun, hh1, hwf1, e1, e2, e3, hj⟩ := sweep_step hh hwf
    have hnot : ¬ expired st i := by
      rintro ⟨-, hd⟩
      have := hk 0 (by omega)
      rw [Nat.add_zero, Nat.mod_eq_of_lt (by unfold SIZE_MAX at hE; unfold SIZE_MOD; omega)] at this
      exact this hd.symm
    obtain ⟨p1, p2, p3⟩ := (hj i).2 hnot
    have hk1 : ∀ k, k < n → (st1.c_safemem_update_calls + k) % SIZE_MOD ≠ death_at st1 i := by
      intro k hkn
      have := hk (k + 1) (by omega)
      rw [p3, e3]
      have e : ((st.c_safemem_update_calls + 1) % SIZE_MOD + k) % SIZE_MOD =
          (st.c_safemem_update_calls + (k + 1)) % SIZE_MOD := by
        unfold SIZE_MOD; omega
      rw [e]; exact this
    obtain ⟨stn, hrunn, hhn, hwfn, f1, f2, f3, q1, q2, q3⟩ :=
      ih st1 i hh1 hwf1 (by rw [p1]; exact hp) hk1
    refine ⟨stn, ?_, hhn, hwfn, by rw [f1, e1], by rw [f2, e2], ?_, by rw [q1, p1],
      by rw [q2, p2], by rw [q3, p3]⟩
    · simp only [collect_garbage_times, hrun]; exact hrunn
    · rw [f3, e3]; unfold SIZE_MOD; omega

/-- An empty slot stays empty through any number of sweeps. -/
theorem sweeps_empty (n : Nat) :
    ∀ (st : State) (i : Nat), healthy st → WF st → ptr_at st i = NULL →
      ∃ stn, collect_garbage_times n st = some stn ∧ healthy stn ∧ WF stn ∧
        stn.c_safemem_nptrs = st.c_safemem_nptrs ∧ ptr_at stn i = NULL := by
  induction n with
  | zero =>
    intro st i hh hwf hp
    exact ⟨st, rfl, hh, hwf, rfl, hp⟩
  | succ n ih =>
    intro st i hh hwf hp
    obtain ⟨st1, hrun, hh1, hwf1, e1, -, -, hj⟩ := sweep_step hh hwf
    have hnot : ¬ expired st i := fun h => h.1 hp
    obtain ⟨p1, -, -⟩ := (hj i).2 hnot
    obtain ⟨stn, hrunn, hhn, hwfn, f1, q1⟩ := ih st1 i hh1 hwf1 (by rw [p1]; exact hp)
    refine ⟨stn, ?_, hhn, hwfn, by rw [f1, e1], q1⟩
    simp only [collect_garbage_times, hrun]; exact hrunn

/-- Dereferencing a handle whose slot is empty yields `NULL`, and freeing it is refused
with `C_SAFEMEM_INVALID_STATE` when the index is in range. -/
theorem empty_slot_rejects {st : State} (hh : healthy st) (hwf : WF st) {f : safepointer}
    (hp : ptr_at st f.indy = NULL) :
    safepointer_deref st f = some NULL ∧ ¬ valid st f ∧
    (f.indy < st.c_safemem_nptrs →
      safepointer_free st f = some (C_SAFEMEM_INVALID_STATE, st)) := by
  have hnv : ¬ valid st f := fun hv => hv.2.2 hp
  refine ⟨?_, hnv, ?_⟩
  · rw [deref_eq hh hwf]
    split
    · rw [hp]
    · rfl
  · intro hi
    rw [free_cases f hh hwf.1, if_neg (not_not.mpr hi), if_neg hnv]

theorem collect_garbage_times_add (a b : Nat) :
    ∀ st, collect_garbage_times (a + b) st =
      match collect_garbage_times a st with
      | none => none
      | some st1 => collect_garbage_times b st1 := by
  induction a with
  | zero => intro st; simp [collect_garbage_times]
  | succ a ih =>
    intro st
    have e : a + 1 + b = (a + b) + 1 := by omega
    rw [e]
    simp only [collect_garbage_times]
    cases safepointer_collect_garbage st with
    | none => rfl
    | some r => exact ih r.2

/-- What a lifetime means: a slot allocated with lifetime `L` is still there after up to
`L` sweeps and is reclaimed by sweep number `L + 1`. -/
theorem alloc_lifetime {st st1 : State} {sz L p : Nat} {h : safepointer}
    (hwf : WF st) (ha : Allocated st sz L h st1 p) (hL : L ≤ SIZE_MAX) :
    (∀ n, n ≤ L → ∃ stn, collect_garbage_times n st1 = some stn ∧ healthy stn ∧ WF stn ∧
        valid stn h ∧ safepointer_deref stn h = some p ∧
        stn.c_safemem_update_calls = (st.c_safemem_update_calls + n) % SIZE_MOD) ∧
    (∀ n, L < n → ∃ stn, collect_garbage_times n st1 = some stn ∧ healthy stn ∧ WF stn ∧
        ¬ valid stn h ∧ safepointer_deref stn h = some NULL ∧
        safepointer_free stn h = some (C_SAFEMEM_INVALID_STATE, stn)) := by
  have hE := hwf.2.2.2.1
  have hp1 : ptr_at st1 h.indy = p := by rw [ha.ptrs]; simp
  have hh1 : hash_at st1 h.indy = h.hash := by rw [ha.hashes, ha.hash_eq]; simp
  have hd1 : death_at st1 h.indy = (st.c_safemem_update_calls + L) % SIZE_MOD := by
    rw [ha.deaths]; simp
  have keep : ∀ n, n ≤ L → ∃ stn, collect_garbage_times n st1 = some stn ∧ healthy stn ∧
      WF stn ∧ stn.c_safemem_nptrs = st1.c_safemem_nptrs ∧
      stn.c_safemem_update_calls = (st.c_safemem_update_calls + n) % SIZE_MOD ∧
      ptr_at stn h.indy = p ∧ hash_at stn h.indy = h.hash ∧
      death_at stn h.indy = (st.c_safemem_update_calls + L) % SIZE_MOD := by
    intro n hn
    obtain ⟨stn, hrun, hhn, hwfn, e1, -, e3, q1, q2, q3⟩ :=
      sweeps_keep n st1 h.indy ha.is_healthy ha.wf (by rw [hp1]; exact ha.storage_ne)
        (by
          intro k hk
          rw [hd1, ha.epoch]
          unfold SIZE_MAX at hL hE
          unfold SIZE_MOD
          omega)
    exact ⟨stn, hrun, hhn, hwfn, e1, by rw [e3, ha.epoch], by rw [q1, hp1], by rw [q2, hh1],
      by rw [q3, hd1]⟩
  constructor
  · intro n hn
    obtain ⟨stn, hrun, hhn, hwfn, e1, e3, q1, q2, q3⟩ := keep n hn
    have hi : h.indy < stn.c_safemem_nptrs := by rw [e1]; exact ha.index_lt
    refine ⟨stn, hrun, hhn, hwfn, (valid_iff h).mpr ⟨hi, q2, by rw [q1]; exact ha.storage_ne⟩,
      ?_, e3⟩
    rw [deref_eq hhn hwfn, if_pos ⟨hi, q2⟩, q1]
  · intro n hn
    obtain ⟨stL, hrunL, hhL, hwfL, e1, e3, q1, q2, q3⟩ := keep L (Nat.le_refl L)
    obtain ⟨stL1, hrun1, hh1', hwf1', f1, -, -, hj⟩ := sweep_step hhL hwfL
    have hexp : expired stL h.indy := ⟨by rw [q1]; exact ha.storage_ne, by rw [q3, e3]⟩
    obtain ⟨z1, -, -⟩ := (hj h.indy).1 hexp
    obtain ⟨stn, hrunn, hhn, hwfn, g1, g2⟩ := sweeps_empty (n - (L + 1)) stL1 h.indy hh1' hwf1' z1
    have hi : h.indy < stn.c_safemem_nptrs := by rw [g1, f1, e1]; exact ha.index_lt
    obtain ⟨r1, r2, r3⟩ := @empty_slot_rejects stn hhn hwfn h g2
    refine ⟨stn, ?_, hhn, hwfn, r2, r1, r3 hi⟩
    have e : n = L + (1 + (n - (L + 1))) := by omega
    rw [e, collect_garbage_times_add, hrunL]
    show collect_garbage_times (1 + (n - (L + 1))) stL = some stn
    rw [collect_garbage_times_add]
    simp only [collect_garbage_times, hrun1]
    exact hrunn

/-- The two scenarios on a healthy table whose heap requests are granted: for a lifetime
`L` the handle dereferences to its storage after `n ≤ L` sweeps, and after `n > L`
sweeps it dereferences to `NULL` and freeing it is refused. -/
theorem lifetime_scenarios {st : State} (hh : healthy st) (hwf : WF st) (hroom : room st)
    (sz L : Nat) (hL : L ≤ SIZE_MAX) {heap : List Nat} (hg : grants_all heap) :
    ∃ p, p ≠ NULL ∧ (p = calloc_ret heap ∨ p = calloc_ret (after_growth heap)) ∧
      (∀ n, n ≤ L → deref_after_sweeps st sz L heap n = some p ∧
        free_after_sweeps st sz L heap n = some C_SAFEMEM_NO_ERR) ∧
      (∀ n, L < n → deref_after_sweeps st sz L heap n = some NULL ∧
        free_after_sweeps st sz L heap n = some C_SAFEMEM_INVALID_STATE) := by
  obtain ⟨h, st1, p, hm, ha, hp⟩ := malloc_succeeds hh hwf hroom sz L hg
  obtain ⟨hkeep, hdie⟩ := alloc_lifetime hwf ha hL
  refine ⟨p, ha.storage_ne, hp, ?_, ?_⟩
  · intro n hn
    obtain ⟨stn, hrun, hhn, hwfn, hv, hd, -⟩ := hkeep n hn
    constructor
    · simp only [deref_after_sweeps, hm, hrun, hd]
    · have := free_cases h hhn hwfn.1
      rw [if_neg (not_not.mpr hv.1), if_pos hv] at this
      simp only [free_after_sweeps, hm, hrun, this]
  · intro n hn
    obtain ⟨stn, hrun, hhn, hwfn, hv, hd, hf⟩ := hdie n hn
    constructor
    · simp only [deref_after_sweeps, hm, hrun, hd]
    · simp only [free_after_sweeps, hm, hrun, hf]

/-- On a full table (in particular on the initial, empty one) `safepointer_malloc`
grows the table and takes the first new slot. -/
theorem malloc_full {st : State} (hh : healthy st) (hwf : WF st) (hroom : room st)
    (hall : ∀ t, t < st.c_safemem_nptrs → ptr_at st t ≠ NULL) (sz lifetime : Nat)
    {heap : List Nat} (hg : grants_all heap) :
    safepointer_malloc st sz lifetime heap =
      some (⟨st.c_safemem_nptrs, sz, next_hash st⟩,
        stamped (grown st) st.c_safemem_nptrs lifetime (calloc_ret (after_growth heap))) := by
  obtain ⟨-, g3, g4⟩ := grants_all_facts hg
  rcases malloc_spec hh hwf sz lifetime heap with
    ⟨i, hi, hfe, -⟩ | ⟨-, ⟨-, hw⟩ | ⟨st2, -, -, hng⟩ | ⟨-, -, hres⟩⟩
  · have hempty : ptr_at st i = NULL := by
      rcases hfe with h1 | h1
      · exact h1.2.1
      · exact h1.2.2.2.1
    exact absurd hempty (hall i hi)
  · exact absurd hroom hw
  · exact absurd g3 hng
  · rw [if_neg g4] at hres; exact hres

/-- The two scenarios on a full table (in particular on the initial, empty one): the
storage is the block returned by the fourth `calloc` of the call. -/
theorem full_table_scenarios {st : State} (hh : healthy st) (hwf : WF st) (hroom : room st)
    (hall : ∀ t, t < st.c_safemem_nptrs → ptr_at st t ≠ NULL)
    (sz L : Nat) (hL : L ≤ SIZE_MAX) {heap : List Nat} (hg : grants_all heap) :
    (∀ n, n ≤ L →
      deref_after_sweeps st sz L heap n = some (calloc_ret (after_growth heap)) ∧
      free_after_sweeps st sz L heap n = some C_SAFEMEM_NO_ERR) ∧
    (∀ n, L < n → deref_after_sweeps st sz L heap n = some NULL ∧
      free_after_sweeps st sz L heap n = some C_SAFEMEM_INVALID_STATE) := by
  have hm := malloc_full hh hwf hroom hall sz L hg
  have ha := allocated_grown hh hwf hroom hall sz L (grants_all_facts hg).2.2
  obtain ⟨hkeep, hdie⟩ := alloc_lifetime hwf ha hL
  constructor
  · intro n hn
    obtain ⟨stn, hrun, hhn, hwfn, hv, hd, -⟩ := hkeep n hn
    constructor
    · simp only [deref_after_sweeps, hm, hrun, hd]
    · have := free_cases ⟨st.c_safemem_nptrs, sz, next_hash st⟩ hhn hwfn.1
      rw [if_neg (not_not.mpr hv.1), if_pos hv] at this
      simp only [free_after_sweeps, hm, hrun, this]
  · intro n hn
    obtain ⟨stn, hrun, hhn, hwfn, hv, hd, hf⟩ := hdie n hn
    constructor
    · simp only [deref_after_sweeps, hm, hrun, hd]
    · simp only [free_after_sweeps, hm, hrun, hf]

theorem initial_full : ∀ t, t < initial_state.c_safemem_nptrs → ptr_at initial_state t ≠ NULL :=
  fun t ht => absurd ht (Nat.not_lt_zero t)

theorem initial_healthy : healthy initial_state := rfl

theorem initial_WF : WF initial_state := by decide

theorem initial_room : room initial_state := by decide

theorem demo_grants : grants_all demo_heap := by decide

theorem demo_malloc (sz lifetime : Nat) :
    safepointer_malloc initial_state sz lifetime demo_heap =
      some (⟨0, sz, ⟨0, 2⟩⟩, stamped (grown initial_state) 0 lifetime 7) :=
  malloc_full initial_healthy initial_WF initial_room (fun t ht => absurd ht (Nat.not_lt_zero t))
    sz lifetime demo_grants

theorem demo_allocated (sz lifetime : Nat) :
    Allocated initial_state sz lifetime ⟨0, sz, ⟨0, 2⟩⟩
      (stamped (grown initial_state) 0 lifetime 7) 7 :=
  allocated_grown initial_healthy initial_WF initial_room
    (fun t ht => absurd ht (Nat.not_lt_zero t)) sz lifetime (by decide)

theorem demo_healthy : healthy demo_state := (demo_allocated 40 3).is_healthy

theorem demo_WF : WF demo_state := (demo_allocated 40 3).wf

theorem demo_valid : valid demo_state demo_handle := (allocated_valid (demo_allocated 40 3)).1

/-- C9 (as amended): lifetime 0 gives no exemption from the sweep.  After a successful
`h = safepointer_malloc(s, 0)` the handle is valid and dereferences to its storage, and
the first `safepointer_collect_garbage` call made afterwards reclaims the slot: after
every number `n >= 1` of such calls `safepointer_deref(h)` is `NULL` and `h` is not
valid. -/
theorem C9_lifetime_zero_expires (st : State) (sz : Nat) (heap : List Nat)
    (hh : healthy st) (hwf : WF st) (hroom : room st) (hg : grants_all heap) :
    ∃ h st1 p, safepointer_malloc st sz 0 heap = some (h, st1) ∧ p ≠ NULL ∧
      valid st1 h ∧ safepointer_deref st1 h = some p ∧
      ∀ n, 1 ≤ n → ∃ stn, collect_garbage_times n st1 = some stn ∧
        safepointer_deref stn h = some NULL ∧ ¬ valid stn h := by
  obtain ⟨h, st1, p, hm, ha, -⟩ := malloc_succeeds hh hwf hroom sz 0 hg
  obtain ⟨hv, hd, -⟩ := allocated_valid ha
  obtain ⟨-, hdie⟩ := alloc_lifetime hwf ha (Nat.zero_le _)
  refine ⟨h, st1, p, hm, ha.storage_ne, hv, hd, ?_⟩
  intro n hn
  obtain ⟨stn, hrun, -, -, hnv, hdn, -⟩ := hdie n (by omega)
  exact ⟨stn, hrun, hdn, hnv⟩

/-- C9 fails as stated: on the initial state, the handle of `safepointer_malloc(40, 0)`
dereferences to `NULL` after a single `safepointer_collect_garbage`. -/
theorem C9_counterexample : deref_after_sweeps initial_state 40 0 demo_heap 1 = some NULL :=
  ((full_table_scenarios initial_healthy initial_WF initial_room initial_full 40 0
    (Nat.zero_le _) demo_grants).2 1 (Nat.lt_succ_self 0)).1

/-- C10 (as amended): on a healthy instance `H = safepointer_malloc(40, 3)` has
`H.size = 40` and `safepointer_deref(H)` is non-`NULL`; after three
`safepointer_collect_garbage` calls `H` is still valid and dereferences to the same
storage; the fourth call frees the slot, after which `safepointer_deref(H)` returns
`NULL` and `safepointer_free(H)` returns `C_SAFEMEM_INVALID_STATE`. -/
theorem C10_example_scenario (st : State) (heap : List Nat)
    (hh : healthy st) (hwf : WF st) (hroom : room st) (hg : grants_all heap) :
    ∃ H st1 p, safepointer_malloc st 40 3 heap = some (H, st1) ∧ H.size = 40 ∧ p ≠ NULL ∧
      safepointer_deref st1 H = some p ∧
      (∃ st3, collect_garbage_times 3 st1 = some st3 ∧ valid st3 H ∧
        safepointer_deref st3 H = some p) ∧
      (∃ st4, collect_garbage_times 4 st1 = some st4 ∧
        safepointer_deref st4 H = some NULL ∧
        safepointer_free st4 H = some (C_SAFEMEM_INVALID_STATE, st4)) := by
  obtain ⟨H, st1, p, hm, ha, -⟩ := malloc_succeeds hh hwf hroom 40 3 hg
  obtain ⟨-, hd, -⟩ := allocated_valid ha
  obtain ⟨hkeep, hdie⟩ := alloc_lifetime hwf ha (by unfold SIZE_MAX; omega)
  obtain ⟨st3, hrun3, -, -, hv3, hd3, -⟩ := hkeep 3 (Nat.le_refl 3)
  obtain ⟨st4, hrun4, -, -, -, hd4, hf4⟩ := hdie 4 (by omega)
  exact ⟨H, st1, p, hm, ha.size_eq, ha.storage_ne, hd, ⟨st3, hrun3, hv3, hd3⟩,
    ⟨st4, hrun4, hd4, hf4⟩⟩

/-- C10 fails as stated: on the initial state, after `safepointer_malloc(40, 3)` and
three `safepointer_collect_garbage` calls, `safepointer_deref` still returns the storage
(address `7`) and `safepointer_free` returns `C_SAFEMEM_NO_ERR`. -/
theorem C10_counterexample :
    deref_after_sweeps initial_state 40 3 demo_heap 3 = some 7 ∧
    free_after_sweeps initial_state 40 3 demo_heap 3 = some C_SAFEMEM_NO_ERR :=
  (full_table_scenarios initial_healthy initial_WF initial_room initial_full 40 3
    (by decide) demo_grants).1 3 (Nat.le_refl 3)

/-! ## Generations along a sequence of calls -/

theorem next_hash_of_val {st : State} {v : Nat} (hc : st.c_safemem_hash_counter = hash_of_val v) :
    next_hash st = hash_of_val (v + 1) := by
  simp only [next_hash, safepointer_increment_hash_counter, hc, hash_of_val]
  have e1 : (v % SIZE_MOD + 1) % SIZE_MOD = (v + 1) % SIZE_MOD := by unfold SIZE_MOD; omega
  rw [e1]
  by_cases h0 : (v + 1) % SIZE_MOD = 0
  · rw [if_pos h0]
    have : (v / SIZE_MOD % SIZE_MOD + 1) % SIZE_MOD = (v + 1) / SIZE_MOD % SIZE_MOD := by
      unfold SIZE_MOD at h0 ⊢; omega
    rw [this]
  · rw [if_neg h0]
    have : v / SIZE_MOD % SIZE_MOD = (v + 1) / SIZE_MOD % SIZE_MOD := by
      unfold SIZE_MOD at h0 ⊢; omega
    rw [this]

theorem hash_of_val_eq_iff (a b : Nat) :
    hash_of_val a = hash_of_val b ↔ a % HASH_MOD = b % HASH_MOD := by
  rw [hash_eq_iff]
  simp only [hash_of_val]
  unfold SIZE_MOD HASH_MOD
  constructor
  · rintro ⟨h1, h2⟩; omega
  · intro h; constructor <;> omega

theorem counter_is_val {c : safeptrhash} (h1 : c.part1 ≤ SIZE_MAX) (h2 : c.part2 ≤ SIZE_MAX) :
    c = hash_of_val (c.part2 * SIZE_MOD + c.part1) := by
  rw [hash_eq_iff]
  simp only [hash_of_val]
  unfold SIZE_MAX at h1 h2
  unfold SIZE_MOD
  constructor <;> omega

/-- The effect of `safepointer_keepalive` on a healthy table: the scheduled death of
slot `f.indy` is rewritten when the index is in range and the stored generation equals
`f.hash`; nothing else changes. -/
theorem keepalive_spec {st : State} (hh : healthy st) (hl : Lens st) (f : safepointer)
    (lifetime : Nat) :
    safepointer_keepalive st f lifetime =
      if f.indy < st.c_safemem_nptrs ∧ hash_at st f.indy = f.hash then
        some { st with c_safemem_scheduled_deaths := (st.c_safemem_scheduled_deaths.set f.indy
          ((st.c_safemem_update_calls + lifetime) % SIZE_MOD)) }
      else some st := by
  unfold healthy at hh
  by_cases hi : f.indy < st.c_safemem_nptrs
  · have h1 := rd_hashes hl hi
    have h3 : f.indy < st.c_safemem_scheduled_deaths.length := by rw [hl.2.2]; exact hi
    by_cases hm : hash_at st f.indy = f.hash
    · have hm' := (hash_eq_iff _ _).mp hm
      simp [safepointer_keepalive, hh, hi, h1, hm, hm', wr, h3]
    · have hm' : ¬ ((hash_at st f.indy).part1 = f.hash.part1 ∧
          (hash_at st f.indy).part2 = f.hash.part2) := fun h => hm ((hash_eq_iff _ _).mpr h)
      simp only [safepointer_keepalive, hh, h1, if_neg hm']
      simp [hi, hm]
  · simp [safepointer_keepalive, hh, hi, Nat.le_of_not_lt hi]

theorem collect_all_loop_spec (k : Nat) :
    ∀ (i : Nat) (st : State), Lens st → i + k ≤ st.c_safemem_nptrs →
      ∃ st', collect_all_loop st i k = some st' ∧ Lens st' ∧
        st'.c_safemem_nptrs = st.c_safemem_nptrs ∧ st'.quick = st.quick := by
  induction k with
  | zero => intro i st hl _; exact ⟨st, rfl, hl, rfl, rfl⟩
  | succ k ih =>
    intro i st hl hik
    have hi : i < st.c_safemem_nptrs := by omega
    have h1 := rd_ptrs hl hi
    have h3 := release_slot_eq hl hi
    by_cases hp : ptr_at st i ≠ NULL
    · obtain ⟨st', hrun, hl', e1, e2⟩ :=
        ih (i + 1) (released st i) (released_Lens hl)
          (by show i + 1 + k ≤ st.c_safemem_nptrs; omega)
      refine ⟨st', ?_, hl', e1, e2⟩
      simp only [collect_all_loop, h1, h3, if_pos hp]
      exact hrun
    · obtain ⟨st', hrun, hl', e1, e2⟩ := ih (i + 1) st hl (by omega)
      refine ⟨st', ?_, hl', e1, e2⟩
      simp only [collect_all_loop, h1, if_neg hp]
      exact hrun

/-- On a healthy table `safepointer_collect_all` returns `C_SAFEMEM_NO_ERR` and leaves
the globals `torn_down`: `c_safemem_nptrs` and `quick` keep their values. -/
theorem collect_all_spec {st : State} (hh : healthy st) (hl : Lens st) :
    safepointer_collect_all st = some (C_SAFEMEM_NO_ERR, torn_down st) := by
  obtain ⟨st1, hrun, -, e1, e2⟩ := collect_all_loop_spec st.c_safemem_nptrs 0 st hl (by omega)
  unfold healthy at hh
  simp [safepointer_collect_all, hh, hrun, torn_down, e1, e2]

theorem malloc_scan_nil (i k : Nat) (hk : 0 < k) : malloc_scan [] i k = none := by
  cases k with
  | zero => omega
  | succ k => simp [malloc_scan, rd]

/-- After a teardown of a grown table every `safepointer_malloc` reads through the
`NULL` array pointer. -/
theorem malloc_torn {st : State} (ht : Torn st) (sz lifetime : Nat) (heap : List Nat) :
    safepointer_malloc st sz lifetime heap = none := by
  obtain ⟨hh, hp, -, hn⟩ := ht
  rw [malloc_unfold hh]
  have hloop : malloc_while (malloc_fuel heap) sentinel st.c_safemem_nptrs st heap = none := by
    show malloc_while (heap.length + 4) sentinel st.c_safemem_nptrs st heap = none
    by_cases hq : st.quick < st.c_safemem_nptrs
    · have hs : malloc_scan st.c_safemem_ptrs st.quick (st.c_safemem_nptrs - st.quick) = none := by
        rw [hp]; exact malloc_scan_nil _ _ (by omega)
      simp [malloc_while, sentinel, hs]
    · have hs : malloc_scan st.c_safemem_ptrs st.quick (st.c_safemem_nptrs - st.quick)
          = some none := by
        have : st.c_safemem_nptrs - st.quick = 0 := by omega
        rw [this]; rfl
      have hq0 : st.quick ≠ 0 := by omega
      rw [malloc_while_second_pass heap (heap.length + 3) rfl hs hq0]
      have hs2 : malloc_scan st.c_safemem_ptrs 0 st.quick = none := by
        rw [hp]; exact malloc_scan_nil _ _ (by omega)
      simp [malloc_while, sentinel, hs2]
  rw [hloop]

theorem step_poisoned {st : State} (hh : ¬ healthy st) (op : Op) :
    step st op = some (st, none) := by
  unfold healthy at hh
  cases op <;>
    simp [step, safepointer_malloc, safepointer_free, safepointer_deref, safepointer_keepalive,
      safepointer_collect_garbage, safepointer_collect_all, hh]

theorem step_torn {st : State} (ht : Torn st) (op : Op) :
    step st op = none ∨ step st op = some (st, none) := by
  have ht' := ht
  obtain ⟨hh, hp, hhs, hn⟩ := ht
  unfold healthy at hh
  cases op with
  | malloc sz lifetime heap => left; simp [step, malloc_torn ht']
  | free f =>
    by_cases hi : f.indy < st.c_safemem_nptrs
    · left; simp [step, safepointer_free, hh, Nat.not_le.mpr hi, hp, rd]
    · right; simp [step, safepointer_free, hh, Nat.le_of_not_lt hi]
  | deref f =>
    by_cases hi : f.indy < st.c_safemem_nptrs
    · left; simp [step, safepointer_deref, hh, Nat.not_le.mpr hi, hhs, rd]
    · right; simp [step, safepointer_deref, hh, Nat.le_of_not_lt hi]
  | keepalive f lifetime =>
    by_cases hi : f.indy < st.c_safemem_nptrs
    · left; simp [step, safepointer_keepalive, hh, Nat.not_le.mpr hi, hhs, rd]
    · right; simp [step, safepointer_keepalive, hh, Nat.le_of_not_lt hi]
  | collect_garbage =>
    left
    obtain ⟨k, hk⟩ : ∃ k, st.c_safemem_nptrs = k + 1 := ⟨st.c_safemem_nptrs - 1, by omega⟩
    simp [step, safepointer_collect_garbage, hh, hk, collect_garbage_loop, hp, rd]
  | collect_all =>
    left
    obtain ⟨k, hk⟩ : ∃ k, st.c_safemem_nptrs = k + 1 := ⟨st.c_safemem_nptrs - 1, by omega⟩
    simp [step, safepointer_collect_all, hh, hk, collect_all_loop, hp, rd]

theorem released_WF {st : State} (hwf : WF st) (i : Nat) : WF (released st i) :=
  ⟨released_Lens hwf.1, hwf.2⟩

/-- One call on a healthy table whose counter holds `v`: the call has no defined
behaviour, or it issues no handle and leaves the table healthy with the same counter,
poisoned, or torn down, or it is a `safepointer_malloc` that issues a handle and leaves
the counter at `v + 1`. -/
theorem step_good {st : State} {v : Nat} (hg : Good st v) (op : Op) :
    step st op = none ∨
    (∃ st', step st op = some (st', none) ∧ (Good st' v ∨ ¬ healthy st' ∨ Torn st')) ∨
    (∃ st' h sz lifetime heap p, op = Op.malloc sz lifetime heap ∧
      step st op = some (st', some h) ∧ Good st' (v + 1) ∧
      Allocated st sz lifetime h st' p) := by
  obtain ⟨hh, hwf, hc, h0⟩ := hg
  cases op with
  | malloc sz lifetime heap =>
    cases hm : safepointer_malloc st sz lifetime heap with
    | none => left; simp [step, hm]
    | some r =>
      obtain ⟨h, st'⟩ := r
      by_cases hok : healthy st'
      · right; right
        obtain ⟨p, ha⟩ := malloc_success_cases hh hwf hm hok
        refine ⟨st', h, sz, lifetime, heap, p, rfl, ?_, ⟨hok, ha.wf, ?_, ?_⟩, ha⟩
        · unfold healthy at hok
          simp [step, hm, hok]
        · rw [ha.counter]; exact next_hash_of_val hc
        · intro hz
          have := ha.index_lt
          omega
      · right; left
        refine ⟨st', ?_, Or.inr (Or.inl hok)⟩
        unfold healthy at hok
        simp [step, hm, hok]
  | free f =>
    right; left
    have hf := free_cases f hh hwf.1
    by_cases hi : f.indy < st.c_safemem_nptrs
    · by_cases hv : valid st f
      · rw [if_neg (not_not.mpr hi), if_pos hv] at hf
        refine ⟨released st f.indy, by simp [step, hf], Or.inl ⟨hh, released_WF hwf _, hc, h0⟩⟩
      · rw [if_neg (not_not.mpr hi), if_neg hv] at hf
        exact ⟨st, by simp [step, hf], Or.inl ⟨hh, hwf, hc, h0⟩⟩
    · rw [if_pos hi] at hf
      exact ⟨st, by simp [step, hf], Or.inl ⟨hh, hwf, hc, h0⟩⟩
  | deref f =>
    right; left
    refine ⟨st, ?_, Or.inl ⟨hh, hwf, hc, h0⟩⟩
    have hd := deref_eq hh hwf f
    by_cases hcond : f.indy < st.c_safemem_nptrs ∧ hash_at st f.indy = f.hash
    · rw [if_pos hcond] at hd; simp [step, hd]
    · rw [if_neg hcond] at hd; simp [step, hd]
  | keepalive f lifetime =>
    right; left
    have hk := keepalive_spec hh hwf.1 f lifetime
    by_cases hcond : f.indy < st.c_safemem_nptrs ∧ hash_at st f.indy = f.hash
    · rw [if_pos hcond] at hk
      have hlen : (st.c_safemem_scheduled_deaths.set f.indy
          ((st.c_safemem_update_calls + lifetime) % SIZE_MOD)).length = st.c_safemem_nptrs := by
        rw [List.length_set]; exact hwf.1.2.2
      exact ⟨{ st with c_safemem_scheduled_deaths := (st.c_safemem_scheduled_deaths.set f.indy
          ((st.c_safemem_update_calls + lifetime) % SIZE_MOD)) }, by simp only [step, hk],
        Or.inl ⟨hh, ⟨⟨hwf.1.1, hwf.1.2.1, hlen⟩, hwf.2⟩, hc, h0⟩⟩
    · rw [if_neg hcond] at hk
      exact ⟨st, by simp only [step, hk], Or.inl ⟨hh, hwf, hc, h0⟩⟩
  | collect_garbage =>
    right; left
    obtain ⟨st', hrun, hh', hwf', e1, e2, -, -⟩ := sweep_step hh hwf
    refine ⟨st', by simp only [step, hrun], Or.inl ⟨hh', hwf', by rw [e2]; exact hc, ?_⟩⟩
    intro hz; rw [e1] at hz; exact h0 hz
  | collect_all =>
    right; left
    have hca := collect_all_spec hh hwf.1
    refine ⟨torn_down st, by simp only [step, hca], ?_⟩
    by_cases hz : st.c_safemem_nptrs = 0
    · left
      have b1 : (1 : Nat) ≤ SIZE_MAX := by decide
      have b2 : (0 : Nat) ≤ SIZE_MAX := by decide
      refine ⟨rfl, ⟨⟨?_, ?_, ?_⟩, hwf.2.1, hwf.2.2.1, b1, b1, b2⟩,
        (h0 hz).symm, fun _ => h0 hz⟩
      · show ([] : List Nat).length = st.c_safemem_nptrs
        rw [hz]; rfl
      · show ([] : List safeptrhash).length = st.c_safemem_nptrs
        rw [hz]; rfl
      · show ([] : List Nat).length = st.c_safemem_nptrs
        rw [hz]; rfl
    · right; right
      exact ⟨rfl, rfl, rfl, by show 0 < st.c_safemem_nptrs; omega⟩

theorem issued_poisoned (ops : List Op) :
    ∀ st, ¬ healthy st → issued st ops = [] := by
  induction ops with
  | nil => intro st _; rfl
  | cons op ops ih =>
    intro st hh
    simp only [issued, step_poisoned hh op]
    exact ih st hh

theorem issued_torn (ops : List Op) :
    ∀ st, Torn st → issued st ops = [] := by
  induction ops with
  | nil => intro st _; rfl
  | cons op ops ih =>
    intro st ht
    rcases step_torn ht op with h | h
    · simp only [issued, h]
    · simp only [issued, h]
      exact ih st ht

/-- The handles issued along a sequence of calls carry consecutive counter values. -/
theorem issued_stamps (ops : List Op) :
    ∀ st v, Good st v → stamps_from v (issued st ops) := by
  induction ops with
  | nil => intro st v _; trivial
  | cons op ops ih =>
    intro st v hg
    rcases step_good hg op with h | ⟨st', h, hcls⟩ | ⟨st', hd, sz, lifetime, heap, p, -, h, hg', ha⟩
    · simp only [issued, h]; trivial
    · simp only [issued, h]
      rcases hcls with hg' | hp | ht
      · exact ih st' v hg'
      · rw [issued_poisoned ops st' hp]; trivial
      · rw [issued_torn ops st' ht]; trivial
    · simp only [issued, h]
      exact ⟨by rw [ha.hash_eq]; exact next_hash_of_val hg.2.2.1, ih st' (v + 1) hg'⟩

theorem stamps_get {v : Nat} {hs : List safepointer} (h : stamps_from v hs) :
    ∀ x ∈ hs, ∃ d, d < hs.length ∧ x.hash = hash_of_val (v + 1 + d) := by
  induction hs generalizing v with
  | nil => intro x hx; cases hx
  | cons a t ih =>
    intro x hx
    obtain ⟨h1, h2⟩ := h
    rcases List.mem_cons.mp hx with rfl | hx'
    · exact ⟨0, by simp, h1⟩
    · obtain ⟨d, hd, he⟩ := ih h2 x hx'
      refine ⟨d + 1, by simp; omega, ?_⟩
      rw [he]; congr 1; omega

/-- Consecutive counter values are pairwise different as long as there are at most
`2^128` of them. -/
theorem stamps_pairwise {v : Nat} {hs : List safepointer} (h : stamps_from v hs)
    (hlen : hs.length ≤ HASH_MOD) :
    hs.Pairwise (fun h1 h2 => h1.hash.part1 ≠ h2.hash.part1 ∨ h1.hash.part2 ≠ h2.hash.part2) := by
  induction hs generalizing v with
  | nil => exact List.Pairwise.nil
  | cons a t ih =>
    obtain ⟨h1, h2⟩ := h
    have hlen' : t.length + 1 ≤ HASH_MOD := by simpa using hlen
    refine List.Pairwise.cons ?_ (ih h2 (by omega))
    intro x hx
    obtain ⟨d, hd, he⟩ := stamps_get h2 x hx
    by_contra hcon
    push_neg at hcon
    have heq : a.hash = x.hash := (hash_eq_iff _ _).mpr hcon
    rw [h1, he, hash_of_val_eq_iff] at heq
    unfold HASH_MOD at heq hlen'
    omega

theorem sweep_quick {st st' : State} {r : c_safemem_error_state} (hh : healthy st) (hl : Lens st)
    (hs : safepointer_collect_garbage st = some (r, st')) : st'.quick = st.quick := by
  obtain ⟨st1, hrun, -, -, -, e3, -, -, -⟩ := collect_garbage_spec hh hl
  rw [hs] at hrun
  injection hrun with hrun
  injection hrun with _ h2
  rw [h2]; exact e3

/-- On a table without occupied slots `safepointer_malloc` takes slot `churn_index`. -/
theorem malloc_all_empty {st : State} (hh : healthy st) (hwf : WF st) (hc : Churnable st)
    (sz lifetime : Nat) {heap : List Nat} (hg : grants_all heap) :
    ∃ st' p, safepointer_malloc st sz lifetime heap =
        some (⟨churn_index st, sz, next_hash st⟩, st') ∧
      Allocated st sz lifetime ⟨churn_index st, sz, next_hash st⟩ st' p := by
  obtain ⟨hnull, hsmall⟩ := hc
  obtain ⟨g1, g3, g4⟩ := grants_all_facts hg
  have hroom : room st := by
    unfold room; unfold C_SAFEMEM_BLOCK_SIZE at hsmall ⊢; unfold SIZE_MOD; omega
  rcases malloc_spec hh hwf sz lifetime heap with
    ⟨i, hi, hfe, hres⟩ | ⟨hall, ⟨-, hw⟩ | ⟨st2, -, -, hng⟩ | ⟨-, -, hres⟩⟩
  · have hidx : churn_index st = i := by
      unfold churn_index
      rcases hfe with ⟨h1, -, h3⟩ | ⟨h1, h2, -, -, h5⟩
      · have : st.quick = i := by
          by_contra hne
          exact h3 st.quick (Nat.le_refl _) (by omega) (hnull _)
        rw [this, if_pos hi]
      · have hq : ¬ st.quick < st.c_safemem_nptrs := fun hq => h1 st.quick (Nat.le_refl _) hq (hnull _)
        have : i = 0 := by
          by_contra hne
          exact h5 0 (Nat.le_refl _) (by omega) (hnull _)
        rw [if_neg hq, this]
    rw [if_neg g1] at hres
    rw [hidx]
    exact ⟨_, _, hres, allocated_same hh hwf hi (hnull i) sz lifetime g1⟩
  · exact absurd hroom hw
  · exact absurd g3 hng
  · have hz : st.c_safemem_nptrs = 0 := by
      by_contra hne
      exact hall 0 (by omega) (hnull 0)
    have hidx : churn_index st = st.c_safemem_nptrs := by
      unfold churn_index
      rw [if_neg (by omega), hz]
    rw [if_neg g4] at hres
    rw [hidx]
    exact ⟨_, _, hres, allocated_grown hh hwf hroom hall sz lifetime g4⟩

/-- One round of `churn` on a table without occupied slots: the allocation succeeds,
the sweep reclaims it, and the counter has advanced by one. -/
theorem churn_round {st : State} {v : Nat} (hg : Good st v) (hc : Churnable st) :
    ∃ h st1 st2, step st (Op.malloc 1 0 demo_heap) = some (st1, some h) ∧
      step st1 Op.collect_garbage = some (st2, none) ∧
      Good st2 (v + 1) ∧ Churnable st2 ∧
      h = ⟨churn_index st, 1, hash_of_val (v + 1)⟩ ∧
      st2.quick = churn_index st + 1 ∧
      (0 < st.c_safemem_nptrs → st2.c_safemem_nptrs = st.c_safemem_nptrs) := by
  obtain ⟨hh, hwf, hcv, h0⟩ := hg
  obtain ⟨st1, p, hm, ha⟩ := malloc_all_empty hh hwf hc 1 0 demo_grants
  have hnh : next_hash st = hash_of_val (v + 1) := next_hash_of_val hcv
  obtain ⟨st2, hrun, hh2, hwf2, e1, e2, -, hj⟩ := sweep_step ha.is_healthy ha.wf
  have hq2 := sweep_quick ha.is_healthy ha.wf.1 hrun
  have hE := hwf.2.2.2.1
  have hexp : expired st1 (churn_index st) := by
    constructor
    · rw [ha.ptrs]; simpa using ha.storage_ne
    · rw [ha.deaths, ha.epoch]
      simp only [if_true, Nat.add_zero]
      apply Nat.mod_eq_of_lt
      unfold SIZE_MAX at hE; unfold SIZE_MOD; omega
  have hlen : st1.c_safemem_nptrs ≤ C_SAFEMEM_BLOCK_SIZE ∧
      (0 < st.c_safemem_nptrs → st1.c_safemem_nptrs = st.c_safemem_nptrs) := by
    rcases ha.length_cases with h1 | ⟨h1, -, h3⟩
    · exact ⟨by rw [h1]; exact hc.2, fun _ => h1⟩
    · have hz : st.c_safemem_nptrs = 0 := by
        by_contra hne
        exact h3 0 (by omega) (hc.1 0)
      exact ⟨by rw [h1, hz]; simp, fun hpos => by omega⟩
  refine ⟨⟨churn_index st, 1, next_hash st⟩, st1, st2, ?_, ?_, ⟨hh2, hwf2, ?_, ?_⟩, ⟨?_, ?_⟩,
    ?_, ?_, ?_⟩
  · have := ha.is_healthy
    unfold healthy at this
    simp only [step, hm, this, if_true]
  · simp only [step, hrun]
  · rw [e2, ha.counter]; exact hnh
  · intro hz
    have := ha.index_lt
    rw [e1] at hz
    omega
  · intro t
    by_cases ht : expired st1 t
    · exact ((hj t).1 ht).1
    · rw [((hj t).2 ht).1]
      by_cases hti : t = churn_index st
      · rw [hti] at ht; exact absurd hexp ht
      · rw [ha.ptrs]
        show (if t = churn_index st then p else ptr_at st t) = NULL
        rw [if_neg hti]; exact hc.1 t
  · rw [e1]; exact hlen.1
  · rw [hnh]
  · rw [hq2, ha.cursor]
  · intro hpos; rw [e1]; exact hlen.2 hpos

theorem issued_churn (n : Nat) :
    ∀ st v, Good st v → Churnable st → (issued st (churn n)).length = n := by
  induction n with
  | zero => intro st v _ _; rfl
  | succ n ih =>
    intro st v hg hc
    obtain ⟨h, st1, st2, hs1, hs2, hg2, hc2, -, -, -⟩ := churn_round hg hc
    simp only [churn, issued, hs1, hs2, List.length_cons]
    rw [ih st2 (v + 1) hg2 hc2]

theorem stamps_at {v : Nat} {hs : List safepointer} (h : stamps_from v hs) :
    ∀ j (hj : j < hs.length), hs[j].hash = hash_of_val (v + 1 + j) := by
  induction hs generalizing v with
  | nil => intro j hj; simp at hj
  | cons a t ih =>
    intro j hj
    obtain ⟨h1, h2⟩ := h
    cases j with
    | zero => simpa using h1
    | succ j =>
      have := ih h2 j (by simpa using hj)
      simp only [List.getElem_cons_succ]
      rw [this]; congr 1; omega

theorem initial_Good : Good initial_state 1 :=
  ⟨initial_healthy, initial_WF, by decide, fun _ => by decide⟩

theorem initial_Churnable : Churnable initial_state :=
  ⟨fun t => by simp [ptr_at, initial_state], by decide⟩

theorem issued_length_le (ops : List Op) :
    ∀ st, (issued st ops).length ≤ malloc_count ops := by
  induction ops with
  | nil => intro st; simp [issued, malloc_count]
  | cons op ops ih =>
    intro st
    cases hs : step st op with
    | none => simp [issued, hs]
    | some r =>
      obtain ⟨st1, oh⟩ := r
      cases oh with
      | none =>
        simp only [issued, hs]
        have := ih st1
        cases op <;> simp only [malloc_count] <;> omega
      | some h =>
        simp only [issued, hs, List.length_cons]
        have := ih st1
        cases op with
        | malloc sz lifetime heap => simp only [malloc_count]; omega
        | free f =>
          simp only [step] at hs
          split at hs <;> simp at hs
        | deref f =>
          simp only [step] at hs
          split at hs <;> simp at hs
        | keepalive f lifetime =>
          simp only [step] at hs
          split at hs <;> simp at hs
        | collect_garbage =>
          simp only [step] at hs
          split at hs <;> simp at hs
        | collect_all =>
          simp only [step] at hs
          split at hs <;> simp at hs

/-- One call other than `safepointer_collect_all` on a healthy table whose counter holds
`v`: the call has no defined behaviour, or it issues no handle and leaves the table
healthy with the same counter, or poisoned, or it is a `safepointer_malloc` that issues
a handle and leaves the counter at `v + 1`. -/
theorem step_plain {st : State} {v : Nat} (hg : Good st v) {op : Op}
    (hop : op ≠ Op.collect_all) :
    step st op = none ∨
    (∃ st', step st op = some (st', none) ∧ (Good st' v ∨ ¬ healthy st')) ∨
    (∃ st' h sz lifetime heap p, op = Op.malloc sz lifetime heap ∧
      step st op = some (st', some h) ∧ Good st' (v + 1) ∧
      Allocated st sz lifetime h st' p) := by
  obtain ⟨hh, hwf, hc, h0⟩ := hg
  cases op with
  | malloc sz lifetime heap =>
    cases hm : safepointer_malloc st sz lifetime heap with
    | none => left; simp [step, hm]
    | some r =>
      obtain ⟨h, st'⟩ := r
      by_cases hok : healthy st'
      · right; right
        obtain ⟨p, ha⟩ := malloc_success_cases hh hwf hm hok
        refine ⟨st', h, sz, lifetime, heap, p, rfl, ?_, ⟨hok, ha.wf, ?_, ?_⟩, ha⟩
        · unfold healthy at hok
          simp [step, hm, hok]
        · rw [ha.counter]; exact next_hash_of_val hc
        · intro hz
          have := ha.index_lt
          omega
      · right; left
        refine ⟨st', ?_, Or.inr hok⟩
        unfold healthy at hok
        simp [step, hm, hok]
  | free f =>
    right; left
    have hf := free_cases f hh hwf.1
    by_cases hi : f.indy < st.c_safemem_nptrs
    · by_cases hv : valid st f
      · rw [if_neg (not_not.mpr hi), if_pos hv] at hf
        refine ⟨released st f.indy, by simp [step, hf], Or.inl ⟨hh, released_WF hwf _, hc, h0⟩⟩
      · rw [if_neg (not_not.mpr hi), if_neg hv] at hf
        exact ⟨st, by simp [step, hf], Or.inl ⟨hh, hwf, hc, h0⟩⟩
    · rw [if_pos hi] at hf
      exact ⟨st, by simp [step, hf], Or.inl ⟨hh, hwf, hc, h0⟩⟩
  | deref f =>
    right; left
    refine ⟨st, ?_, Or.inl ⟨hh, hwf, hc, h0⟩⟩
    have hd := deref_eq hh hwf f
    by_cases hcond : f.indy < st.c_safemem_nptrs ∧ hash_at st f.indy = f.hash
    · rw [if_pos hcond] at hd; simp [step, hd]
    · rw [if_neg hcond] at hd; simp [step, hd]
  | keepalive f lifetime =>
    right; left
    have hk := keepalive_spec hh hwf.1 f lifetime
    by_cases hcond : f.indy < st.c_safemem_nptrs ∧ hash_at st f.indy = f.hash
    · rw [if_pos hcond] at hk
      have hlen : (st.c_safemem_scheduled_deaths.set f.indy
          ((st.c_safemem_update_calls + lifetime) % SIZE_MOD)).length = st.c_safemem_nptrs := by
        rw [List.length_set]; exact hwf.1.2.2
      exact ⟨{ st with c_safemem_scheduled_deaths := (st.c_safemem_scheduled_deaths.set f.indy
          ((st.c_safemem_update_calls + lifetime) % SIZE_MOD)) }, by simp only [step, hk],
        Or.inl ⟨hh, ⟨⟨hwf.1.1, hwf.1.2.1, hlen⟩, hwf.2⟩, hc, h0⟩⟩
    · rw [if_neg hcond] at hk
      exact ⟨st, by simp only [step, hk], Or.inl ⟨hh, hwf, hc, h0⟩⟩
  | collect_garbage =>
    right; left
    obtain ⟨st', hrun, hh', hwf', e1, e2, -, -⟩ := sweep_step hh hwf
    refine ⟨st', by simp only [step, hrun], Or.inl ⟨hh', hwf', by rw [e2]; exact hc, ?_⟩⟩
    intro hz; rw [e1] at hz; exact h0 hz
  | collect_all => exact absurd rfl hop

/-- The handles issued along a sequence of calls without `safepointer_collect_all`
carry consecutive counter values. -/
theorem issued_stamps_plain (ops : List Op) :
    ∀ st v, Good st v → Op.collect_all ∉ ops → stamps_from v (issued st ops) := by
  induction ops with
  | nil => intro st v _ _; trivial
  | cons op ops ih =>
    intro st v hg hno
    have hop : op ≠ Op.collect_all := fun h => hno (by rw [h]; exact List.mem_cons_self _ _)
    have hno' : Op.collect_all ∉ ops := fun h => hno (List.mem_cons_of_mem _ h)
    rcases step_plain hg hop with h | ⟨st', h, hcls⟩ |
      ⟨st', hd, sz, lifetime, heap, p, -, h, hg', ha⟩
    · simp only [issued, h]; trivial
    · simp only [issued, h]
      rcases hcls with hg' | hp
      · exact ih st' v hg' hno'
      · rw [issued_poisoned ops st' hp]; trivial
    · simp only [issued, h]
      exact ⟨by rw [ha.hash_eq]; exact next_hash_of_val hg.2.2.1, ih st' (v + 1) hg' hno'⟩

/-- C7 (as amended): along every sequence of calls of `safepointer_malloc`,
`safepointer_free`, `safepointer_deref`, `safepointer_keepalive` and
`safepointer_collect_garbage` from the initial state (no `safepointer_collect_all`) in
which at most `2^128` `safepointer_malloc` calls succeed, any two handles returned by
distinct successful `safepointer_malloc` calls differ in at least one word of their
generation, whatever their indices. -/
theorem C7_generation_uniqueness (ops : List Op) (hops : Op.collect_all ∉ ops)
    (hbound : (issued initial_state ops).length ≤ HASH_MOD) :
    (issued initial_state ops).Pairwise
      (fun h1 h2 => h1.hash.part1 ≠ h2.hash.part1 ∨ h1.hash.part2 ≠ h2.hash.part2) :=
  stamps_pairwise (issued_stamps_plain ops initial_state 1 initial_Good hops) hbound

/-- With more than `2^128` rounds of `churn` the first handle and handle number
`2^128 + 1` carry the same generation. -/
theorem churn_collision (n : Nat) (hn : HASH_MOD < n) :
    ¬ (issued initial_state (churn n)).Pairwise
      (fun h1 h2 => h1.hash.part1 ≠ h2.hash.part1 ∨ h1.hash.part2 ≠ h2.hash.part2) := by
  intro hpw
  have hlen := issued_churn n initial_state 1 initial_Good initial_Churnable
  have hst := issued_stamps (churn n) initial_state 1 initial_Good
  have h0 : 0 < (issued initial_state (churn n)).length := by rw [hlen]; omega
  have hN : HASH_MOD < (issued initial_state (churn n)).length := by rw [hlen]; omega
  have hrel := List.pairwise_iff_getElem.mp hpw 0 HASH_MOD h0 hN (by unfold HASH_MOD; omega)
  have e0 := stamps_at hst 0 h0
  have eN := stamps_at hst HASH_MOD hN
  have heq : hash_of_val (1 + 1 + 0) = hash_of_val (1 + 1 + HASH_MOD) := by
    rw [hash_of_val_eq_iff]; unfold HASH_MOD; omega
  rw [e0, eN, heq] at hrel
  rcases hrel with h | h <;> exact h rfl

/-- C7 fails as stated: in the sequence that repeats
`safepointer_malloc(1, 0); safepointer_collect_garbage();` `2^128 + 1` times from the
initial state, every allocation succeeds, and the first and the last handle carry the
same generation, the counter having rolled over. -/
theorem C7_counterexample :
    ¬ (issued initial_state (churn (HASH_MOD + 1))).Pairwise
      (fun h1 h2 => h1.hash.part1 ≠ h2.hash.part1 ∨ h1.hash.part2 ≠ h2.hash.part2) :=
  churn_collision (HASH_MOD + 1) (Nat.lt_succ_self HASH_MOD)

/-! ## Stale handles -/

theorem exec_poisoned (ops : List Op) : ∀ st, ¬ healthy st → exec st ops = some st := by
  induction ops with
  | nil => intro st _; rfl
  | cons op ops ih =>
    intro st hh
    simp only [exec, step_poisoned hh op]
    exact ih st hh

theorem exec_torn (ops : List Op) :
    ∀ st st', Torn st → exec st ops = some st' → st' = st := by
  induction ops with
  | nil =>
    intro st st' _ he
    simp only [exec] at he
    injection he with he
    exact he.symm
  | cons op ops ih =>
    intro st st' ht he
    rcases step_torn ht op with h | h
    · simp [exec, h] at he
    · simp only [exec, h] at he
      exact ih st st' ht he

theorem malloc_count_cons_le (op : Op) (ops : List Op) :
    malloc_count ops ≤ malloc_count (op :: ops) := by
  cases op <;> simp only [malloc_count] <;> omega

/-- The state reached by a sequence of calls from a healthy table: healthy with a
counter advanced by at most the number of `safepointer_malloc` calls, or poisoned, or
torn down. -/
theorem exec_good (ops : List Op) :
    ∀ st v st', Good st v → exec st ops = some st' →
      (∃ v', Good st' v' ∧ v ≤ v' ∧ v' ≤ v + malloc_count ops) ∨ ¬ healthy st' ∨ Torn st' := by
  induction ops with
  | nil =>
    intro st v st' hg he
    simp only [exec] at he
    injection he with he
    subst he
    exact Or.inl ⟨v, hg, Nat.le_refl v, by simp [malloc_count]⟩
  | cons op ops ih =>
    intro st v st' hg he
    have hmono := malloc_count_cons_le op ops
    rcases step_good hg op with h | ⟨st1, h, hcls⟩ | ⟨st1, hd, sz, lifetime, heap, p, hop, h, hg', -⟩
    · simp [exec, h] at he
    · simp only [exec, h] at he
      rcases hcls with hg1 | hp | ht
      · rcases ih st1 v st' hg1 he with ⟨v', hg', h1, h2⟩ | hr
        · exact Or.inl ⟨v', hg', h1, by omega⟩
        · exact Or.inr hr
      · rw [exec_poisoned ops st1 hp] at he
        injection he with he
        subst he
        exact Or.inr (Or.inl hp)
      · have := exec_torn ops st1 st' ht he
        subst this
        exact Or.inr (Or.inr ht)
    · simp only [exec, h] at he
      subst hop
      rcases ih st1 (v + 1) st' hg' he with ⟨v', hg'', h1, h2⟩ | hr
      · refine Or.inl ⟨v', hg'', by omega, ?_⟩
        simp only [malloc_count]; omega
      · exact Or.inr hr

/-- The state reached by a sequence of calls without `safepointer_collect_all` from a
healthy table: healthy with a counter advanced by at most the number of
`safepointer_malloc` calls, or poisoned. -/
theorem exec_plain (ops : List Op) :
    ∀ st v st', Good st v → Op.collect_all ∉ ops → exec st ops = some st' →
      (∃ v', Good st' v' ∧ v ≤ v' ∧ v' ≤ v + malloc_count ops) ∨ ¬ healthy st' := by
  induction ops with
  | nil =>
    intro st v st' hg _ he
    simp only [exec] at he
    injection he with he
    subst he
    exact Or.inl ⟨v, hg, Nat.le_refl v, by simp [malloc_count]⟩
  | cons op ops ih =>
    intro st v st' hg hno he
    have hop : op ≠ Op.collect_all := fun h => hno (by rw [h]; exact List.mem_cons_self _ _)
    have hno' : Op.collect_all ∉ ops := fun h => hno (List.mem_cons_of_mem _ h)
    have hmono := malloc_count_cons_le op ops
    rcases step_plain hg hop with h | ⟨st1, h, hcls⟩ |
      ⟨st1, hd, sz, lifetime, heap, p, hopm, h, hg', -⟩
    · simp [exec, h] at he
    · simp only [exec, h] at he
      rcases hcls with hg1 | hp
      · rcases ih st1 v st' hg1 hno' he with ⟨v', hg', h1, h2⟩ | hr
        · exact Or.inl ⟨v', hg', h1, by omega⟩
        · exact Or.inr hr
      · rw [exec_poisoned ops st1 hp] at he
        injection he with he
        subst he
        exact Or.inr hp
    · simp only [exec, h] at he
      subst hopm
      rcases ih st1 (v + 1) st' hg' hno' he with ⟨v', hg'', h1, h2⟩ | hr
      · refine Or.inl ⟨v', hg'', by omega, ?_⟩
        simp only [malloc_count]; omega
      · exact Or.inr hr

theorem churn_plain (n : Nat) : Op.collect_all ∉ churn n := by
  induction n with
  | zero => simp [churn]
  | succ n ih =>
    simp only [churn, List.mem_cons, not_or]
    exact ⟨by decide, by decide, ih⟩

/-- C6 (as amended): if `h = safepointer_malloc(s, l)` succeeds, `safepointer_free(h)`
returns `C_SAFEMEM_NO_ERR`, and after further calls of `safepointer_malloc`,
`safepointer_free`, `safepointer_deref`, `safepointer_keepalive` and
`safepointer_collect_garbage` (no `safepointer_collect_all`), fewer than `2^128 - 1` of
them calls of `safepointer_malloc`, a successful `safepointer_malloc` returns a handle
`h2` with `h2.indy = h.indy`, then `safepointer_deref(h)` is `NULL` and `safepointer_free(h)`
returns `C_SAFEMEM_INVALID_STATE` leaving the state as it is, while `h2` is valid and
dereferences to its storage. -/
theorem C6_stale_handle (st0 st1 st2 st3 st4 : State) (sz lifetime sz2 lifetime2 : Nat)
    (heap heap2 : List Nat) (h h2 : safepointer) (ops : List Op)
    (hh : healthy st0) (hwf : WF st0)
    (hm : safepointer_malloc st0 sz lifetime heap = some (h, st1)) (hok : healthy st1)
    (hf : safepointer_free st1 h = some (C_SAFEMEM_NO_ERR, st2))
    (hops : Op.collect_all ∉ ops) (hex : exec st2 ops = some st3)
    (hbound : malloc_count ops + 1 < HASH_MOD)
    (hm2 : safepointer_malloc st3 sz2 lifetime2 heap2 = some (h2, st4)) (hok2 : healthy st4)
    (hidx : h2.indy = h.indy) :
    safepointer_deref st4 h = some NULL ∧
    safepointer_free st4 h = some (C_SAFEMEM_INVALID_STATE, st4) ∧
    valid st4 h2 ∧ ∃ p, p ≠ NULL ∧ safepointer_deref st4 h2 = some p := by
  obtain ⟨p, ha⟩ := malloc_success_cases hh hwf hm hok
  obtain ⟨hv1, -, -⟩ := allocated_valid ha
  -- the counter of `st0` as a value
  have hc0 := counter_is_val hwf.2.2.2.2.1 hwf.2.2.2.2.2
  generalize st0.c_safemem_hash_counter.part2 * SIZE_MOD + st0.c_safemem_hash_counter.part1 = v0
    at hc0
  have hh1 : h.hash = hash_of_val (v0 + 1) := by rw [ha.hash_eq]; exact next_hash_of_val hc0
  -- the free
  have hfc := free_cases h ha.is_healthy ha.wf.1
  rw [if_neg (not_not.mpr hv1.1), if_pos hv1, hf] at hfc
  injection hfc with hfc
  injection hfc with _ hst2
  subst hst2
  have hg2 : Good (released st1 h.indy) (v0 + 1) := by
    refine ⟨ha.is_healthy, released_WF ha.wf _, ?_, ?_⟩
    · show st1.c_safemem_hash_counter = _
      rw [ha.counter]; exact next_hash_of_val hc0
    · intro hz
      have : h.indy < st1.c_safemem_nptrs := ha.index_lt
      have hz' : st1.c_safemem_nptrs = 0 := hz
      omega
  -- the calls in between
  rcases exec_plain ops _ (v0 + 1) st3 hg2 hops hex with ⟨v3, hg3, hlo, hhi⟩ | hp
  · obtain ⟨p2, ha2⟩ := malloc_success_cases hg3.1 hg3.2.1 hm2 hok2
    obtain ⟨hv2, hd2, -⟩ := allocated_valid ha2
    have hh2 : h2.hash = hash_of_val (v3 + 1) := by
      rw [ha2.hash_eq]; exact next_hash_of_val hg3.2.2.1
    have hne : h2.hash ≠ h.hash := by
      rw [hh1, hh2]
      intro heq
      rw [hash_of_val_eq_iff] at heq
      unfold HASH_MOD at heq hbound
      omega
    have hslot : hash_at st4 h.indy = h2.hash := by
      rw [← hidx, ha2.hashes, if_pos rfl, ha2.hash_eq]
    have hnv : ¬ valid st4 h := by
      intro hv
      have := ((valid_iff h).mp hv).2.1
      rw [hslot] at this
      exact hne this
    have hi : h.indy < st4.c_safemem_nptrs := by rw [← hidx]; exact ha2.index_lt
    refine ⟨?_, ?_, hv2, p2, ha2.storage_ne, hd2⟩
    · rw [deref_eq ha2.is_healthy ha2.wf, if_neg]
      rintro ⟨-, hcon⟩
      rw [hslot] at hcon
      exact hne hcon
    · rw [free_cases h ha2.is_healthy ha2.wf.1, if_neg (not_not.mpr hi), if_neg hnv]
  · exfalso
    unfold healthy at hp
    simp [safepointer_malloc, hp] at hm2
    unfold healthy at hok2
    rw [← hm2.2] at hok2
    exact hp hok2

/-- The state after `n` rounds of `churn` on a one-block table without occupied slots:
the counter has advanced by `n` and the cursor has gone round the block. -/
theorem exec_churn (n : Nat) :
    ∀ st v, Good st v → Churnable st → st.c_safemem_nptrs = C_SAFEMEM_BLOCK_SIZE →
      1 ≤ st.quick → st.quick ≤ C_SAFEMEM_BLOCK_SIZE →
      ∃ st', exec st (churn n) = some st' ∧ Good st' (v + n) ∧ Churnable st' ∧
        st'.c_safemem_nptrs = C_SAFEMEM_BLOCK_SIZE ∧
        st'.quick = (st.quick - 1 + n) % C_SAFEMEM_BLOCK_SIZE + 1 := by
  induction n with
  | zero =>
    intro st v hg hc hn h1 h2
    refine ⟨st, rfl, hg, hc, hn, ?_⟩
    unfold C_SAFEMEM_BLOCK_SIZE at h2 ⊢
    omega
  | succ n ih =>
    intro st v hg hc hn h1 h2
    obtain ⟨h, st1, st2, hs1, hs2, hg2, hc2, -, hq2, hn2⟩ := churn_round hg hc
    have hpos : 0 < st.c_safemem_nptrs := by rw [hn]; unfold C_SAFEMEM_BLOCK_SIZE; omega
    have hn2' : st2.c_safemem_nptrs = C_SAFEMEM_BLOCK_SIZE := by rw [hn2 hpos]; exact hn
    have hq : st2.quick = (st.quick - 1 + 1) % C_SAFEMEM_BLOCK_SIZE + 1 := by
      rw [hq2]
      unfold churn_index
      rw [hn]
      unfold C_SAFEMEM_BLOCK_SIZE at h2 ⊢
      split <;> omega
    obtain ⟨st', hex, hg', hc', hn', hq'⟩ :=
      ih st2 (v + 1) hg2 hc2 hn2'
        (by rw [hq]; omega)
        (by rw [hq]; unfold C_SAFEMEM_BLOCK_SIZE; omega)
    refine ⟨st', ?_, ?_, hc', hn', ?_⟩
    · simp only [churn, exec, hs1, hs2]; exact hex
    · have e : v + (n + 1) = v + 1 + n := by omega
      rw [e]; exact hg'
    · rw [hq', hq]
      unfold C_SAFEMEM_BLOCK_SIZE
      omega

theorem malloc_count_churn (n : Nat) : malloc_count (churn n) = n := by
  induction n with
  | zero => rfl
  | succ n ih => simp only [churn, malloc_count, ih]

/-- The table after the first allocation on the initial state has been freed again. -/
theorem demo_freed (sz lifetime : Nat) :
    safepointer_free (stamped (grown initial_state) 0 lifetime 7) ⟨0, sz, ⟨0, 2⟩⟩ =
        some (C_SAFEMEM_NO_ERR, released (stamped (grown initial_state) 0 lifetime 7) 0) ∧
    Good (released (stamped (grown initial_state) 0 lifetime 7) 0) 2 ∧
    Churnable (released (stamped (grown initial_state) 0 lifetime 7) 0) ∧
    (released (stamped (grown initial_state) 0 lifetime 7) 0).c_safemem_nptrs =
      C_SAFEMEM_BLOCK_SIZE ∧
    (released (stamped (grown initial_state) 0 lifetime 7) 0).quick = 1 := by
  have ha := demo_allocated sz lifetime
  obtain ⟨hv, -, -⟩ := allocated_valid ha
  have hfc := free_cases ⟨0, sz, ⟨0, 2⟩⟩ ha.is_healthy ha.wf.1
  rw [if_neg (not_not.mpr hv.1), if_pos hv] at hfc
  refine ⟨hfc, ⟨ha.is_healthy, released_WF ha.wf _, ?_, ?_⟩, ⟨?_, ?_⟩, ?_, ?_⟩
  · show (stamped (grown initial_state) 0 lifetime 7).c_safemem_hash_counter = hash_of_val 2
    rw [ha.counter]; decide
  · intro hz
    have : (stamped (grown initial_state) 0 lifetime 7).c_safemem_nptrs = 0 := hz
    have := ha.index_lt
    omega
  · intro t
    rw [ptr_at_released]
    by_cases ht : t = 0
    · rw [if_pos ht]
    · rw [if_neg ht, ha.ptrs]
      show (if t = 0 then 7 else ptr_at initial_state t) = NULL
      rw [if_neg ht]
      exact initial_Churnable.1 t
  · show initial_state.c_safemem_nptrs + C_SAFEMEM_BLOCK_SIZE ≤ C_SAFEMEM_BLOCK_SIZE
    decide
  · show initial_state.c_safemem_nptrs + C_SAFEMEM_BLOCK_SIZE = C_SAFEMEM_BLOCK_SIZE
    decide
  · show (0 + 1) % SIZE_MOD = 1
    decide

theorem stale_deref_eq {h h2 : safepointer} {st1 st2 st3 st4 : State} {ops : List Op}
    (hm : safepointer_malloc initial_state 1 0 demo_heap = some (h, st1))
    (hf : safepointer_free st1 h = some (C_SAFEMEM_NO_ERR, st2))
    (hex : exec st2 ops = some st3)
    (hm2 : safepointer_malloc st3 1 0 demo_heap = some (h2, st4))
    (h1 : healthy st1) (h4 : healthy st4) (hi : h2.indy = h.indy) :
    stale_deref ops = safepointer_deref st4 h := by
  unfold stale_deref
  rw [hm]
  simp only []
  rw [hf]
  simp only []
  rw [hex]
  simp only []
  rw [hm2]
  simp only []
  rw [if_pos ⟨h1, trivial, h4, hi⟩]

/-- When `n + 1` is a multiple of `2^128`, the allocation that follows `n` rounds of
`churn` returns the very handle that was freed before them, and the old handle
dereferences to the new storage. -/
theorem stale_collision (n : Nat) (hn : (n + 1) % HASH_MOD = 0) :
    ∃ p, p ≠ NULL ∧ stale_deref (churn n) = some p := by
  obtain ⟨hfree, hg2, hc2, hn2, hq2⟩ := demo_freed 1 0
  obtain ⟨st3, hex, hg3, hc3, hn3, hq3⟩ :=
    exec_churn n _ 2 hg2 hc2 hn2 (by rw [hq2]) (by rw [hq2]; decide)
  have hq3' : st3.quick = C_SAFEMEM_BLOCK_SIZE := by
    rw [hq3, hq2]
    unfold HASH_MOD at hn
    unfold C_SAFEMEM_BLOCK_SIZE
    omega
  obtain ⟨st4, p, hm2, ha2⟩ := malloc_all_empty hg3.1 hg3.2.1 hc3 1 0 demo_grants
  have hidx : churn_index st3 = 0 := by
    unfold churn_index
    rw [hq3', hn3, if_neg (Nat.lt_irrefl _)]
  have hhash : next_hash st3 = ⟨0, 2⟩ := by
    rw [next_hash_of_val hg3.2.2.1]
    have : hash_of_val (2 + n + 1) = hash_of_val 2 := by
      rw [hash_of_val_eq_iff]; unfold HASH_MOD at hn ⊢; omega
    rw [this]; decide
  rw [hidx, hhash] at hm2 ha2
  obtain ⟨-, hd, -⟩ := allocated_valid ha2
  refine ⟨p, ha2.storage_ne, ?_⟩
  rw [stale_deref_eq (demo_malloc 1 0) hfree hex hm2 (demo_allocated 1 0).is_healthy
    ha2.is_healthy rfl]
  exact hd

/-- C6 fails as stated: on the initial state allocate `h`, free it, repeat
`safepointer_malloc(1, 0); safepointer_collect_garbage();` `2^128 - 1` times, and
allocate again.  Every call succeeds, the last allocation returns a handle with the
index of `h`, and `safepointer_deref(h)` on the old handle returns the new storage
instead of `NULL`: the counter has rolled over to the generation of `h`. -/
theorem C6_counterexample :
    ∃ p, p ≠ NULL ∧ stale_deref (churn (HASH_MOD - 1)) = some p :=
  stale_collision (HASH_MOD - 1) (by decide)

/-! ## The poisoned instance -/

theorem demo_poisoned_by_malloc :
    safepointer_malloc initial_state 40 3 [] = some (sentinel, demo_poisoned) := by decide

theorem demo_poisoned_not_healthy : ¬ healthy demo_poisoned := by decide

/-- C15: in every poisoned state `safepointer_malloc` returns the sentinel handle
(`indy = SIZE_MAX`, `hash = {SIZE_MAX, SIZE_MAX}`, `size = 0`), `safepointer_free` and
`safepointer_collect_garbage` return `C_SAFEMEM_FAILED_MALLOC`, `safepointer_deref`
returns `NULL`, `safepointer_keepalive` returns, and each of these calls leaves the
whole state (arrays, table length, counter, epoch, cursor, poison flag) unchanged. -/
theorem C15_poison_fail_fast (st : State) (hp : ¬ healthy st) (sz lifetime : Nat)
    (heap : List Nat) (f : safepointer) :
    safepointer_malloc st sz lifetime heap =
      some ({ indy := SIZE_MAX, size := 0, hash := ⟨SIZE_MAX, SIZE_MAX⟩ }, st) ∧
    safepointer_free st f = some (C_SAFEMEM_FAILED_MALLOC, st) ∧
    safepointer_collect_garbage st = some (C_SAFEMEM_FAILED_MALLOC, st) ∧
    safepointer_deref st f = some NULL ∧
    safepointer_keepalive st f lifetime = some st := by
  unfold healthy at hp
  refine ⟨?_, ?_, ?_, ?_, ?_⟩
  · simp [safepointer_malloc, hp, SAFEPTRHASH_MAX]
  · simp [safepointer_free, hp]
  · simp [safepointer_collect_garbage, hp]
  · simp [safepointer_deref, hp]
  · simp [safepointer_keepalive, hp]

/-- On a poisoned instance `safepointer_collect_all` leaves at its first test
(`if(c_safemem_failed_malloc) goto error`): it returns `C_SAFEMEM_FAILED_MALLOC` and
the whole state is as before, the poison flag included. -/
theorem collect_all_poisoned (st : State) (hp : ¬ healthy st) :
    safepointer_collect_all st = some (C_SAFEMEM_FAILED_MALLOC, st) ∧
    ∀ r st', safepointer_collect_all st = some (r, st') → ¬ healthy st' := by
  unfold healthy at hp
  have h : safepointer_collect_all st = some (C_SAFEMEM_FAILED_MALLOC, st) := by
    simp [safepointer_collect_all, hp]
  refine ⟨h, ?_⟩
  intro r st' hr
  rw [h] at hr
  injection hr with hr
  injection hr with _ h2
  rw [← h2]
  exact hp

/-- C14 at its failing input: the instance poisoned by a refused growth on the initial
state is still poisoned after `safepointer_collect_all`, which returns
`C_SAFEMEM_FAILED_MALLOC` instead of `C_SAFEMEM_NO_ERR` and changes nothing.  The
store `c_safemem_failed_malloc = 0` at the end of the function, which a healthy
instance reaches, is behind the test of the flag and is not reached here. -/
theorem C14_teardown_on_poisoned :
    safepointer_malloc initial_state 40 3 [] = some (sentinel, demo_poisoned) ∧
    ¬ healthy demo_poisoned ∧
    safepointer_collect_all demo_poisoned = some (C_SAFEMEM_FAILED_MALLOC, demo_poisoned) ∧
    C_SAFEMEM_FAILED_MALLOC ≠ C_SAFEMEM_NO_ERR ∧
    (torn_down demo_poisoned).c_safemem_failed_malloc = 0 := by decide

/-! ## Full teardown -/

theorem demo_torn : Torn (torn_down demo_state) :=
  ⟨rfl, rfl, rfl, by decide⟩

/-- C13 at its failing input: after the first allocation on the initial state,
`safepointer_collect_all` returns `C_SAFEMEM_NO_ERR`, frees the arrays and resets the
counter, the epoch and the poison flag, but leaves `c_safemem_nptrs = 512` and
`quick = 1`.  The state differs from the initial one, and the `safepointer_malloc` that
succeeds on the initial state has no defined behaviour here: it reads through the `NULL`
array pointer. -/
theorem C13_teardown_keeps_length :
    safepointer_malloc initial_state 40 3 demo_heap = some (demo_handle, demo_state) ∧
    safepointer_collect_all demo_state = some (C_SAFEMEM_NO_ERR, torn_down demo_state) ∧
    (torn_down demo_state).c_safemem_ptrs = [] ∧
    (torn_down demo_state).c_safemem_hash_counter = ⟨0, 1⟩ ∧
    (torn_down demo_state).c_safemem_update_calls = 1 ∧
    (torn_down demo_state).c_safemem_failed_malloc = 0 ∧
    (torn_down demo_state).c_safemem_nptrs = 512 ∧
    (torn_down demo_state).quick = 1 ∧
    torn_down demo_state ≠ initial_state ∧
    safepointer_malloc (torn_down demo_state) 40 3 demo_heap = none := by
  refine ⟨demo_malloc 40 3, collect_all_spec demo_healthy demo_WF.1, rfl, rfl, rfl, rfl,
    by decide, by decide, ?_, malloc_torn demo_torn 40 3 demo_heap⟩
  intro h
  have h1 : (torn_down demo_state).c_safemem_nptrs = initial_state.c_safemem_nptrs := by rw [h]
  revert h1
  decide

/-! ## Lifetime renewal -/

/-- The globals after `safepointer_keepalive` has rewritten the scheduled death of slot
`i`: only that entry differs. -/
theorem keepalive_effect (st : State) (i d : Nat)
    (hi : i < st.c_safemem_scheduled_deaths.length) (j : Nat) :
    death_at { st with c_safemem_scheduled_deaths := (st.c_safemem_scheduled_deaths.set i d) } j
      = if j = i then d else death_at st j := by
  by_cases hj : j = i
  · subst hj; simp [death_at, List.getElem?_set, hi]
  · have : ¬ i = j := fun h => hj h.symm
    simp [death_at, List.getElem?_set, hj, this]

/-- On a handle whose index is in range and whose generation equals the stored one,
`safepointer_keepalive` sets the scheduled death of the slot to epoch + lifetime
(in `size_t`) and changes nothing else. -/
theorem keepalive_hit {st : State} (hh : healthy st) (hwf : WF st) (f : safepointer)
    (lifetime : Nat) (hi : f.indy < st.c_safemem_nptrs) (hm : hash_at st f.indy = f.hash) :
    ∃ st', safepointer_keepalive st f lifetime = some st' ∧ healthy st' ∧ WF st' ∧
      death_at st' f.indy = (st.c_safemem_update_calls + lifetime) % SIZE_MOD ∧
      (∀ j, j ≠ f.indy → death_at st' j = death_at st j) ∧
      (∀ j, ptr_at st' j = ptr_at st j ∧ hash_at st' j = hash_at st j) ∧
      st'.c_safemem_nptrs = st.c_safemem_nptrs ∧ st'.quick = st.quick ∧
      st'.c_safemem_hash_counter = st.c_safemem_hash_counter ∧
      st'.c_safemem_update_calls = st.c_safemem_update_calls ∧
      st'.c_safemem_failed_malloc = st.c_safemem_failed_malloc := by
  have hk := keepalive_spec hh hwf.1 f lifetime
  rw [if_pos ⟨hi, hm⟩] at hk
  have hlen : f.indy < st.c_safemem_scheduled_deaths.length := by rw [hwf.1.2.2]; exact hi
  have hlen' : (st.c_safemem_scheduled_deaths.set f.indy
      ((st.c_safemem_update_calls + lifetime) % SIZE_MOD)).length = st.c_safemem_nptrs := by
    rw [List.length_set]; exact hwf.1.2.2
  refine ⟨_, hk, hh, ⟨⟨hwf.1.1, hwf.1.2.1, hlen'⟩, hwf.2⟩, ?_, ?_, fun j => ⟨rfl, rfl⟩,
    rfl, rfl, rfl, rfl, rfl⟩
  · rw [keepalive_effect st _ _ hlen, if_pos rfl]
  · intro j hj
    rw [keepalive_effect st _ _ hlen, if_neg hj]

/-- Where `safepointer_keepalive` does nothing: on a poisoned instance, for an index out
of range, and for a generation that differs from the stored one. -/
theorem keepalive_noop (st : State) (f : safepointer) (lifetime : Nat) :
    (¬ healthy st → safepointer_keepalive st f lifetime = some st) ∧
    (healthy st → WF st → ¬ f.indy < st.c_safemem_nptrs →
      safepointer_keepalive st f lifetime = some st) ∧
    (healthy st → WF st → hash_at st f.indy ≠ f.hash →
      safepointer_keepalive st f lifetime = some st) := by
  refine ⟨?_, ?_, ?_⟩
  · intro hp
    unfold healthy at hp
    simp [safepointer_keepalive, hp]
  · intro hh hwf hi
    rw [keepalive_spec hh hwf.1, if_neg (fun h => hi h.1)]
  · intro hh hwf hm
    rw [keepalive_spec hh hwf.1, if_neg (fun h => hm h.2)]

/-- C12 at its failing input: on the table whose first allocation has been freed again,
slot 0 is empty and `SAFEPTR_INIT` is not a valid handle, yet
`safepointer_keepalive(SAFEPTR_INIT, 5)` finds the zero generation of the empty slot
equal to the zero generation of the handle and rewrites the scheduled death of slot 0
from 0 to 6 (epoch 1 + lifetime 5): the state has changed. -/
theorem C12_keepalive_on_empty_slot :
    ¬ valid (released demo_state 0) SAFEPTR_INIT ∧
    ptr_at (released demo_state 0) 0 = NULL ∧
    death_at (released demo_state 0) 0 = 0 ∧
    ∃ st', safepointer_keepalive (released demo_state 0) SAFEPTR_INIT 5 = some st' ∧
      death_at st' 0 = 6 ∧ st' ≠ released demo_state 0 := by
  have hg : Good (released demo_state 0) 2 := (demo_freed 40 3).2.1
  have hp : ptr_at (released demo_state 0) 0 = NULL := by rw [ptr_at_released, if_pos rfl]
  have hd : death_at (released demo_state 0) 0 = 0 := by rw [death_at_released, if_pos rfl]
  have hhs : hash_at (released demo_state 0) 0 = SAFEPTRHASH_ZERO := by
    rw [hash_at_released, if_pos rfl]
  have hn : (released demo_state 0).c_safemem_nptrs = C_SAFEMEM_BLOCK_SIZE :=
    (demo_freed 40 3).2.2.2.1
  have hi : SAFEPTR_INIT.indy < (released demo_state 0).c_safemem_nptrs := by
    rw [hn]; decide
  obtain ⟨st', hk, -, -, hd', -⟩ := keepalive_hit hg.1 hg.2.1 SAFEPTR_INIT 5 hi hhs
  have hd6 : death_at st' 0 = 6 := by
    have e : (released demo_state 0).c_safemem_update_calls = 1 := rfl
    rw [e] at hd'
    exact hd'
  refine ⟨fun hv => hv.2.2 hp, hp, hd, st', hk, hd6, ?_⟩
  intro heq
  rw [heq, hd] at hd6
  cases hd6

/-- A slot that is occupied, carries the generation of `h` and is scheduled to die `L`
epochs from now is still there after up to `L` sweeps and is reclaimed by sweep number
`L + 1`. -/
theorem slot_lifetime {st : State} {h : safepointer} {p L : Nat} (hh : healthy st)
    (hwf : WF st) (hi : h.indy < st.c_safemem_nptrs) (hp : ptr_at st h.indy = p)
    (hpn : p ≠ NULL) (hhs : hash_at st h.indy = h.hash)
    (hd : death_at st h.indy = (st.c_safemem_update_calls + L) % SIZE_MOD)
    (hL : L ≤ SIZE_MAX) :
    (∀ n, n ≤ L → ∃ stn, collect_garbage_times n st = some stn ∧ healthy stn ∧ WF stn ∧
        valid stn h ∧ safepointer_deref stn h = some p) ∧
    (∀ n, L < n → ∃ stn, collect_garbage_times n st = some stn ∧ healthy stn ∧ WF stn ∧
        ¬ valid stn h ∧ safepointer_deref stn h = some NULL ∧
        safepointer_free stn h = some (C_SAFEMEM_INVALID_STATE, stn)) := by
  have hE := hwf.2.2.2.1
  have keep : ∀ n, n ≤ L → ∃ stn, collect_garbage_times n st = some stn ∧ healthy stn ∧
      WF stn ∧ stn.c_safemem_nptrs = st.c_safemem_nptrs ∧
      stn.c_safemem_update_calls = (st.c_safemem_update_calls + n) % SIZE_MOD ∧
      ptr_at stn h.indy = p ∧ hash_at stn h.indy = h.hash ∧
      death_at stn h.indy = (st.c_safemem_update_calls + L) % SIZE_MOD := by
    intro n hn
    obtain ⟨stn, hrun, hhn, hwfn, e1, -, e3, q1, q2, q3⟩ :=
      sweeps_keep n st h.indy hh hwf (by rw [hp]; exact hpn)
        (by
          intro k hk
          rw [hd]
          unfold SIZE_MAX at hL hE
          unfold SIZE_MOD
          omega)
    exact ⟨stn, hrun, hhn, hwfn, e1, e3, by rw [q1, hp], by rw [q2, hhs], by rw [q3, hd]⟩
  constructor
  · intro n hn
    obtain ⟨stn, hrun, hhn, hwfn, e1, e3, q1, q2, q3⟩ := keep n hn
    have hi' : h.indy < stn.c_safemem_nptrs := by rw [e1]; exact hi
    refine ⟨stn, hrun, hhn, hwfn, (valid_iff h).mpr ⟨hi', q2, by rw [q1]; exact hpn⟩, ?_⟩
    rw [deref_eq hhn hwfn, if_pos ⟨hi', q2⟩, q1]
  · intro n hn
    obtain ⟨stL, hrunL, hhL, hwfL, e1, e3, q1, q2, q3⟩ := keep L (Nat.le_refl L)
    obtain ⟨stL1, hrun1, hh1', hwf1', f1, -, -, hj⟩ := sweep_step hhL hwfL
    have hexp : expired stL h.indy := ⟨by rw [q1]; exact hpn, by rw [q3, e3]⟩
    obtain ⟨z1, -, -⟩ := (hj h.indy).1 hexp
    obtain ⟨stn, hrunn, hhn, hwfn, g1, g2⟩ := sweeps_empty (n - (L + 1)) stL1 h.indy hh1' hwf1' z1
    have hi' : h.indy < stn.c_safemem_nptrs := by rw [g1, f1, e1]; exact hi
    obtain ⟨r1, r2, r3⟩ := @empty_slot_rejects stn hhn hwfn h g2
    refine ⟨stn, ?_, hhn, hwfn, r2, r1, r3 hi'⟩
    have e : n = L + (1 + (n - (L + 1))) := by omega
    rw [e, collect_garbage_times_add, hrunL]
    show collect_garbage_times (1 + (n - (L + 1))) stL = some stn
    rw [collect_garbage_times_add]
    simp only [collect_garbage_times, hrun1]
    exact hrunn

/-- C11: on a healthy instance a successful `safepointer_keepalive` sets the scheduled
death of the slot to epoch + lifetime (in `size_t`) and changes nothing else; and for
every size, after a successful `h = safepointer_malloc(s, 2)` immediately followed by
`safepointer_keepalive(h, 5)`, `h` is still valid after two
`safepointer_collect_garbage` calls and dereferences to its storage, and after five more
calls `safepointer_deref(h)` returns `NULL`. -/
theorem C11_keepalive_extends_survival (st : State) (sz : Nat) (heap : List Nat)
    (hh : healthy st) (hwf : WF st) (hroom : room st) (hg : grants_all heap) :
    (∀ (f : safepointer) (lifetime : Nat), valid st f →
      ∃ st', safepointer_keepalive st f lifetime = some st' ∧
        death_at st' f.indy = (st.c_safemem_update_calls + lifetime) % SIZE_MOD ∧
        (∀ j, j ≠ f.indy → death_at st' j = death_at st j) ∧
        (∀ j, ptr_at st' j = ptr_at st j ∧ hash_at st' j = hash_at st j) ∧
        st'.c_safemem_nptrs = st.c_safemem_nptrs ∧ st'.quick = st.quick ∧
        st'.c_safemem_hash_counter = st.c_safemem_hash_counter ∧
        st'.c_safemem_update_calls = st.c_safemem_update_calls ∧
        st'.c_safemem_failed_malloc = st.c_safemem_failed_malloc) ∧
    (∃ h st1 p st2 st4 st9,
      safepointer_malloc st sz 2 heap = some (h, st1) ∧ p ≠ NULL ∧
      safepointer_deref st1 h = some p ∧
      safepointer_keepalive st1 h 5 = some st2 ∧
      collect_garbage_times 2 st2 = some st4 ∧ valid st4 h ∧
      safepointer_deref st4 h = some p ∧
      collect_garbage_times 5 st4 = some st9 ∧ safepointer_deref st9 h = some NULL) := by
  constructor
  · intro f lifetime hv
    obtain ⟨hi, hm, -⟩ := (valid_iff f).mp hv
    obtain ⟨st', hk, -, -, r⟩ := keepalive_hit hh hwf f lifetime hi hm
    exact ⟨st', hk, r⟩
  · obtain ⟨h, st1, p, hm, ha, -⟩ := malloc_succeeds hh hwf hroom sz 2 hg
    obtain ⟨hv1, hd1, hp1⟩ := allocated_valid ha
    obtain ⟨hi, hm1, -⟩ := (valid_iff h).mp hv1
    obtain ⟨st2, hk, hh2, hwf2, hd2, -, hsame, en, -, -, ee, -⟩ :=
      keepalive_hit ha.is_healthy ha.wf h 5 hi hm1
    obtain ⟨hkeep, hdie⟩ := @slot_lifetime st2 h p 5 hh2 hwf2 (by rw [en]; exact hi)
      (by rw [(hsame h.indy).1]; exact hp1) ha.storage_ne
      (by rw [(hsame h.indy).2]; exact hm1) (by rw [hd2, ee]) (by decide)
    obtain ⟨st4, hrun4, -, -, hv4, hd4⟩ := hkeep 2 (by omega)
    obtain ⟨st9, hrun9, -, -, -, hd9, -⟩ := hdie 7 (by omega)
    have hsplit := collect_garbage_times_add 2 5 st2
    rw [hrun4] at hsplit
    have e75 : (2 : Nat) + 5 = 7 := rfl
    rw [e75, hrun9] at hsplit
    exact ⟨h, st1, p, st2, st4, st9, hm, ha.storage_ne, hd1, hk, hrun4, hv4, hd4,
      hsplit.symm, hd9⟩

/-! ## Failed allocations and the generation stamped -/

/-- When the slot at the cursor is empty and the heap refuses the storage block,
`safepointer_malloc` returns the handle it had prepared for that slot, with size 0, and
poisons the instance. -/
theorem malloc_storage_refused {st : State} (hh : healthy st) (hwf : WF st)
    (hq : st.quick < st.c_safemem_nptrs) (hempty : ptr_at st st.quick = NULL)
    (sz lifetime : Nat) {heap : List Nat} (href : calloc_ret heap = NULL) :
    safepointer_malloc st sz lifetime heap =
      some (⟨st.quick, 0, next_hash st⟩, refused st st.quick) := by
  rcases malloc_spec hh hwf sz lifetime heap with ⟨i, hi, hfe, hres⟩ | ⟨hall, -⟩
  · have hiq : i = st.quick := by
      rcases hfe with ⟨h1, -, h3⟩ | ⟨h1, -⟩
      · by_contra hne
        exact h3 st.quick (Nat.le_refl _) (by omega) hempty
      · exact absurd hempty (h1 st.quick (Nat.le_refl _) hq)
    rw [if_pos href, hiq] at hres
    exact hres
  · exact absurd hempty (hall st.quick hq)

/-- When the table is full and the heap refuses one of the three arrays of the growth,
`safepointer_malloc` returns the sentinel handle and poisons the instance. -/
theorem malloc_growth_refused {st : State} (hh : healthy st) (hwf : WF st) (hroom : room st)
    (hall : ∀ t, t < st.c_safemem_nptrs → ptr_at st t ≠ NULL) (sz lifetime : Nat)
    {heap : List Nat} (href : ¬ grants3 heap) :
    ∃ st', safepointer_malloc st sz lifetime heap = some (sentinel, st') ∧ ¬ healthy st' := by
  rcases malloc_spec hh hwf sz lifetime heap with
    ⟨i, hi, hfe, -⟩ | ⟨-, ⟨-, hw⟩ | ⟨st2, hret, hf, -⟩ | ⟨-, hg, -⟩⟩
  · have hempty : ptr_at st i = NULL := by
      rcases hfe with h1 | h1
      · exact h1.2.1
      · exact h1.2.2.2.1
    exact absurd hempty (hall i hi)
  · exact absurd hroom hw
  · refine ⟨st2, hret, ?_⟩
    unfold healthy; omega
  · exact absurd hg href

theorem demo_cursor_slot :
    demo_state.quick < demo_state.c_safemem_nptrs ∧ demo_state.quick = 1 ∧
    ptr_at demo_state demo_state.quick = NULL ∧ next_hash demo_state = ⟨0, 3⟩ := by
  have ha := demo_allocated 40 3
  have hq : demo_state.quick = 1 := by
    show (0 + 1) % SIZE_MOD = 1
    decide
  have hn : demo_state.c_safemem_nptrs = 512 := by
    show initial_state.c_safemem_nptrs + C_SAFEMEM_BLOCK_SIZE = 512
    decide
  refine ⟨by rw [hq, hn]; decide, hq, ?_, ?_⟩
  · rw [hq]
    show ptr_at (stamped (grown initial_state) 0 3 7) 1 = NULL
    rw [ha.ptrs]
    show (if 1 = 0 then 7 else ptr_at initial_state 1) = NULL
    rw [if_neg (by decide)]
    exact initial_Churnable.1 1
  · have hc : demo_state.c_safemem_hash_counter = hash_of_val 2 := by
      show (stamped (grown initial_state) 0 3 7).c_safemem_hash_counter = hash_of_val 2
      rw [ha.counter]; decide
    rw [next_hash_of_val hc]; decide

/-- C16 at its failing input: on the table after the first allocation, where slot 1 at
the cursor is empty, a `safepointer_malloc(8, 1)` whose storage request the heap refuses
poisons the instance but returns the handle `{indy = 1, size = 0, hash = {0, 3}}`
prepared in the loop, not the sentinel with `indy = SIZE_MAX` and
`hash = {SIZE_MAX, SIZE_MAX}`. -/
theorem C16_storage_refused_handle :
    safepointer_malloc demo_state 8 1 [0] =
      some (⟨1, 0, ⟨0, 3⟩⟩, refused demo_state 1) ∧
    ¬ healthy (refused demo_state 1) ∧
    (⟨1, 0, ⟨0, 3⟩⟩ : safepointer) ≠ sentinel ∧
    (⟨1, 0, ⟨0, 3⟩⟩ : safepointer).indy ≠ SIZE_MAX := by
  obtain ⟨hlt, hq, hempty, hnh⟩ := demo_cursor_slot
  have h := @malloc_storage_refused demo_state demo_healthy demo_WF hlt hempty 8 1 [0]
    (by decide)
  rw [hq, hnh] at h
  exact ⟨h, refused_poisoned _ _, by decide, by decide⟩

theorem hash_val_of_val (v : Nat) : hash_val (hash_of_val v) = v % HASH_MOD := by
  simp only [hash_val, hash_of_val]
  unfold SIZE_MOD HASH_MOD
  omega

/-- One increment of the counter adds one to its two-word value, modulo `2^128`. -/
theorem hash_val_next {st : State} (hwf : WF st) :
    hash_val (next_hash st) = (hash_val st.c_safemem_hash_counter + 1) % HASH_MOD := by
  have hc := counter_is_val hwf.2.2.2.2.1 hwf.2.2.2.2.2
  rw [next_hash_of_val hc, hash_val_of_val]
  rfl

/-- C17 (as amended): every successful `safepointer_malloc` first increments the
generation counter and stamps its slot and its returned handle with the incremented
value, which is also the value the counter holds after the call; read as a two-word
number (`part1` the word incremented first, `part2` the word receiving the carry) it is
the value before the call plus one, modulo `2^128`. -/
theorem C17_generation_stamped (st : State) (hh : healthy st) (hwf : WF st)
    (sz lifetime : Nat) (heap : List Nat) (h : safepointer) (st' : State)
    (hm : safepointer_malloc st sz lifetime heap = some (h, st')) (hok : healthy st') :
    h.hash = (safepointer_increment_hash_counter st).c_safemem_hash_counter ∧
    hash_at st' h.indy = h.hash ∧
    st'.c_safemem_hash_counter = h.hash ∧
    h.hash.part1 = (st.c_safemem_hash_counter.part1 + 1) % SIZE_MOD ∧
    h.hash.part2 = (if (st.c_safemem_hash_counter.part1 + 1) % SIZE_MOD = 0
      then (st.c_safemem_hash_counter.part2 + 1) % SIZE_MOD
      else st.c_safemem_hash_counter.part2) ∧
    hash_val h.hash = (hash_val st.c_safemem_hash_counter + 1) % HASH_MOD := by
  obtain ⟨p, ha⟩ := malloc_success_cases hh hwf hm hok
  have e1 : h.hash = next_hash st := ha.hash_eq
  refine ⟨e1, ?_, ?_, ?_, ?_, ?_⟩
  · rw [ha.hashes, if_pos rfl, e1]
  · rw [ha.counter, e1]
  · rw [e1]; rfl
  · rw [e1]; rfl
  · rw [e1]; exact hash_val_next hwf

/-- C17 fails as stated: the first allocation on the initial state, whose counter holds
`{0, 1}`, receives the generation `{0, 2}`, and so does its slot. -/
theorem C17_counterexample :
    initial_state.c_safemem_hash_counter = ⟨0, 1⟩ ∧
    ∃ h st', safepointer_malloc initial_state 40 3 demo_heap = some (h, st') ∧
      healthy st' ∧ h.hash = ⟨0, 2⟩ ∧ hash_at st' h.indy = ⟨0, 2⟩ ∧
      st'.c_safemem_hash_counter = ⟨0, 2⟩ := by
  have ha := demo_allocated 40 3
  refine ⟨rfl, _, _, demo_malloc 40 3, ha.is_healthy, rfl, ?_, ?_⟩
  · rw [ha.hashes, if_pos rfl]; decide
  · rw [ha.counter]; decide

/-! ## The slot search -/

/-- Which slot a successful `safepointer_malloc` takes, and whether it grows the
table. -/
theorem malloc_success_pick {st : State} (hh : healthy st) (hwf : WF st) {sz lifetime : Nat}
    {heap : List Nat} {h : safepointer} {st' : State}
    (hm : safepointer_malloc st sz lifetime heap = some (h, st')) (hok : healthy st') :
    (h.indy < st.c_safemem_nptrs ∧ st'.c_safemem_nptrs = st.c_safemem_nptrs ∧
      (first_empty st st.quick h.indy ∨
        ((∀ t, st.quick ≤ t → t < st.c_safemem_nptrs → ptr_at st t ≠ NULL) ∧
          h.indy < st.quick ∧ first_empty st 0 h.indy))) ∨
    ((∀ t, t < st.c_safemem_nptrs → ptr_at st t ≠ NULL) ∧ h.indy = st.c_safemem_nptrs ∧
      st'.c_safemem_nptrs = st.c_safemem_nptrs + C_SAFEMEM_BLOCK_SIZE) := by
  rcases malloc_spec hh hwf sz lifetime heap with
    ⟨i, hi, hfe, hres⟩ | ⟨hall, ⟨hnone, -⟩ | ⟨st2, hret, hf, -⟩ | ⟨hroom, hg, hres⟩⟩
  · rw [hm] at hres
    by_cases hp : calloc_ret heap = NULL
    · rw [if_pos hp] at hres
      injection hres with hres
      injection hres with _ h2
      exact absurd (h2 ▸ hok) (refused_poisoned st i)
    · rw [if_neg hp] at hres
      injection hres with hres
      injection hres with h1 h2
      subst h1 h2
      exact Or.inl ⟨hi, rfl, hfe⟩
  · rw [hm] at hnone; cases hnone
  · rw [hm] at hret
    injection hret with hret
    injection hret with _ h2
    subst h2
    unfold healthy at hok
    omega
  · rw [hm] at hres
    by_cases hp : calloc_ret (after_growth heap) = NULL
    · rw [if_pos hp] at hres
      injection hres with hres
      injection hres with _ h2
      exact absurd (h2 ▸ hok) (refused_poisoned _ _)
    · rw [if_neg hp] at hres
      injection hres with hres
      injection hres with h1 h2
      subst h1 h2
      exact Or.inr ⟨hall, rfl, rfl⟩

/-- C18: on a healthy instance with cursor `q = quick` and table length
`n = c_safemem_nptrs`, a successful `safepointer_malloc` takes the first empty slot of
`[q, n)` if there is one, otherwise the first empty slot of `[0, q)` if there is one,
and otherwise grows the table by one block and takes slot `n`; the slot taken was empty
before the call, the cursor is `i + 1` afterwards, and the table grows exactly when no
slot of `[0, n)` was empty. -/
theorem C18_slot_search (st : State) (hh : healthy st) (hwf : WF st) (sz lifetime : Nat)
    (heap : List Nat) (h : safepointer) (st' : State)
    (hm : safepointer_malloc st sz lifetime heap = some (h, st')) (hok : healthy st') :
    ((∃ t, st.quick ≤ t ∧ t < st.c_safemem_nptrs ∧ ptr_at st t = NULL) →
      st.quick ≤ h.indy ∧ h.indy < st.c_safemem_nptrs ∧ ptr_at st h.indy = NULL ∧
      (∀ t, st.quick ≤ t → t < h.indy → ptr_at st t ≠ NULL) ∧
      st'.c_safemem_nptrs = st.c_safemem_nptrs) ∧
    ((∀ t, st.quick ≤ t → t < st.c_safemem_nptrs → ptr_at st t ≠ NULL) →
      (∃ t, t < st.quick ∧ ptr_at st t = NULL) →
      h.indy < st.quick ∧ ptr_at st h.indy = NULL ∧
      (∀ t, t < h.indy → ptr_at st t ≠ NULL) ∧
      st'.c_safemem_nptrs = st.c_safemem_nptrs) ∧
    ((∀ t, t < st.c_safemem_nptrs → ptr_at st t ≠ NULL) →
      h.indy = st.c_safemem_nptrs ∧
      st'.c_safemem_nptrs = st.c_safemem_nptrs + C_SAFEMEM_BLOCK_SIZE) ∧
    ptr_at st h.indy = NULL ∧
    st'.quick = h.indy + 1 ∧
    (st'.c_safemem_nptrs = st.c_safemem_nptrs + C_SAFEMEM_BLOCK_SIZE ↔
      ∀ t, t < st.c_safemem_nptrs → ptr_at st t ≠ NULL) ∧
    (st'.c_safemem_nptrs ≠ st.c_safemem_nptrs + C_SAFEMEM_BLOCK_SIZE →
      st'.c_safemem_nptrs = st.c_safemem_nptrs) := by
  obtain ⟨p, ha⟩ := malloc_success_cases hh hwf hm hok
  have hq := hwf.2.1
  have hpick := malloc_success_pick hh hwf hm hok
  have hblock : 0 < C_SAFEMEM_BLOCK_SIZE := by decide
  refine ⟨?_, ?_, ?_, ha.was_empty, ha.cursor, ?_, ?_⟩
  · rintro ⟨t, ht1, ht2, ht3⟩
    rcases hpick with ⟨hi, hn, ⟨h1, h2, h3⟩ | ⟨h1, -, -⟩⟩ | ⟨hall, -, -⟩
    · exact ⟨h1, hi, h2, h3, hn⟩
    · exact absurd ht3 (h1 t ht1 ht2)
    · exact absurd ht3 (hall t ht2)
  · rintro hnone ⟨t, ht1, ht3⟩
    rcases hpick with ⟨hi, hn, ⟨h1, h2, -⟩ | ⟨-, h2, -, h4, h5⟩⟩ | ⟨hall, -, -⟩
    · exact absurd h2 (hnone h.indy h1 hi)
    · exact ⟨h2, h4, fun t ht => h5 t (Nat.zero_le t) ht, hn⟩
    · exact absurd ht3 (hall t (by omega))
  · intro hall
    rcases hpick with ⟨hi, -, -⟩ | ⟨-, h2, h3⟩
    · exact absurd ha.was_empty (hall h.indy hi)
    · exact ⟨h2, h3⟩
  · constructor
    · intro hgrow
      rcases hpick with ⟨-, hn, -⟩ | ⟨hall, -, -⟩
      · omega
      · exact hall
    · intro hall
      rcases hpick with ⟨hi, -, -⟩ | ⟨-, -, h3⟩
      · exact absurd ha.was_empty (hall h.indy hi)
      · exact h3
  · intro hne
    rcases hpick with ⟨-, hn, -⟩ | ⟨-, -, h3⟩
    · exact hn
    · exact absurd h3 hne

/-- More evaluations of the loop condition than the loop needs do not change its
outcome. -/
theorem malloc_while_mono (f : Nat) :
    ∀ (s : safepointer) (e : Nat) (st : State) (heap : List Nat) (ex : MallocExit),
      malloc_while f s e st heap = some ex → malloc_while (f + 1) s e st heap = some ex := by
  induction f with
  | zero => intro s e st heap ex h; simp [malloc_while] at h
  | succ f ih =>
    intro s e st heap ex h
    rw [malloc_while] at h ⊢
    by_cases hs : s.indy ≠ SIZE_MAX
    · rw [if_pos hs] at h ⊢; exact h
    · rw [if_neg hs] at h ⊢
      cases hscan : malloc_scan st.c_safemem_ptrs st.quick (e - st.quick) with
      | none => rw [hscan] at h; simp at h
      | some found =>
        rw [hscan] at h
        simp only [] at h ⊢
        split_ifs at h ⊢ with hc hc2
        · exact ih _ _ _ _ _ h
        · generalize safepointer_expand_storage _ _ = r at h ⊢
          cases r with
          | none => simp at h
          | some t =>
            obtain ⟨r0, st2, heap2⟩ := t
            simp only [] at h ⊢
            split_ifs at h ⊢ with hr
            · exact h
            · exact ih _ _ _ _ _ h
        · exact ih _ _ _ _ _ h


theorem malloc_while_mono_add {f : Nat} {s : safepointer} {e : Nat} {st : State}
    {heap : List Nat} {ex : MallocExit} (h : malloc_while f s e st heap = some ex) (k : Nat) :
    malloc_while (f + k) s e st heap = some ex := by
  induction k with
  | zero => exact h
  | succ k ih => exact malloc_while_mono (f + k) s e st heap ex ih

/-- When the table has an empty slot, the loop of `safepointer_malloc` finds one within
two passes: three evaluations of the loop condition suffice. -/
theorem malloc_while_in_table {st : State} (hwf : WF st)
    (s : safepointer) (hs : s.indy = SIZE_MAX) (heap : List Nat) :
    (∃ i, i < st.c_safemem_nptrs ∧
      malloc_while 3 s st.c_safemem_nptrs st heap = some (found_exit s st i heap)) ∨
    (∀ t, t < st.c_safemem_nptrs → ptr_at st t ≠ NULL) := by
  obtain ⟨hl, hq, hn, -⟩ := hwf
  have hmax : ∀ i, i < st.c_safemem_nptrs → i ≠ SIZE_MAX := fun i hi => by omega
  rcases malloc_scan_spec st (st.c_safemem_nptrs - st.quick) st.quick (by rw [hl.1]; omega) with
    ⟨i, hsc, hlt, -⟩ | ⟨hsc, hall⟩
  · left
    have hi : i < st.c_safemem_nptrs := by omega
    exact ⟨i, hi, malloc_while_found heap 1 hs hsc (hmax i hi)⟩
  · by_cases hq0 : st.quick = 0
    · right
      exact fun t ht => hall t (by omega) (by omega)
    · rcases malloc_scan_spec { st with quick := 0 } (st.quick - 0) 0
          (by show 0 + (st.quick - 0) ≤ st.c_safemem_ptrs.length; rw [hl.1]; omega) with
        ⟨i, hsc2, hlt2, -⟩ | ⟨-, hall2⟩
      · left
        have hi : i < st.c_safemem_nptrs := by omega
        refine ⟨i, hi, ?_⟩
        rw [malloc_while_second_pass heap 2 hs hsc hq0]
        exact @malloc_while_found s { st with quick := 0 } st.quick i heap 0 hs hsc2 (hmax i hi)
      · right
        intro t ht
        by_cases htq : t < st.quick
        · exact hall2 t (Nat.zero_le _) (by omega)
        · exact hall t (by omega) (by omega)

/-- C20: on a healthy table that satisfies the table invariant and whose length can grow
by one block within `size_t`, the `while` loop of `safepointer_malloc` terminates.  Four
evaluations of the loop condition suffice (three runs of the body, each with one scan
pass, and the final test), and more evaluations give the same outcome.  The loop ends
with a slot index below the table length: either the table has kept its length, and
then three evaluations suffice (at most two scan passes over the existing table), or
the table has grown by exactly one block.  Otherwise it ends by the `return` of a
failed growth, with the instance poisoned. -/
theorem C20_slot_search_terminates (st : State) (hh : healthy st) (hwf : WF st)
    (hroom : room st) (s : safepointer) (hs : s.indy = SIZE_MAX) (heap : List Nat) :
    ∃ ex, malloc_while 4 s st.c_safemem_nptrs st heap = some ex ∧
      (∀ f, malloc_while (4 + f) s st.c_safemem_nptrs st heap = some ex) ∧
      ((∃ s' st' heap', ex = MallocExit.done s' st' heap' ∧ healthy st' ∧
          s'.indy < st'.c_safemem_nptrs ∧
          ((st'.c_safemem_nptrs = st.c_safemem_nptrs ∧
              malloc_while 3 s st.c_safemem_nptrs st heap = some ex) ∨
            (st'.c_safemem_nptrs = st.c_safemem_nptrs + C_SAFEMEM_BLOCK_SIZE ∧
              grants3 heap ∧ ∀ t, t < st.c_safemem_nptrs → ptr_at st t ≠ NULL))) ∨
        (∃ st', ex = MallocExit.ret s st' ∧ ¬ healthy st' ∧ ¬ grants3 heap ∧
          ∀ t, t < st.c_safemem_nptrs → ptr_at st t ≠ NULL)) := by
  rcases malloc_while_in_table hwf s hs heap with ⟨i, hi, h3⟩ | hfull
  · have h4 := malloc_while_mono_add h3 1
    refine ⟨_, h4, fun f => malloc_while_mono_add h4 f, Or.inl ⟨_, _, _, rfl, ?_, ?_, Or.inl ⟨rfl, h3⟩⟩⟩
    · exact hh
    · exact hi
  · rcases malloc_while_spec hh hwf s hs 0 heap with ⟨i, hi, hfe, -⟩ | ⟨-, hcase⟩
    · exfalso
      rcases hfe with hfe | ⟨-, -, hfe⟩
      · exact hfull i hi hfe.2.1
      · exact hfull i hi hfe.2.1
    · rcases hcase with ⟨-, hw⟩ | ⟨st2, h4, hp, hg⟩ | ⟨h4, -, hg⟩
      · exact absurd hroom hw
      · refine ⟨_, h4, fun f => malloc_while_mono_add h4 f, Or.inr ⟨st2, rfl, ?_, hg, hfull⟩⟩
        unfold healthy; rw [hp]; decide
      · refine ⟨_, h4, fun f => malloc_while_mono_add h4 f,
          Or.inl ⟨_, _, _, rfl, ?_, ?_, Or.inr ⟨rfl, hg, hfull⟩⟩⟩
        · exact hh
        · show st.c_safemem_nptrs < st.c_safemem_nptrs + C_SAFEMEM_BLOCK_SIZE
          unfold C_SAFEMEM_BLOCK_SIZE; omega


/-! ## The slot-table invariant -/

theorem hash_at_beyond {st : State} {t : Nat} (h : st.c_safemem_hashes.length ≤ t) :
    hash_at st t = SAFEPTRHASH_ZERO := by
  simp [hash_at, List.getElem?_eq_none h]

theorem hash_of_val_ne_zero {v : Nat} (h0 : 0 < v) (h : v < HASH_MOD) :
    hash_of_val v ≠ SAFEPTRHASH_ZERO := by
  intro he
  have hz : SAFEPTRHASH_ZERO = hash_of_val 0 := by decide
  rw [hz, hash_of_val_eq_iff, Nat.mod_eq_of_lt h, Nat.zero_mod] at he
  omega

theorem initial_tagged : slots_tagged initial_state := by
  intro i hi
  exact absurd hi (Nat.not_lt_zero i)

/-- One call other than `safepointer_collect_all` on a healthy table whose slots are
tagged and whose counter holds `v`: when the table is healthy afterwards, it satisfies
the table invariant, its slots are tagged, and its counter has advanced by one for a
`safepointer_malloc` and not at all otherwise. -/
theorem step_tagged {st : State} {v : Nat} (hg : Good st v) (ht : slots_tagged st)
    {op : Op} (hop : op ≠ Op.collect_all) (hv : v + malloc_count [op] < HASH_MOD)
    {st' : State} {r : Option safepointer} (hstep : step st op = some (st', r))
    (hok : healthy st') :
    Good st' (v + malloc_count [op]) ∧ slots_tagged st' := by
  obtain ⟨hh, hwf, hc, h0⟩ := hg
  cases op with
  | malloc sz lifetime heap =>
    have hmc : malloc_count [Op.malloc sz lifetime heap] = 1 := rfl
    rw [hmc] at hv ⊢
    cases hm : safepointer_malloc st sz lifetime heap with
    | none => simp [step, hm] at hstep
    | some res =>
      obtain ⟨h, st1⟩ := res
      simp only [step, hm, Option.some.injEq, Prod.mk.injEq] at hstep
      obtain ⟨e1, -⟩ := hstep
      subst e1
      obtain ⟨p, ha⟩ := malloc_success_cases hh hwf hm hok
      have hnext := next_hash_of_val hc
      refine ⟨⟨hok, ha.wf, by rw [ha.counter]; exact hnext, ?_⟩, ?_⟩
      · intro hz
        have := ha.index_lt
        omega
      · intro i hi
        rw [ha.ptrs i, ha.hashes i]
        by_cases hih : i = h.indy
        · rw [if_pos hih, if_pos hih, hnext]
          exact ⟨fun _ => hash_of_val_ne_zero (by omega) hv, fun _ => ha.storage_ne⟩
        · rw [if_neg hih, if_neg hih]
          by_cases hlt : i < st.c_safemem_nptrs
          · exact ht i hlt
          · rw [ptr_at_beyond (by rw [hwf.1.1]; omega), hash_at_beyond (by rw [hwf.1.2.1]; omega)]
            exact ⟨fun hne => absurd rfl hne, fun hne => absurd rfl hne⟩
  | free f =>
    have hmc : malloc_count [Op.free f] = 0 := rfl
    rw [hmc, Nat.add_zero]
    have hf := free_cases f hh hwf.1
    by_cases hi : f.indy < st.c_safemem_nptrs
    · by_cases hval : valid st f
      · rw [if_neg (not_not.mpr hi), if_pos hval] at hf
        simp only [step, hf, Option.some.injEq, Prod.mk.injEq] at hstep
        obtain ⟨e1, -⟩ := hstep
        subst e1
        refine ⟨⟨hh, released_WF hwf _, hc, h0⟩, ?_⟩
        intro i hil
        rw [ptr_at_released, hash_at_released]
        by_cases hif : i = f.indy
        · rw [if_pos hif, if_pos hif]
          exact ⟨fun hne => absurd rfl hne, fun hne => absurd rfl hne⟩
        · rw [if_neg hif, if_neg hif]
          exact ht i hil
      · rw [if_neg (not_not.mpr hi), if_neg hval] at hf
        simp only [step, hf, Option.some.injEq, Prod.mk.injEq] at hstep
        obtain ⟨e1, -⟩ := hstep
        subst e1
        exact ⟨⟨hh, hwf, hc, h0⟩, ht⟩
    · rw [if_pos hi] at hf
      simp only [step, hf, Option.some.injEq, Prod.mk.injEq] at hstep
      obtain ⟨e1, -⟩ := hstep
      subst e1
      exact ⟨⟨hh, hwf, hc, h0⟩, ht⟩
  | deref f =>
    have hmc : malloc_count [Op.deref f] = 0 := rfl
    rw [hmc, Nat.add_zero]
    have hd := deref_eq hh hwf f
    have e1 : st = st' := by
      by_cases hcond : f.indy < st.c_safemem_nptrs ∧ hash_at st f.indy = f.hash
      · rw [if_pos hcond] at hd
        simp only [step, hd, Option.some.injEq, Prod.mk.injEq] at hstep
        exact hstep.1
      · rw [if_neg hcond] at hd
        simp only [step, hd, Option.some.injEq, Prod.mk.injEq] at hstep
        exact hstep.1
    subst e1
    exact ⟨⟨hh, hwf, hc, h0⟩, ht⟩
  | keepalive f lifetime =>
    have hmc : malloc_count [Op.keepalive f lifetime] = 0 := rfl
    rw [hmc, Nat.add_zero]
    have hk := keepalive_spec hh hwf.1 f lifetime
    by_cases hcond : f.indy < st.c_safemem_nptrs ∧ hash_at st f.indy = f.hash
    · rw [if_pos hcond] at hk
      simp only [step, hk, Option.some.injEq, Prod.mk.injEq] at hstep
      obtain ⟨e1, -⟩ := hstep
      subst e1
      have hlen : (st.c_safemem_scheduled_deaths.set f.indy
          ((st.c_safemem_update_calls + lifetime) % SIZE_MOD)).length = st.c_safemem_nptrs := by
        rw [List.length_set]; exact hwf.1.2.2
      exact ⟨⟨hh, ⟨⟨hwf.1.1, hwf.1.2.1, hlen⟩, hwf.2⟩, hc, h0⟩, fun i hi => ht i hi⟩
    · rw [if_neg hcond] at hk
      simp only [step, hk, Option.some.injEq, Prod.mk.injEq] at hstep
      obtain ⟨e1, -⟩ := hstep
      subst e1
      exact ⟨⟨hh, hwf, hc, h0⟩, ht⟩
  | collect_garbage =>
    have hmc : malloc_count [Op.collect_garbage] = 0 := rfl
    rw [hmc, Nat.add_zero]
    obtain ⟨st1, hrun, hh1, hwf1, e1, e2, -, hj⟩ := sweep_step hh hwf
    simp only [step, hrun, Option.some.injEq, Prod.mk.injEq] at hstep
    obtain ⟨e0, -⟩ := hstep
    subst e0
    refine ⟨⟨hh1, hwf1, by rw [e2]; exact hc, ?_⟩, ?_⟩
    · intro hz; rw [e1] at hz; exact h0 hz
    · intro i hi
      rw [e1] at hi
      by_cases hex : expired st i
      · obtain ⟨a1, a2, -⟩ := (hj i).1 hex
        rw [a1, a2]
        exact ⟨fun hne => absurd rfl hne, fun hne => absurd rfl hne⟩
      · obtain ⟨a1, a2, -⟩ := (hj i).2 hex
        rw [a1, a2]
        exact ht i hi
  | collect_all => exact absurd rfl hop

theorem malloc_count_cons (op : Op) (ops : List Op) :
    malloc_count (op :: ops) = malloc_count [op] + malloc_count ops := by
  cases op <;> simp only [malloc_count] <;> omega

/-- The invariant along a sequence of calls without `safepointer_collect_all`. -/
theorem exec_tagged (ops : List Op) :
    ∀ st v st', Good st v → slots_tagged st → Op.collect_all ∉ ops →
      v + malloc_count ops < HASH_MOD → exec st ops = some st' → healthy st' →
      WF st' ∧ slots_tagged st' := by
  induction ops with
  | nil =>
    intro st v st' hg ht _ _ he _
    simp only [exec, Option.some.injEq] at he
    subst he
    exact ⟨hg.2.1, ht⟩
  | cons op ops ih =>
    intro st v st' hg ht hno hv he hok
    have hop : op ≠ Op.collect_all := fun h => hno (by rw [h]; exact List.mem_cons_self _ _)
    have hno' : Op.collect_all ∉ ops := fun h => hno (List.mem_cons_of_mem _ h)
    rw [malloc_count_cons] at hv
    cases hs : step st op with
    | none => simp [exec, hs] at he
    | some res =>
      obtain ⟨st1, r⟩ := res
      simp only [exec, hs] at he
      by_cases hh1 : healthy st1
      · obtain ⟨hg1, ht1⟩ := step_tagged hg ht hop (by omega) hs hh1
        exact ih st1 _ st' hg1 ht1 hno' (by omega) he hok
      · rw [exec_poisoned ops st1 hh1] at he
        simp only [Option.some.injEq] at he
        subst he
        exact absurd hok hh1

/-- C19: in every healthy state reached from the initial state by calls of
`safepointer_malloc`, `safepointer_free`, `safepointer_keepalive`,
`safepointer_collect_garbage` and `safepointer_deref` with fewer than `2^128 - 1`
allocations (the counter starts at 1 and wraps to zero at its `2^128 - 1`-th
increment), the three arrays have the table length, the cursor is at most the table
length, and for every slot below the table length the storage pointer is non-`NULL`
exactly when the stored generation is not `SAFEPTRHASH_ZERO`. -/
theorem C19_slot_table_invariant (ops : List Op) (st : State)
    (hops : Op.collect_all ∉ ops) (hcount : malloc_count ops < HASH_MOD - 1)
    (hrun : exec initial_state ops = some st) (hh : healthy st) :
    Lens st ∧ st.quick ≤ st.c_safemem_nptrs ∧
    ∀ i, i < st.c_safemem_nptrs → (ptr_at st i ≠ NULL ↔ hash_at st i ≠ SAFEPTRHASH_ZERO) := by
  obtain ⟨hwf, ht⟩ := exec_tagged ops initial_state 1 st initial_Good initial_tagged hops
    (by unfold HASH_MOD at hcount ⊢; omega) hrun hh
  exact ⟨hwf.1, hwf.2.1, ht⟩

/-! ## Instances at the worked example -/

/-- C1 at the worked example: the handle of the first allocation on its own table. -/
theorem C1_deref_witness :
    healthy demo_state ∧ WF demo_state ∧
    ∃ p, safepointer_deref demo_state demo_handle = some p ∧
      (p ≠ NULL ↔ valid demo_state demo_handle) ∧
      (p ≠ NULL → p = ptr_at demo_state demo_handle.indy) :=
  ⟨demo_healthy, demo_WF, (C1_deref demo_state demo_handle).1 demo_healthy demo_WF⟩

/-- C2 at the worked example: `safepointer_malloc(40, 3)` on the initial state. -/
theorem C2_validity_round_trip_witness :
    healthy initial_state ∧ WF initial_state ∧ room initial_state ∧ grants_all demo_heap ∧
    ∃ h st' p, safepointer_malloc initial_state 40 3 demo_heap = some (h, st') ∧
      h.size = 40 ∧ p ≠ NULL ∧ safepointer_deref st' h = some p ∧
      ptr_at st' h.indy = p ∧ valid st' h ∧ healthy st' ∧
      (p = calloc_ret demo_heap ∨ p = calloc_ret (after_growth demo_heap)) :=
  ⟨initial_healthy, initial_WF, initial_room, demo_grants,
    C2_validity_round_trip initial_state 40 3 demo_heap initial_healthy initial_WF initial_room
      demo_grants⟩

/-- C3 at the worked example: the table after the first allocation. -/
theorem C3_growth_preserves_data_witness :
    healthy demo_state ∧ WF demo_state ∧ valid demo_state demo_handle ∧
    ((∀ (h : safepointer), valid demo_state h →
      ∀ (sz lifetime : Nat) (heap : List Nat) (h2 : safepointer) (st' : State),
        safepointer_malloc demo_state sz lifetime heap = some (h2, st') → healthy st' →
          valid st' h ∧
          safepointer_deref st' h = some (ptr_at demo_state h.indy) ∧
          safepointer_deref demo_state h = some (ptr_at demo_state h.indy) ∧
          ptr_at st' h.indy = ptr_at demo_state h.indy ∧
          hash_at st' h.indy = hash_at demo_state h.indy ∧
          death_at st' h.indy = death_at demo_state h.indy ∧
          (st'.c_safemem_nptrs = demo_state.c_safemem_nptrs ∨
            st'.c_safemem_nptrs = demo_state.c_safemem_nptrs + C_SAFEMEM_BLOCK_SIZE)) ∧
    (∀ (heap heap2 : List Nat) (st2 : State),
      safepointer_expand_storage demo_state heap = some (0, st2, heap2) →
        st2.c_safemem_nptrs = demo_state.c_safemem_nptrs + C_SAFEMEM_BLOCK_SIZE ∧
        st2.c_safemem_ptrs.length = st2.c_safemem_nptrs ∧
        st2.c_safemem_hashes.length = st2.c_safemem_nptrs ∧
        st2.c_safemem_scheduled_deaths.length = st2.c_safemem_nptrs ∧
        (∀ j, j < demo_state.c_safemem_nptrs →
          ptr_at st2 j = ptr_at demo_state j ∧ hash_at st2 j = hash_at demo_state j ∧
          death_at st2 j = death_at demo_state j) ∧
        (∀ j, demo_state.c_safemem_nptrs ≤ j → j < st2.c_safemem_nptrs →
          ptr_at st2 j = NULL ∧ hash_at st2 j = SAFEPTRHASH_ZERO ∧ death_at st2 j = 0))) :=
  ⟨demo_healthy, demo_WF, demo_valid, C3_growth_preserves_data demo_state demo_healthy demo_WF⟩

/-- C4 at the worked example: freeing the handle of the first allocation. -/
theorem C4_free_classification_witness :
    healthy demo_state ∧ WF demo_state ∧
    ∃ r st', safepointer_free demo_state demo_handle = some (r, st') ∧
      (r = C_SAFEMEM_BAD_PTR ↔ ¬ demo_handle.indy < demo_state.c_safemem_nptrs) ∧
      (r = C_SAFEMEM_INVALID_STATE ↔
        demo_handle.indy < demo_state.c_safemem_nptrs ∧
          (ptr_at demo_state demo_handle.indy = NULL ∨
            hash_at demo_state demo_handle.indy ≠ demo_handle.hash)) ∧
      (r = C_SAFEMEM_NO_ERR ↔
        demo_handle.indy < demo_state.c_safemem_nptrs ∧
          ptr_at demo_state demo_handle.indy ≠ NULL ∧
          hash_at demo_state demo_handle.indy = demo_handle.hash) ∧
      (r = C_SAFEMEM_NO_ERR →
        ptr_at st' demo_handle.indy = NULL ∧ hash_at st' demo_handle.indy = SAFEPTRHASH_ZERO ∧
        death_at st' demo_handle.indy = 0 ∧
        (∀ j, j ≠ demo_handle.indy →
          ptr_at st' j = ptr_at demo_state j ∧ hash_at st' j = hash_at demo_state j ∧
          death_at st' j = death_at demo_state j) ∧
        st'.c_safemem_hash_counter = demo_state.c_safemem_hash_counter ∧
        st'.c_safemem_update_calls = demo_state.c_safemem_update_calls ∧
        st'.c_safemem_nptrs = demo_state.c_safemem_nptrs ∧ st'.quick = demo_state.quick ∧
        st'.c_safemem_failed_malloc = demo_state.c_safemem_failed_malloc) ∧
      (r ≠ C_SAFEMEM_NO_ERR → st' = demo_state) :=
  ⟨demo_healthy, demo_WF, C4_free_classification demo_state demo_handle demo_healthy demo_WF⟩

/-- C5 at the worked example: freeing the handle of the first allocation twice. -/
theorem C5_double_free_witness :
    healthy demo_state ∧ WF demo_state ∧ valid demo_state demo_handle ∧
    ∃ st1, safepointer_free demo_state demo_handle = some (C_SAFEMEM_NO_ERR, st1) ∧
      safepointer_free st1 demo_handle = some (C_SAFEMEM_INVALID_STATE, st1) :=
  ⟨demo_healthy, demo_WF, demo_valid,
    C5_double_free demo_state demo_handle demo_healthy demo_WF demo_valid⟩

/-- C6 (as amended) at the worked example: the first handle is freed, 511 rounds of
`churn` take the cursor round the block, and the next allocation reuses slot 0. -/
theorem C6_stale_handle_witness :
    ∃ st3 h2 st4,
      healthy initial_state ∧ WF initial_state ∧
      safepointer_malloc initial_state 40 3 demo_heap = some (demo_handle, demo_state) ∧
      healthy demo_state ∧
      safepointer_free demo_state demo_handle =
        some (C_SAFEMEM_NO_ERR, released demo_state 0) ∧
      Op.collect_all ∉ churn 511 ∧
      exec (released demo_state 0) (churn 511) = some st3 ∧
      malloc_count (churn 511) + 1 < HASH_MOD ∧
      safepointer_malloc st3 1 0 demo_heap = some (h2, st4) ∧ healthy st4 ∧
      h2.indy = demo_handle.indy ∧
      (safepointer_deref st4 demo_handle = some NULL ∧
        safepointer_free st4 demo_handle = some (C_SAFEMEM_INVALID_STATE, st4) ∧
        valid st4 h2 ∧ ∃ p, p ≠ NULL ∧ safepointer_deref st4 h2 = some p) := by
  obtain ⟨hfree, hg2, hc2, hn2, hq2⟩ := demo_freed 40 3
  obtain ⟨st3, hex, hg3, hc3, hn3, hq3⟩ :=
    exec_churn 511 _ 2 hg2 hc2 hn2 (by rw [hq2]) (by rw [hq2]; decide)
  have hq3' : st3.quick = C_SAFEMEM_BLOCK_SIZE := by rw [hq3, hq2]; decide
  obtain ⟨st4, p, hm2, ha2⟩ := malloc_all_empty hg3.1 hg3.2.1 hc3 1 0 demo_grants
  have hidx : churn_index st3 = 0 := by
    unfold churn_index
    rw [hq3', hn3, if_neg (Nat.lt_irrefl _)]
  rw [hidx] at hm2
  have hb : malloc_count (churn 511) + 1 < HASH_MOD := by rw [malloc_count_churn]; decide
  exact ⟨st3, _, st4, initial_healthy, initial_WF, demo_malloc 40 3, demo_healthy, hfree,
    churn_plain 511, hex, hb, hm2, ha2.is_healthy, rfl,
    C6_stale_handle initial_state demo_state (released demo_state 0) st3 st4 40 3 1 0
      demo_heap demo_heap demo_handle _ (churn 511) initial_healthy initial_WF
      (demo_malloc 40 3) demo_healthy hfree (churn_plain 511) hex hb hm2 ha2.is_healthy rfl⟩

/-- C7 (as amended) at the worked example: allocate, free, allocate. -/
theorem C7_generation_uniqueness_witness :
    Op.collect_all ∉ demo_ops ∧
    (issued initial_state demo_ops).length ≤ HASH_MOD ∧
    (issued initial_state demo_ops).Pairwise
      (fun h1 h2 => h1.hash.part1 ≠ h2.hash.part1 ∨ h1.hash.part2 ≠ h2.hash.part2) :=
  ⟨by decide, Nat.le_trans (issued_length_le demo_ops initial_state) (by decide),
    C7_generation_uniqueness demo_ops (by decide)
      (Nat.le_trans (issued_length_le demo_ops initial_state) (by decide))⟩

/-- C8 at the worked example: one sweep of the table after the first allocation. -/
theorem C8_sweep_witness :
    healthy demo_state ∧ WF demo_state ∧
    ∃ st', safepointer_collect_garbage demo_state = some (C_SAFEMEM_NO_ERR, st') ∧
      (∀ j, ptr_at demo_state j ≠ NULL ∧ death_at demo_state j = demo_state.c_safemem_update_calls →
          ptr_at st' j = NULL ∧ hash_at st' j = SAFEPTRHASH_ZERO ∧ death_at st' j = 0) ∧
      (∀ j, ¬ (ptr_at demo_state j ≠ NULL ∧
            death_at demo_state j = demo_state.c_safemem_update_calls) →
          ptr_at st' j = ptr_at demo_state j ∧ hash_at st' j = hash_at demo_state j ∧
          death_at st' j = death_at demo_state j) ∧
      st'.c_safemem_nptrs = demo_state.c_safemem_nptrs ∧
      st'.c_safemem_ptrs.length = demo_state.c_safemem_ptrs.length ∧
      st'.c_safemem_hash_counter = demo_state.c_safemem_hash_counter ∧
      st'.c_safemem_update_calls = (demo_state.c_safemem_update_calls + 1) % SIZE_MOD ∧
      (demo_state.c_safemem_update_calls < SIZE_MAX →
        st'.c_safemem_update_calls = demo_state.c_safemem_update_calls + 1) :=
  ⟨demo_healthy, demo_WF, C8_sweep demo_state demo_healthy demo_WF⟩

/-- C9 (as amended) at the worked example: `safepointer_malloc(40, 0)` on the initial
state. -/
theorem C9_lifetime_zero_expires_witness :
    healthy initial_state ∧ WF initial_state ∧ room initial_state ∧ grants_all demo_heap ∧
    ∃ h st1 p, safepointer_malloc initial_state 40 0 demo_heap = some (h, st1) ∧ p ≠ NULL ∧
      valid st1 h ∧ safepointer_deref st1 h = some p ∧
      ∀ n, 1 ≤ n → ∃ stn, collect_garbage_times n st1 = some stn ∧
        safepointer_deref stn h = some NULL ∧ ¬ valid stn h :=
  ⟨initial_healthy, initial_WF, initial_room, demo_grants,
    C9_lifetime_zero_expires initial_state 40 demo_heap initial_healthy initial_WF initial_room
      demo_grants⟩

/-- C10 (as amended) at the worked example: `safepointer_malloc(40, 3)` on the initial
state. -/
theorem C10_example_scenario_witness :
    healthy initial_state ∧ WF initial_state ∧ room initial_state ∧ grants_all demo_heap ∧
    ∃ H st1 p, safepointer_malloc initial_state 40 3 demo_heap = some (H, st1) ∧
      H.size = 40 ∧ p ≠ NULL ∧ safepointer_deref st1 H = some p ∧
      (∃ st3, collect_garbage_times 3 st1 = some st3 ∧ valid st3 H ∧
        safepointer_deref st3 H = some p) ∧
      (∃ st4, collect_garbage_times 4 st1 = some st4 ∧
        safepointer_deref st4 H = some NULL ∧
        safepointer_free st4 H = some (C_SAFEMEM_INVALID_STATE, st4)) :=
  ⟨initial_healthy, initial_WF, initial_room, demo_grants,
    C10_example_scenario initial_state demo_heap initial_healthy initial_WF initial_room
      demo_grants⟩


/-- C11 at the worked example: `safepointer_malloc(40, 2)` on the initial state,
renewed with `safepointer_keepalive(h, 5)`. -/
theorem C11_keepalive_extends_survival_witness :
    healthy initial_state ∧ WF initial_state ∧ room initial_state ∧ grants_all demo_heap ∧
    ∃ h st1 p st2 st4 st9,
      safepointer_malloc initial_state 40 2 demo_heap = some (h, st1) ∧ p ≠ NULL ∧
      safepointer_deref st1 h = some p ∧
      safepointer_keepalive st1 h 5 = some st2 ∧
      collect_garbage_times 2 st2 = some st4 ∧ valid st4 h ∧
      safepointer_deref st4 h = some p ∧
      collect_garbage_times 5 st4 = some st9 ∧ safepointer_deref st9 h = some NULL :=
  ⟨initial_healthy, initial_WF, initial_room, demo_grants,
    (C11_keepalive_extends_survival initial_state 40 demo_heap initial_healthy initial_WF
      initial_room demo_grants).2⟩

/-- C15 at the instance poisoned by a refused growth. -/
theorem C15_poison_fail_fast_witness :
    ¬ healthy demo_poisoned ∧
    safepointer_malloc demo_poisoned 40 3 demo_heap =
      some ({ indy := SIZE_MAX, size := 0, hash := ⟨SIZE_MAX, SIZE_MAX⟩ }, demo_poisoned) ∧
    safepointer_free demo_poisoned demo_handle = some (C_SAFEMEM_FAILED_MALLOC, demo_poisoned) ∧
    safepointer_collect_garbage demo_poisoned = some (C_SAFEMEM_FAILED_MALLOC, demo_poisoned) ∧
    safepointer_deref demo_poisoned demo_handle = some NULL ∧
    safepointer_keepalive demo_poisoned demo_handle 3 = some demo_poisoned :=
  ⟨demo_poisoned_not_healthy,
    C15_poison_fail_fast demo_poisoned demo_poisoned_not_healthy 40 3 demo_heap demo_handle⟩

/-- C17 (as amended) at the worked example: the first allocation on the initial
state. -/
theorem C17_generation_stamped_witness :
    healthy initial_state ∧ WF initial_state ∧
    safepointer_malloc initial_state 40 3 demo_heap = some (demo_handle, demo_state) ∧
    healthy demo_state ∧
    demo_handle.hash = (safepointer_increment_hash_counter initial_state).c_safemem_hash_counter ∧
    hash_at demo_state demo_handle.indy = demo_handle.hash ∧
    demo_state.c_safemem_hash_counter = demo_handle.hash ∧
    demo_handle.hash.part1 = (initial_state.c_safemem_hash_counter.part1 + 1) % SIZE_MOD ∧
    demo_handle.hash.part2 = (if (initial_state.c_safemem_hash_counter.part1 + 1) % SIZE_MOD = 0
      then (initial_state.c_safemem_hash_counter.part2 + 1) % SIZE_MOD
      else initial_state.c_safemem_hash_counter.part2) ∧
    hash_val demo_handle.hash = (hash_val initial_state.c_safemem_hash_counter + 1) % HASH_MOD :=
  ⟨initial_healthy, initial_WF, demo_malloc 40 3, demo_healthy,
    C17_generation_stamped initial_state initial_healthy initial_WF 40 3 demo_heap demo_handle
      demo_state (demo_malloc 40 3) demo_healthy⟩

/-- C18 at the worked example: the initial table has no slot, so the first allocation
grows it and takes slot 0. -/
theorem C18_slot_search_witness :
    healthy initial_state ∧ WF initial_state ∧
    safepointer_malloc initial_state 40 3 demo_heap = some (demo_handle, demo_state) ∧
    healthy demo_state ∧
    ((∀ t, t < initial_state.c_safemem_nptrs → ptr_at initial_state t ≠ NULL) →
      demo_handle.indy = initial_state.c_safemem_nptrs ∧
      demo_state.c_safemem_nptrs = initial_state.c_safemem_nptrs + C_SAFEMEM_BLOCK_SIZE) ∧
    ptr_at initial_state demo_handle.indy = NULL ∧
    demo_state.quick = demo_handle.indy + 1 ∧
    (demo_state.c_safemem_nptrs = initial_state.c_safemem_nptrs + C_SAFEMEM_BLOCK_SIZE ↔
      ∀ t, t < initial_state.c_safemem_nptrs → ptr_at initial_state t ≠ NULL) ∧
    (demo_state.c_safemem_nptrs ≠ initial_state.c_safemem_nptrs + C_SAFEMEM_BLOCK_SIZE →
      demo_state.c_safemem_nptrs = initial_state.c_safemem_nptrs) :=
  ⟨initial_healthy, initial_WF, demo_malloc 40 3, demo_healthy,
    (C18_slot_search initial_state initial_healthy initial_WF 40 3 demo_heap demo_handle
      demo_state (demo_malloc 40 3) demo_healthy).2.2⟩

theorem demo_ops_run :
    ∃ st, exec initial_state demo_ops = some st ∧ healthy st := by
  obtain ⟨hfree, hg2, hc2, -, -⟩ := demo_freed 40 3
  obtain ⟨st3, p, hm3, ha3⟩ := @malloc_all_empty _ hg2.1 hg2.2.1 hc2 8 0 demo_heap demo_grants
  have hm1 := demo_malloc 40 3
  have hfree' : safepointer_free demo_state demo_handle =
      some (C_SAFEMEM_NO_ERR, released demo_state 0) := hfree
  have hm3' : safepointer_malloc (released demo_state 0) 8 0 demo_heap =
      some (⟨churn_index (released demo_state 0), 8, next_hash (released demo_state 0)⟩, st3) := hm3
  refine ⟨st3, ?_, ha3.is_healthy⟩
  unfold demo_ops
  rw [exec, step, hm1]
  show exec demo_state [Op.free demo_handle, Op.malloc 8 0 demo_heap] = some st3
  rw [exec, step, hfree']
  show exec (released demo_state 0) [Op.malloc 8 0 demo_heap] = some st3
  rw [exec, step, hm3']
  rfl

/-- C19 at the worked example: allocate, free, allocate on the initial state. -/
theorem C19_slot_table_invariant_witness :
    Op.collect_all ∉ demo_ops ∧ malloc_count demo_ops < HASH_MOD - 1 ∧
    ∃ st, exec initial_state demo_ops = some st ∧ healthy st ∧
      (Lens st ∧ st.quick ≤ st.c_safemem_nptrs ∧
        ∀ i, i < st.c_safemem_nptrs →
          (ptr_at st i ≠ NULL ↔ hash_at st i ≠ SAFEPTRHASH_ZERO)) :=
  ⟨by decide, by decide,
    demo_ops_run.elim fun st hst =>
      ⟨st, hst.1, hst.2, C19_slot_table_invariant demo_ops st (by decide) (by decide) hst.1 hst.2⟩⟩

/-- C20 at the initial state: the table is empty, the loop grows it once and ends with
slot 0. -/
theorem C20_slot_search_terminates_witness :
    healthy initial_state ∧ WF initial_state ∧ room initial_state ∧
    sentinel.indy = SIZE_MAX ∧
    ∃ ex, malloc_while 4 sentinel initial_state.c_safemem_nptrs initial_state demo_heap = some ex ∧
      (∀ f, malloc_while (4 + f) sentinel initial_state.c_safemem_nptrs initial_state demo_heap =
        some ex) ∧
      ((∃ s' st' heap', ex = MallocExit.done s' st' heap' ∧ healthy st' ∧
          s'.indy < st'.c_safemem_nptrs ∧
          ((st'.c_safemem_nptrs = initial_state.c_safemem_nptrs ∧
              malloc_while 3 sentinel initial_state.c_safemem_nptrs initial_state demo_heap =
                some ex) ∨
            (st'.c_safemem_nptrs = initial_state.c_safemem_nptrs + C_SAFEMEM_BLOCK_SIZE ∧
              grants3 demo_heap ∧
              ∀ t, t < initial_state.c_safemem_nptrs → ptr_at initial_state t ≠ NULL))) ∨
        (∃ st', ex = MallocExit.ret sentinel st' ∧ ¬ healthy st' ∧ ¬ grants3 demo_heap ∧
          ∀ t, t < initial_state.c_safemem_nptrs → ptr_at initial_state t ≠ NULL)) :=
  ⟨initial_healthy, initial_WF, initial_room, rfl,
    C20_slot_search_terminates initial_state initial_healthy initial_WF initial_room sentinel
      rfl demo_heap⟩

end SafeMem
